import Mathlib

/-!
# Card-matching solitaire: move engine and undo

A shallow embedding of the click / undo logic of the game
(`GameController`, `GameView`, `StackView`, `PlayfieldView`, `UndoManager`).

Modelling conventions

* A `CardView*` is an address (`Nat`) into a heap `Nat → CardView`; a nullable
  pointer is an `Option Nat`.  Addresses are handed out by a counter.
* Coordinates are integers.  The level loader reads every coordinate with
  `GetInt()` and the stack layout produces multiples of `25`, and every
  half-extent used in the overlap tests (75, 80, 85, 105, 110, 115) is integral,
  so the arithmetic of the source is exact on these values.
* `runAction(Sequence(MoveTo/DelayTime, CallFunc))` and the scheduler call are
  recorded in `GameState.pending`; `runPending` runs them in order of their
  delay.  A completed `MoveTo` leaves its target at the end position.
* Reference counting, sprites, touch dispatch and logging are not modelled.
-/

/-! ## Data model -/

/-- Mirror of `cocos2d::Vec2` with integral coordinates. -/
structure Vec2 where
  x : Int
  y : Int
deriving DecidableEq, Repr

/-- Mirror of `cocos2d::Size`. -/
structure Size where
  width : Int
  height : Int
deriving DecidableEq, Repr

/-- The node a `CardView` is currently a child of. -/
inductive ParentNode where
  | none
  | playfield
  | reserveStack
  | baseStack
  | scene
deriving DecidableEq, Repr

/-- The fields of a `CardView` node that the game logic reads or writes. -/
structure CardView where
  cardId : Int
  cardFace : Int
  cardSuit : Int
  position : Vec2
  localZOrder : Int
  visible : Bool
  opacity : Nat
  parent : ParentNode
deriving DecidableEq, Repr

/-- The heap of card views, by address. -/
abbrev Heap := Nat → CardView

/-- Result of `CardView::create(face, suit, true)`: id `-1`, node defaults. -/
def CardView.create (face suit : Int) : CardView :=
  { cardId := -1, cardFace := face, cardSuit := suit, position := ⟨0, 0⟩,
    localZOrder := 0, visible := true, opacity := 255, parent := ParentNode.none }

/-- Content size of a card: `CardView` never calls `setContentSize`, so it is
the `Node` default `Size::ZERO`. -/
def CardView.getContentSize (_c : CardView) : Size := ⟨0, 0⟩

/-- Write one object of the heap. -/
def Heap.set (h : Heap) (p : Nat) (c : CardView) : Heap :=
  fun q => if q = p then c else h q

/-- Mirror of `enum class MoveType`. -/
inductive MoveType where
  | RESERVE_TO_BASE
  | REORDER_BASE
  | PLAYFIELD_TO_BASE
deriving DecidableEq, Repr

/-- Mirror of `struct UndoRecord`. -/
structure UndoRecord where
  cardId : Int
  moveType : MoveType
  originalPos : Vec2
  originalParent : Int
  originalIndex : Int
deriving DecidableEq, Repr

/-- Mirror of `struct MoveRecord` (the controller's `_moveHistory` entries). -/
structure MoveRecord where
  cardId : Int
  fromPlayfield : Bool
  toBaseStack : Bool
deriving DecidableEq, Repr

/-- Mirror of `CardRestoreInfo` / `StackCardRestoreInfo`. -/
structure CardRestoreInfo where
  cardId : Int
  position : Vec2
  zOrder : Int
  visible : Bool
deriving DecidableEq, Repr

/-- Mirror of `PlayfieldView::LayoutType`. -/
inductive LayoutType where
  | KEEP_ORIGINAL
  | HORIZONTAL_LINE
  | CUSTOM
deriving DecidableEq, Repr

/-- Mirror of `StackView`: the member vector and the saved-state map. -/
structure StackView where
  cards : List Nat
  cardStates : Int → Option CardRestoreInfo

/-- Mirror of `PlayfieldView`. -/
structure PlayfieldView where
  cards : List Nat
  cardStates : Int → Option CardRestoreInfo
  currentLayout : LayoutType

/-- Mirror of `struct CardModel` (GameController.h). -/
structure CardModel where
  id : Int
  face : Int
  suit : Int
  isFaceUp : Bool
  isRemoved : Bool
  posX : Int
  posY : Int
deriving DecidableEq, Repr

/-- Mirror of `class GameModel` (GameController.h). -/
structure GameModel where
  cards : List CardModel
  baseStack : List CardModel
  reserveStack : List CardModel
  playfield : List CardModel
  nextCardId : Int
deriving DecidableEq, Repr

/-- Mirror of `struct CardConfig`. -/
structure CardConfig where
  face : Int
  suit : Int
  position : Vec2
deriving DecidableEq, Repr

/-- Mirror of `struct LevelConfig`. -/
structure LevelConfig where
  playfieldCards : List CardConfig
  stackCards : List CardConfig
  baseCards : List CardConfig
deriving DecidableEq, Repr

/-- The bodies of the `CallFunc` / scheduler lambdas, with their captures. -/
inductive Callback where
  | handCard (cardView : Nat)
  | reserveCard (cardView : Nat) (topCard : Option Nat)
  | playfieldToBase (overlayCard topCard cardView : Nat)
  | undoReserveToBase (cardView : Nat)
  | undoReorderBase (cardView : Nat)
  | finalPlayfieldCheck
deriving DecidableEq, Repr

/-- One scheduled action: the node it runs on (`none` for the scheduler),
the delay in milliseconds, the `MoveTo` end position if any, and the callback. -/
structure Scheduled where
  target : Option Nat
  delay : Nat
  moveTo : Option Vec2
  callback : Callback
deriving DecidableEq, Repr

/-- The whole state: the views owned by `GameView`, the card objects, the
members of `GameController`, and the actions still to run. -/
structure GameState where
  heap : Heap
  nextPtr : Nat
  nextCardId : Int
  playfieldView : PlayfieldView
  baseStackView : StackView
  reserveStackView : StackView
  undoButtonVisible : Bool
  gameModel : GameModel
  undoStack : List UndoRecord
  moveHistory : List MoveRecord
  baseStackSnapshot : List Nat
  pending : List Scheduled

/-! ## MatchRule -/

/-- Mirror of `GameController::canMatchCards`. -/
def GameController.canMatchCards (face1 face2 : Int) : Bool :=
  if (face1 - face2).natAbs = 1 then true
  else if (face1 = 1 ∧ face2 = 13) ∨ (face1 = 13 ∧ face2 = 1) then true
  else false

/-! ## UndoManager -/

/-- Mirror of `UndoManager::canUndo`. -/
def UndoManager.canUndo (undoStack : List UndoRecord) : Bool :=
  !undoStack.isEmpty

/-- Mirror of `UndoManager::undo`: the popped record and the remaining stack; the
sentinel record on an empty stack. -/
def UndoManager.undo (undoStack : List UndoRecord) : UndoRecord × List UndoRecord :=
  match undoStack with
  | r :: rest => (r, rest)
  | [] => (⟨-1, MoveType.RESERVE_TO_BASE, ⟨0, 0⟩, -1, -1⟩, [])

/-- Mirror of `UndoManager::push`. -/
def UndoManager.push (undoStack : List UndoRecord) (record : UndoRecord) : List UndoRecord :=
  record :: undoStack

/-- Mirror of `UndoManager::recordMove`. -/
def UndoManager.recordMove (undoStack : List UndoRecord) (record : UndoRecord) :
    List UndoRecord :=
  UndoManager.push undoStack record

/-! ## CardView setters -/

/-- The card with its position replaced. -/
def CardView.withPosition (c : CardView) (v : Vec2) : CardView :=
  { c with position := v }

/-- The card with its z-order replaced. -/
def CardView.withLocalZOrder (c : CardView) (z : Int) : CardView :=
  { c with localZOrder := z }

/-- The card with its visibility replaced. -/
def CardView.withVisible (c : CardView) (b : Bool) : CardView :=
  { c with visible := b }

/-- The card with its opacity replaced. -/
def CardView.withOpacity (c : CardView) (o : Nat) : CardView :=
  { c with opacity := o }

/-- The card with its id replaced. -/
def CardView.withCardId (c : CardView) (i : Int) : CardView :=
  { c with cardId := i }

/-- The card with its parent link replaced. -/
def CardView.withParent (c : CardView) (n : ParentNode) : CardView :=
  { c with parent := n }

/-- Mirror of `Node::setPosition` on the card at address `p`. -/
def Heap.setPosition (h : Heap) (p : Nat) (v : Vec2) : Heap :=
  h.set p ((h p).withPosition v)

/-- Mirror of `Node::setLocalZOrder`. -/
def Heap.setLocalZOrder (h : Heap) (p : Nat) (z : Int) : Heap :=
  h.set p ((h p).withLocalZOrder z)

/-- Mirror of `Node::setVisible`. -/
def Heap.setVisible (h : Heap) (p : Nat) (b : Bool) : Heap :=
  h.set p ((h p).withVisible b)

/-- Mirror of `Node::setOpacity`. -/
def Heap.setOpacity (h : Heap) (p : Nat) (o : Nat) : Heap :=
  h.set p ((h p).withOpacity o)

/-- Mirror of `CardView::setCardId`. -/
def Heap.setCardId (h : Heap) (p : Nat) (i : Int) : Heap :=
  h.set p ((h p).withCardId i)

/-- Effect of `addChild` / `removeChild` / `removeFromParentAndCleanup` on the
child: its parent link. -/
def Heap.setParent (h : Heap) (p : Nat) (n : ParentNode) : Heap :=
  h.set p ((h p).withParent n)

/-! ## StackView -/

/-- The loop of `StackView::layoutCards`, from index `i` on: card `i` goes to
`(25 * i, 0)` with z-order `i` and is made visible. -/
def StackView.layoutFrom (h : Heap) : List Nat → Nat → Heap
  | [], _ => h
  | p :: ps, i =>
    StackView.layoutFrom
      (((h.setPosition p ⟨0 + (i : Int) * 25, 0⟩).setLocalZOrder p (i : Int)).setVisible p true)
      ps (i + 1)

/-- Mirror of `StackView::layoutCards`. -/
def StackView.layoutCards (h : Heap) (v : StackView) : Heap :=
  StackView.layoutFrom h v.cards 0

/-- Mirror of `StackView::getTopCard`. -/
def StackView.getTopCard (v : StackView) : Option Nat :=
  v.cards.getLast?

/-- Mirror of `StackView::findCardById`. -/
def StackView.findCardById (h : Heap) (v : StackView) (cardId : Int) : Option Nat :=
  v.cards.find? (fun p => decide ((h p).cardId = cardId))

/-- Mirror of `StackView::addCard`; `self` names the stack node the card becomes a child
of.  The card is appended; the stack is laid out again only when the card sits
at `(0, 0)`. -/
def StackView.addCard (self : ParentNode) (h : Heap) (v : StackView) :
    Option Nat → Heap × StackView
  | none => (h, v)
  | some card =>
    let v1 : StackView := { v with cards := v.cards ++ [card] }
    let h1 := h.setParent card self
    if (h1 card).position.x = 0 ∧ (h1 card).position.y = 0 then
      (StackView.layoutCards h1 v1, v1)
    else
      (h1, v1)

/-- Mirror of `StackView::removeCard`: erase the first occurrence, detach, lay out. -/
def StackView.removeCard (h : Heap) (v : StackView) : Option Nat → Heap × StackView
  | none => (h, v)
  | some card =>
    if card ∈ v.cards then
      let v1 : StackView := { v with cards := v.cards.erase card }
      let h1 := h.setParent card ParentNode.none
      (StackView.layoutCards h1 v1, v1)
    else
      (h, v)

/-- Mirror of `StackView::moveCardToTop`. -/
def StackView.moveCardToTop (h : Heap) (v : StackView) (cardView : Nat) : Heap × StackView :=
  if cardView ∈ v.cards then
    let v1 : StackView := { v with cards := v.cards.erase cardView ++ [cardView] }
    (StackView.layoutCards h v1, v1)
  else
    (h, v)

/-- Mirror of `StackView::saveCardState`. -/
def StackView.saveCardState (h : Heap) (v : StackView) (cardId : Int) : StackView :=
  match StackView.findCardById h v cardId with
  | some card =>
    let info : CardRestoreInfo :=
      ⟨cardId, (h card).position, (h card).localZOrder, (h card).visible⟩
    { v with cardStates := fun i => if i = cardId then some info else v.cardStates i }
  | none => v

/-- Mirror of `StackView::restoreCardState`. -/
def StackView.restoreCardState (h : Heap) (v : StackView) (cardId : Int) : Heap :=
  match v.cardStates cardId with
  | some info =>
    match StackView.findCardById h v cardId with
    | some card =>
      ((h.setPosition card info.position).setLocalZOrder card info.zOrder).setVisible card
        info.visible
    | none => h
  | none => h

/-! ## PlayfieldView -/

/-- Mirror of `PlayfieldView::findCardById`. -/
def PlayfieldView.findCardById (h : Heap) (v : PlayfieldView) (cardId : Int) : Option Nat :=
  v.cards.find? (fun p => decide ((h p).cardId = cardId))

/-- The search for the highest z-order among the other cards in
`PlayfieldView::addCard`, starting from `-1`. -/
def PlayfieldView.maxZOrderOthers (h : Heap) (cards : List Nat) (cardView : Nat) : Int :=
  cards.foldl
    (fun maxZOrder card =>
      if card ≠ cardView ∧ (h card).localZOrder > maxZOrder then (h card).localZOrder
      else maxZOrder)
    (-1)

/-- Mirror of `PlayfieldView::addCard`. -/
def PlayfieldView.addCard (h : Heap) (v : PlayfieldView) :
    Option Nat → Heap × PlayfieldView
  | none => (h, v)
  | some cardView =>
    let currentPos := (h cardView).position
    let hasValidPosition : Bool := decide (currentPos.x ≠ 0 ∨ currentPos.y ≠ 0)
    let wasVisible := (h cardView).visible
    let originalZOrder := (h cardView).localZOrder
    let v1 : PlayfieldView := { v with cards := v.cards ++ [cardView] }
    let h1 := h.setParent cardView ParentNode.playfield
    let h2 :=
      if originalZOrder ≥ 0 then h1.setLocalZOrder cardView originalZOrder
      else
        let maxZOrder := PlayfieldView.maxZOrderOthers h1 v1.cards cardView
        let maxZOrder := if maxZOrder < 0 then -1 else maxZOrder
        h1.setLocalZOrder cardView (maxZOrder + 1)
    let h3 :=
      if !wasVisible || decide ((h2 cardView).opacity = 0) then
        (h2.setVisible cardView false).setOpacity cardView 0
      else
        (h2.setVisible cardView true).setOpacity cardView 255
    let h4 := if hasValidPosition then h3.setPosition cardView currentPos else h3
    (h4, v1)

/-- Mirror of `PlayfieldView::removeCard`: every occurrence is removed, nothing is laid
out again. -/
def PlayfieldView.removeCard (h : Heap) (v : PlayfieldView) :
    Option Nat → Heap × PlayfieldView
  | none => (h, v)
  | some cardView =>
    let h1 := if (h cardView).parent = ParentNode.playfield
      then h.setParent cardView ParentNode.none else h
    (h1, { v with cards := v.cards.filter (fun c => c ≠ cardView) })

/-- The size used for a card in the overlap tests: its content size, or
`150 x 210` when that is empty. -/
def cardSizeOrDefault (sz : Size) : Size :=
  if sz.width ≤ 0 ∨ sz.height ≤ 0 then ⟨150, 210⟩ else sz

/-- The body of the loop of `PlayfieldView::isCardCovered` for one other card:
does `otherCard` cover the target (whose size already includes the margin)? -/
def PlayfieldView.coveredBy (h : Heap) (targetCard : Nat) (targetSize : Size)
    (otherCard : Nat) : Bool :=
  if otherCard = targetCard ∨ (h otherCard).visible = false ∨ (h otherCard).opacity = 0 then
    false
  else
    let targetPos := (h targetCard).position
    let targetZOrder := (h targetCard).localZOrder
    let otherPos := (h otherCard).position
    let otherZOrder := (h otherCard).localZOrder
    if otherZOrder ≤ targetZOrder then false
    else
      let otherSize := cardSizeOrDefault (h otherCard).getContentSize
      let left1 := targetPos.x - targetSize.width / 2
      let right1 := targetPos.x + targetSize.width / 2
      let bottom1 := targetPos.y - targetSize.height / 2
      let top1 := targetPos.y + targetSize.height / 2
      let left2 := otherPos.x - otherSize.width / 2
      let right2 := otherPos.x + otherSize.width / 2
      let bottom2 := otherPos.y - otherSize.height / 2
      let top2 := otherPos.y + otherSize.height / 2
      let overlapLeft := max left1 left2
      let overlapRight := min right1 right2
      let overlapBottom := max bottom1 bottom2
      let overlapTop := min top1 top2
      decide (overlapLeft < overlapRight ∧ overlapBottom < overlapTop)

/-- Mirror of `PlayfieldView::isCardCovered`. -/
def PlayfieldView.isCardCovered (h : Heap) (v : PlayfieldView) : Option Nat → Bool
  | none => true
  | some targetCard =>
    if (h targetCard).visible = false ∨ (h targetCard).opacity = 0 then true
    else if (h targetCard).parent ≠ ParentNode.playfield then true
    else
      let targetSize := cardSizeOrDefault (h targetCard).getContentSize
      let targetSize : Size := ⟨targetSize.width + 5 * 2, targetSize.height + 5 * 2⟩
      v.cards.any (fun otherCard => PlayfieldView.coveredBy h targetCard targetSize otherCard)

/-- Mirror of `PlayfieldView::saveCardState`. -/
def PlayfieldView.saveCardState (h : Heap) (v : PlayfieldView) (cardId : Int) :
    PlayfieldView :=
  match PlayfieldView.findCardById h v cardId with
  | some card =>
    let info : CardRestoreInfo :=
      ⟨cardId, (h card).position, (h card).localZOrder, (h card).visible⟩
    { v with cardStates := fun i => if i = cardId then some info else v.cardStates i }
  | none => v

/-- Mirror of `PlayfieldView::restoreCardState`. -/
def PlayfieldView.restoreCardState (h : Heap) (v : PlayfieldView) (cardId : Int) : Heap :=
  match v.cardStates cardId with
  | some info =>
    match PlayfieldView.findCardById h v cardId with
    | some card =>
      ((h.setPosition card info.position).setLocalZOrder card info.zOrder).setVisible card
        info.visible
    | none => h
  | none => h

/-! ## GameView -/

/-- Mirror of `runAction` / `schedule`: record an action to run later. -/
def GameState.schedule (s : GameState) (a : Scheduled) : GameState :=
  { s with pending := s.pending ++ [a] }

/-- Mirror of `GameView::showUndoButton`: the visibility last given to the undo button
(the button is taken to exist). -/
def GameView.showUndoButton (s : GameState) (visible : Bool) : GameState :=
  { s with undoButtonVisible := visible }

/-- Mirror of `GameView::onHandCardClicked`: schedules the move to the top after a short
delay, unless there is no top card or the card is the top card. -/
def GameView.onHandCardClicked (s : GameState) (cardView : Nat) : GameState :=
  match s.baseStackView.getTopCard with
  | none => s
  | some topCard =>
    if cardView = topCard then s
    else
      s.schedule ⟨some cardView, 10, none, Callback.handCard cardView⟩

/-- Mirror of `GameView::onReserveCardClicked`: schedules the flight of the card to the
top of the base stack. -/
def GameView.onReserveCardClicked (s : GameState) (cardView : Nat) : GameState :=
  let topCard := s.baseStackView.getTopCard
  let targetPos : Vec2 :=
    match topCard with
    | some t => (s.heap t).position
    | none => ⟨(s.baseStackView.cards.length : Int) * 25, 0⟩
  s.schedule ⟨some cardView, 300, some targetPos, Callback.reserveCard cardView topCard⟩

/-! ## GameController -/

/-- Mirror of `GameController::findCardViewById` (both overloads): the first member
whose id is `cardId`. -/
def GameController.findCardViewById (h : Heap) (cardId : Int) (cards : List Nat) :
    Option Nat :=
  cards.find? (fun card => decide ((h card).cardId = cardId))

/-- The `std::sort` by z-order of `getClickablePlayfieldCards` (ties are left
in member order). -/
def GameController.sortByZOrder (h : Heap) (cards : List Nat) : List Nat :=
  cards.insertionSort (fun a b => (h a).localZOrder ≤ (h b).localZOrder)

/-- The manual test of `getClickablePlayfieldCards`: does `otherCard`, with a
higher z-order, overlap `card` enlarged by the margin of `10`? -/
def GameController.manuallyCoveredBy (h : Heap) (card otherCard : Nat) : Bool :=
  if otherCard = card then false
  else if (h otherCard).localZOrder > (h card).localZOrder then
    let cardPos := (h card).position
    let otherPos := (h otherCard).position
    let cardSize : Size := ⟨150, 210⟩
    let otherSize : Size := ⟨150, 210⟩
    let card1Left := cardPos.x - cardSize.width / 2 - 10
    let card1Right := cardPos.x + cardSize.width / 2 + 10
    let card1Bottom := cardPos.y - cardSize.height / 2 - 10
    let card1Top := cardPos.y + cardSize.height / 2 + 10
    let card2Left := otherPos.x - otherSize.width / 2
    let card2Right := otherPos.x + otherSize.width / 2
    let card2Bottom := otherPos.y - otherSize.height / 2
    let card2Top := otherPos.y + otherSize.height / 2
    decide (card1Left < card2Right ∧ card1Right > card2Left ∧
      card1Bottom < card2Top ∧ card1Top > card2Bottom)
  else false

/-- Mirror of `GameController::getClickablePlayfieldCards`. -/
def GameController.getClickablePlayfieldCards (h : Heap) (v : PlayfieldView) : List Nat :=
  let sortedCards := GameController.sortByZOrder h v.cards
  let visibleCards :=
    sortedCards.filter (fun card => (h card).visible && decide ((h card).opacity > 0))
  visibleCards.filter (fun card =>
    !(PlayfieldView.isCardCovered h v (some card)) &&
    !(visibleCards.any (fun otherCard => GameController.manuallyCoveredBy h card otherCard)))

/-- Mirror of `GameController::getMatchablePlayfieldCards` (its result is only logged by
the click handler). -/
def GameController.getMatchablePlayfieldCards (h : Heap) (v : PlayfieldView) :
    Option Nat → List Nat
  | none => []
  | some cardToMatch =>
    (GameController.getClickablePlayfieldCards h v).filter (fun card =>
      !(PlayfieldView.isCardCovered h v (some card)) &&
      GameController.canMatchCards (h card).cardFace (h cardToMatch).cardFace &&
      ((h card).visible && decide ((h card).opacity > 0)))

/-- The manual coverage loop of `onCardClicked` (third check): some other
visible card with a higher z-order overlaps the clicked card. -/
def GameController.manualCoverageCheck (h : Heap) (v : PlayfieldView) (cardView : Nat) :
    Bool :=
  let targetZOrder := (h cardView).localZOrder
  let targetPos := (h cardView).position
  let targetSize := cardSizeOrDefault (h cardView).getContentSize
  v.cards.any (fun otherCard =>
    if otherCard = cardView ∨ (h otherCard).visible = false ∨ (h otherCard).opacity = 0 then
      false
    else if (h otherCard).localZOrder > targetZOrder then
      let otherPos := (h otherCard).position
      let otherSize := cardSizeOrDefault (h otherCard).getContentSize
      let left1 := targetPos.x - targetSize.width / 2
      let right1 := targetPos.x + targetSize.width / 2
      let bottom1 := targetPos.y - targetSize.height / 2
      let top1 := targetPos.y + targetSize.height / 2
      let left2 := otherPos.x - otherSize.width / 2
      let right2 := otherPos.x + otherSize.width / 2
      let bottom2 := otherPos.y - otherSize.height / 2
      let top2 := otherPos.y + otherSize.height / 2
      decide (left1 < right2 ∧ right1 > left2 ∧ bottom1 < top2 ∧ top1 > bottom2)
    else false)

/-- The index loop of the reorder branch: the first index of `cardView` in
the base stack, `-1` (the default of `originalIndex`) when absent. -/
def GameController.originalIndexOf (cards : List Nat) (cardView : Nat) : Int :=
  if cardView ∈ cards then (cards.indexOf cardView : Int) else -1

/-- Branch 1 of `onCardClicked`: a base card that is not the top card. -/
def GameController.clickReorderBase (s : GameState) (cardId : Int) (cardView : Nat) :
    GameState :=
  let record : UndoRecord :=
    { cardId := cardId, moveType := MoveType.REORDER_BASE,
      originalPos := (s.heap cardView).position, originalParent := 2,
      originalIndex := GameController.originalIndexOf s.baseStackView.cards cardView }
  let s1 := { s with baseStackSnapshot := s.baseStackView.cards }
  let s2 := GameView.onHandCardClicked s1 cardView
  let s3 := { s2 with moveHistory := ⟨cardId, false, true⟩ :: s2.moveHistory }
  let s4 := { s3 with undoStack := UndoManager.push s3.undoStack record }
  GameView.showUndoButton s4 true

/-- Branch 2 of `onCardClicked` once the ranks match: the overlay card is
created at a fresh address and its flight is scheduled. -/
def GameController.clickPlayfieldToBase (s : GameState) (cardId : Int)
    (cardView topCard : Nat) : GameState :=
  let record : UndoRecord :=
    { cardId := cardId, moveType := MoveType.PLAYFIELD_TO_BASE,
      originalPos := (s.heap cardView).position, originalParent := 0,
      originalIndex := -1 }
  let s1 := { s with
    playfieldView := PlayfieldView.saveCardState s.heap s.playfieldView cardId }
  let overlayCard := s1.nextPtr
  let h1 := s1.heap.set overlayCard
    (CardView.create (s1.heap cardView).cardFace (s1.heap cardView).cardSuit)
  let h2 := h1.setCardId overlayCard cardId
  let targetPos := (h2 topCard).position
  let h3 := h2.setPosition overlayCard (h2 cardView).position
  let h4 := (h3.setVisible overlayCard true).setOpacity overlayCard 255
  let h5 := (h4.setParent overlayCard ParentNode.scene).setLocalZOrder overlayCard 999
  let s2 := { s1 with heap := h5, nextPtr := overlayCard + 1 }
  let s3 := s2.schedule
    ⟨some overlayCard, 300, some targetPos, Callback.playfieldToBase overlayCard topCard cardView⟩
  let s4 := { s3 with moveHistory := ⟨cardId, true, true⟩ :: s3.moveHistory }
  let s5 := { s4 with undoStack := UndoManager.push s4.undoStack record }
  GameView.showUndoButton s5 true

/-- Branch 3 of `onCardClicked`: the top card of the reserve stack. -/
def GameController.clickReserveToBase (s : GameState) (cardId : Int) (cardView : Nat) :
    GameState :=
  let record : UndoRecord :=
    { cardId := cardId, moveType := MoveType.RESERVE_TO_BASE,
      originalPos := (s.heap cardView).position, originalParent := 1,
      originalIndex := -1 }
  let s1 := { s with
    reserveStackView := StackView.saveCardState s.heap s.reserveStackView cardId }
  let s2 := GameView.onReserveCardClicked s1 cardView
  let s3 := { s2 with moveHistory := ⟨cardId, false, true⟩ :: s2.moveHistory }
  let s4 := { s3 with undoStack := UndoManager.push s3.undoStack record }
  GameView.showUndoButton s4 true

/-- The dispatch of `onCardClicked` after the card has been found: the third
coverage check for playfield cards, then the four numbered branches. -/
def GameController.clickDispatch (s : GameState) (cardId : Int) (cardView : Nat)
    (fromPlayfield fromReserve fromBase : Bool) : GameState :=
  if fromPlayfield = true ∧
      (PlayfieldView.isCardCovered s.heap s.playfieldView (some cardView) = true ∨
        GameController.manualCoverageCheck s.heap s.playfieldView cardView = true) then s
  else if fromBase = true ∧ some cardView ≠ s.baseStackView.getTopCard then
    GameController.clickReorderBase s cardId cardView
  else if fromPlayfield = true then
    if PlayfieldView.isCardCovered s.heap s.playfieldView (some cardView) = true then s
    else
      match s.baseStackView.getTopCard with
      | some topCard =>
        if GameController.canMatchCards (s.heap cardView).cardFace (s.heap topCard).cardFace
            = true then
          GameController.clickPlayfieldToBase s cardId cardView topCard
        else s
      | none => s
  else if fromReserve = true ∧ some cardView = s.reserveStackView.getTopCard then
    GameController.clickReserveToBase s cardId cardView
  else s

/-- Mirror of `GameController::onCardClicked`: look the id up in the playfield, then the
reserve stack, then the base stack; playfield cards must pass the coverage
check and be in the clickable list. -/
def GameController.onCardClicked (s : GameState) (cardId : Int) : GameState :=
  match GameController.findCardViewById s.heap cardId s.playfieldView.cards with
  | some cardView =>
    if PlayfieldView.isCardCovered s.heap s.playfieldView (some cardView) = true then s
    else if (GameController.getClickablePlayfieldCards s.heap s.playfieldView).any
        (fun card => decide ((s.heap card).cardId = cardId)) = false then s
    else GameController.clickDispatch s cardId cardView true false false
  | none =>
    match GameController.findCardViewById s.heap cardId s.reserveStackView.cards with
    | some cardView => GameController.clickDispatch s cardId cardView false true false
    | none =>
      match GameController.findCardViewById s.heap cardId s.baseStackView.cards with
      | some cardView => GameController.clickDispatch s cardId cardView false false true
      | none => s

/-- The repair applied to one playfield card by `GameController::updateView`:
a card of opacity zero is left alone; otherwise it is made visible and a
negative z-order becomes `10`. -/
def GameController.updateViewCard (h : Heap) (card : Nat) : Heap :=
  if (h card).opacity = 0 then h
  else
    let h1 := if (h card).visible = false then h.setVisible card true else h
    if (h1 card).localZOrder < 0 then h1.setLocalZOrder card 10 else h1

/-- Mirror of `GameController::updateView`. -/
def GameController.updateView (s : GameState) : GameState :=
  let s1 := GameView.showUndoButton s (UndoManager.canUndo s.undoStack)
  { s1 with heap := s1.playfieldView.cards.foldl GameController.updateViewCard s1.heap }

/-- The repair applied to one playfield card by the scheduled final check of
`onUndoClicked`. -/
def GameController.finalCheckCard (h : Heap) (card : Nat) : Heap :=
  if (h card).opacity = 0 then h
  else
    let h1 :=
      if (h card).visible = false then (h.setVisible card true).setOpacity card 255 else h
    if (h1 card).localZOrder < 0 then h1.setLocalZOrder card 10 else h1

/-- Mirror of `GameController::restoreBaseStackOrder`. -/
def GameController.restoreBaseStackOrder (h : Heap) (baseStackView : StackView)
    (snapshot : List Nat) : Heap × StackView :=
  if snapshot.isEmpty then (h, baseStackView)
  else
    let v1 : StackView := { baseStackView with cards := snapshot }
    (StackView.layoutCards h v1, v1)

/-- The lambda of `GameView::onHandCardClicked`. -/
def Callback.runHandCard (s : GameState) (cardView : Nat) : GameState :=
  let r := StackView.moveCardToTop s.heap s.baseStackView cardView
  { s with heap := r.1, baseStackView := r.2 }

/-- The lambda of `GameView::onReserveCardClicked`. -/
def Callback.runReserveCard (s : GameState) (cardView : Nat) (topCard : Option Nat) :
    GameState :=
  let r1 := StackView.removeCard s.heap s.reserveStackView (some cardView)
  let h2 :=
    match topCard with
    | some t =>
      let ha := r1.1.setPosition cardView (r1.1 t).position
      let hb := ha.setLocalZOrder cardView ((ha t).localZOrder + 1)
      (hb.setVisible cardView true).setOpacity cardView 255
    | none => r1.1
  let r3 := StackView.addCard ParentNode.baseStack h2 s.baseStackView (some cardView)
  let h4 := StackView.layoutCards r3.1 r1.2
  let h5 := if topCard.isNone then StackView.layoutCards h4 r3.2 else h4
  { s with heap := h5, reserveStackView := r1.2, baseStackView := r3.2 }

/-- The lambda of the `PLAYFIELD_TO_BASE` branch of `onCardClicked`. -/
def Callback.runPlayfieldToBase (s : GameState) (overlayCard topCard cardView : Nat) :
    GameState :=
  let h1 := if (s.heap overlayCard).parent = ParentNode.scene
    then s.heap.setParent overlayCard ParentNode.none else s.heap
  let h2 := h1.setPosition overlayCard (h1 topCard).position
  let h3 := h2.setLocalZOrder overlayCard ((h2 topCard).localZOrder + 1)
  let h4 := (h3.setVisible overlayCard true).setOpacity overlayCard 255
  let r5 := StackView.addCard ParentNode.baseStack h4 s.baseStackView (some overlayCard)
  let h6 := (r5.1.setOpacity cardView 0).setVisible cardView false
  { s with heap := h6, baseStackView := r5.2 }

/-- The lambda of the `RESERVE_TO_BASE` case of `onUndoClicked`. -/
def Callback.runUndoReserveToBase (s : GameState) (cardView : Nat) : GameState :=
  let r1 := StackView.removeCard s.heap s.baseStackView (some cardView)
  let r2 := StackView.addCard ParentNode.reserveStack r1.1 s.reserveStackView (some cardView)
  let h3 := StackView.layoutCards r2.1 r1.2
  let h4 := StackView.layoutCards h3 r2.2
  let s1 := { s with heap := h4, baseStackView := r1.2, reserveStackView := r2.2 }
  let s2 := GameView.showUndoButton s1 (UndoManager.canUndo s1.undoStack)
  GameController.updateView s2

/-- The lambda of the `REORDER_BASE` case of `onUndoClicked`. -/
def Callback.runUndoReorderBase (s : GameState) (_cardView : Nat) : GameState :=
  let s1 :=
    if s.baseStackSnapshot.isEmpty then s
    else
      let r := GameController.restoreBaseStackOrder s.heap s.baseStackView s.baseStackSnapshot
      { s with heap := r.1, baseStackView := r.2 }
  let s2 := GameView.showUndoButton s1 (UndoManager.canUndo s1.undoStack)
  GameController.updateView s2

/-- The scheduled final verification of `onUndoClicked`. -/
def Callback.runFinalPlayfieldCheck (s : GameState) : GameState :=
  { s with heap := s.playfieldView.cards.foldl GameController.finalCheckCard s.heap }

/-- Run the body of one callback. -/
def Callback.run (s : GameState) : Callback → GameState
  | Callback.handCard cardView => Callback.runHandCard s cardView
  | Callback.reserveCard cardView topCard => Callback.runReserveCard s cardView topCard
  | Callback.playfieldToBase overlayCard topCard cardView =>
    Callback.runPlayfieldToBase s overlayCard topCard cardView
  | Callback.undoReserveToBase cardView => Callback.runUndoReserveToBase s cardView
  | Callback.undoReorderBase cardView => Callback.runUndoReorderBase s cardView
  | Callback.finalPlayfieldCheck => Callback.runFinalPlayfieldCheck s

/-- Complete one scheduled action: the `MoveTo` (if any) ends at its end
position, then the callback runs. -/
def Scheduled.run (s : GameState) (a : Scheduled) : GameState :=
  let s1 :=
    match a.target, a.moveTo with
    | some t, some pos => { s with heap := s.heap.setPosition t pos }
    | _, _ => s
  Callback.run s1 a.callback

/-- Run every scheduled action to completion, the shortest delay first. -/
def GameState.runPending (s : GameState) : GameState :=
  (s.pending.insertionSort (fun a b => a.delay ≤ b.delay)).foldl Scheduled.run
    { s with pending := [] }

/-- The synchronous `PLAYFIELD_TO_BASE` case of `onUndoClicked`. -/
def GameController.undoPlayfieldToBase (s : GameState) (record : UndoRecord) : GameState :=
  let s1 :=
    match GameController.findCardViewById s.heap record.cardId s.baseStackView.cards with
    | some overlayCard =>
      let r := StackView.removeCard s.heap s.baseStackView (some overlayCard)
      { s with heap := r.1, baseStackView := r.2,
               pending := s.pending.filter (fun a => decide (a.target ≠ some overlayCard)) }
    | none => s
  let h2 :=
    match s1.playfieldView.cards.find? (fun card => decide ((s1.heap card).cardId = record.cardId))
    with
    | some originalCard =>
      let h := ((s1.heap.setVisible originalCard true).setOpacity originalCard 255).setPosition
        originalCard record.originalPos
      PlayfieldView.restoreCardState h s1.playfieldView record.cardId
    | none => s1.heap
  let h3 := StackView.layoutCards h2 s1.baseStackView
  let s3 := { s1 with heap := h3 }
  let s4 := GameView.showUndoButton s3 (UndoManager.canUndo s3.undoStack)
  GameController.updateView s4

/-- The scheduler call at the end of `onUndoClicked` (one timer per key). -/
def GameController.scheduleFinalCheck (s : GameState) : GameState :=
  { s with pending :=
      s.pending.filter (fun a => decide (a.callback ≠ Callback.finalPlayfieldCheck)) ++
        [⟨none, 200, none, Callback.finalPlayfieldCheck⟩] }

/-- Mirror of `GameController::onUndoClicked`. -/
def GameController.onUndoClicked (s : GameState) : GameState :=
  if UndoManager.canUndo s.undoStack = false then s
  else
    let r := UndoManager.undo s.undoStack
    let record := r.1
    let s1 := { s with undoStack := r.2 }
    let found : Option Nat :=
      if record.originalParent = 0 ∨ record.originalParent = 1 ∨ record.originalParent = 2 then
        GameController.findCardViewById s1.heap record.cardId s1.baseStackView.cards
      else none
    match found with
    | none => GameView.showUndoButton s1 (UndoManager.canUndo s1.undoStack)
    | some cardView =>
      let s2 :=
        match record.moveType with
        | MoveType.RESERVE_TO_BASE =>
          s1.schedule
            ⟨some cardView, 300, some record.originalPos, Callback.undoReserveToBase cardView⟩
        | MoveType.REORDER_BASE =>
          s1.schedule ⟨some cardView, 100, none, Callback.undoReorderBase cardView⟩
        | MoveType.PLAYFIELD_TO_BASE => GameController.undoPlayfieldToBase s1 record
      GameController.scheduleFinalCheck s2

/-! ## Game start -/

/-- Mirror of `GameModel::clear`. -/
def GameModel.clear (_m : GameModel) : GameModel :=
  { cards := [], baseStack := [], reserveStack := [], playfield := [], nextCardId := 0 }

/-- Mirror of `GameModel::getNextCardId`: the id handed out and the advanced model. -/
def GameModel.getNextCardId (m : GameModel) : Int × GameModel :=
  (m.nextCardId, { m with nextCardId := m.nextCardId + 1 })

/-- The card built by each loop body of `startGame`. -/
def GameController.cardModelOf (id : Int) (cardCfg : CardConfig) : CardModel :=
  { id := id, face := cardCfg.face, suit := cardCfg.suit, isFaceUp := true,
    isRemoved := false, posX := cardCfg.position.x, posY := cardCfg.position.y }

/-- Mirror of `GameController::startGame`: the model is cleared and filled from the
level (reserve, playfield, base, in this order), then the view is updated. -/
def GameController.startGame (s : GameState) (config : LevelConfig) : GameState :=
  let m0 := s.gameModel.clear
  let m1 := config.stackCards.foldl
    (fun m cardCfg =>
      let r := m.getNextCardId
      { r.2 with reserveStack := r.2.reserveStack ++ [GameController.cardModelOf r.1 cardCfg] })
    m0
  let m2 := config.playfieldCards.foldl
    (fun m cardCfg =>
      let r := m.getNextCardId
      { r.2 with playfield := r.2.playfield ++ [GameController.cardModelOf r.1 cardCfg] })
    m1
  let m3 := config.baseCards.foldl
    (fun m cardCfg =>
      let r := m.getNextCardId
      { r.2 with baseStack := r.2.baseStack ++ [GameController.cardModelOf r.1 cardCfg] })
    m2
  GameController.updateView { s with gameModel := m3 }

/-- The state before `GameView::init` has created any card: empty views, the
undo button visible, empty controller members. -/
def GameState.blank : GameState :=
  { heap := fun _ => CardView.create 0 0, nextPtr := 0, nextCardId := 0,
    playfieldView := ⟨[], fun _ => none, LayoutType.KEEP_ORIGINAL⟩,
    baseStackView := ⟨[], fun _ => none⟩,
    reserveStackView := ⟨[], fun _ => none⟩,
    undoButtonVisible := true,
    gameModel := ⟨[], [], [], [], 0⟩,
    undoStack := [], moveHistory := [], baseStackSnapshot := [], pending := [] }

/-- Mirror of `CardView::create` followed by `setCardId(nextCardId++)` in `GameView::init`:
the new address and the state holding the new card. -/
def GameView.createCard (s : GameState) (cardCfg : CardConfig) : Nat × GameState :=
  let card := s.nextPtr
  let h1 := s.heap.set card (CardView.create cardCfg.face cardCfg.suit)
  let h2 := h1.setCardId card s.nextCardId
  (card, { s with heap := h2, nextPtr := card + 1, nextCardId := s.nextCardId + 1 })

/-- The playfield loop of `GameView::init`, from index `i` on. -/
def GameView.initPlayfieldCards (s : GameState) : List CardConfig → Nat → GameState
  | [], _ => s
  | cardCfg :: rest, i =>
    let r := GameView.createCard s cardCfg
    let h1 := (r.2.heap.setPosition r.1 cardCfg.position).setLocalZOrder r.1 (i : Int)
    let a := PlayfieldView.addCard h1 r.2.playfieldView (some r.1)
    GameView.initPlayfieldCards { r.2 with heap := a.1, playfieldView := a.2 } rest (i + 1)

/-- The reserve loop of `GameView::init`. -/
def GameView.initReserveCards (s : GameState) : List CardConfig → GameState
  | [] => s
  | cardCfg :: rest =>
    let r := GameView.createCard s cardCfg
    let h1 := r.2.heap.setPosition r.1 cardCfg.position
    let a := StackView.addCard ParentNode.reserveStack h1 r.2.reserveStackView (some r.1)
    GameView.initReserveCards { r.2 with heap := a.1, reserveStackView := a.2 } rest

/-- The base loop of `GameView::init`. -/
def GameView.initBaseCards (s : GameState) : List CardConfig → GameState
  | [] => s
  | cardCfg :: rest =>
    let r := GameView.createCard s cardCfg
    let a := StackView.addCard ParentNode.baseStack r.2.heap r.2.baseStackView (some r.1)
    GameView.initBaseCards { r.2 with heap := a.1, baseStackView := a.2 } rest

/-- Mirror of `GameView::init` on a loaded level. -/
def GameView.init (level : LevelConfig) : GameState :=
  let s1 := GameController.startGame GameState.blank level
  let s2 := GameView.initPlayfieldCards s1 level.playfieldCards 0
  let s3 := GameView.initReserveCards s2 level.stackCards
  let s4 := GameView.initBaseCards s3 level.baseCards
  GameView.showUndoButton s4 true

/-! ## Player actions run to completion -/

/-- A click on a card id, with every scheduled action run to completion. -/
def GameState.click (s : GameState) (cardId : Int) : GameState :=
  (GameController.onCardClicked s cardId).runPending

/-- An undo request, with every scheduled action run to completion. -/
def GameState.undoRequest (s : GameState) : GameState :=
  (GameController.onUndoClicked s).runPending

/-! ## The states of a game -/

/-- The states the program goes through: the state built by `GameView::init`
from some level, followed by any number of clicks and undo requests, each run
to completion before the next is accepted. -/
inductive GameState.Reachable : GameState → Prop where
  | init (level : LevelConfig) : GameState.Reachable (GameView.init level)
  | click (s : GameState) (cardId : Int) :
      GameState.Reachable s → GameState.Reachable (s.click cardId)
  | undoRequest (s : GameState) : GameState.Reachable s → GameState.Reachable s.undoRequest

/-- An invariant of the reachable states about the reserve stack and the
draws recorded in the ledger: nothing is scheduled; every member address has
been handed out; reserve cards have pairwise distinct ids that no playfield
card bears; the ids recorded by `RESERVE_TO_BASE` records are pairwise
distinct and borne by no reserve card and no playfield card. -/
structure GameState.Invariant (s : GameState) : Prop where
  settled : s.pending = []
  bound : ∀ q, q ∈ s.playfieldView.cards ∨ q ∈ s.reserveStackView.cards ∨
    q ∈ s.baseStackView.cards ∨ q ∈ s.baseStackSnapshot → q < s.nextPtr
  reserveIds : (s.reserveStackView.cards.map (fun p => (s.heap p).cardId)).Nodup
  reservePlayfield : ∀ p ∈ s.reserveStackView.cards, ∀ q ∈ s.playfieldView.cards,
    (s.heap p).cardId ≠ (s.heap q).cardId
  drawnIds : ((s.undoStack.filter
    (fun r => decide (r.moveType = MoveType.RESERVE_TO_BASE))).map (fun r => r.cardId)).Nodup
  drawnReserve : ∀ r ∈ s.undoStack, r.moveType = MoveType.RESERVE_TO_BASE →
    ∀ p ∈ s.reserveStackView.cards, (s.heap p).cardId ≠ r.cardId
  drawnPlayfield : ∀ r ∈ s.undoStack, r.moveType = MoveType.RESERVE_TO_BASE →
    ∀ q ∈ s.playfieldView.cards, (s.heap q).cardId ≠ r.cardId

/-- What holds while `GameView::init` deals the cards: nothing is scheduled or
recorded; addresses and ids are handed out in step; every member address has
been handed out and bears its own number as id; no address is a member
twice, in one zone or in two. -/
structure GameState.Dealt (s : GameState) : Prop where
  settled : s.pending = []
  noUndo : s.undoStack = []
  noSnapshot : s.baseStackSnapshot = []
  counter : s.nextCardId = (s.nextPtr : Int)
  bound : ∀ q, q ∈ s.playfieldView.cards ++ s.reserveStackView.cards ++ s.baseStackView.cards →
    q < s.nextPtr
  ids : ∀ q, q ∈ s.playfieldView.cards ++ s.reserveStackView.cards ++ s.baseStackView.cards →
    (s.heap q).cardId = (q : Int)
  nodup : (s.playfieldView.cards ++ s.reserveStackView.cards ++ s.baseStackView.cards).Nodup

/-- An invariant of the reachable states about the playfield cards: none of
them is a member of a stack or of the snapshot, their z-orders are not
negative, and neither is a z-order saved for one of them. -/
structure GameState.Layered (s : GameState) : Prop where
  apart : ∀ q ∈ s.playfieldView.cards, q ∉ s.reserveStackView.cards ∧
    q ∉ s.baseStackView.cards ∧ q ∉ s.baseStackSnapshot
  zOrders : ∀ q ∈ s.playfieldView.cards, 0 ≤ (s.heap q).localZOrder
  saved : ∀ i info, s.playfieldView.cardStates i = some info → 0 ≤ info.zOrder

/-! ## Example levels

Suits: 0 club, 1 diamond, 2 heart, 3 spade.  `GameView::init` numbers the
cards (and, in this model, their addresses) playfield first, then reserve,
then base. -/

/-- Playfield `4♦` at `(100, 100)`; reserve `7♠` configured at `(300, 0)`;
base `5♣`. -/
def levelScenario1 : LevelConfig :=
  ⟨[⟨4, 1, ⟨100, 100⟩⟩], [⟨7, 3, ⟨300, 0⟩⟩], [⟨5, 0, ⟨0, 0⟩⟩]⟩

/-- Reserve `7♠`; base `3♥`. -/
def levelScenario3 : LevelConfig :=
  ⟨[], [⟨7, 3, ⟨0, 0⟩⟩], [⟨3, 2, ⟨0, 0⟩⟩]⟩

/-- Base `9♦, 2♣, 5♣` (top last). -/
def levelThreeBase : LevelConfig :=
  ⟨[], [], [⟨9, 1, ⟨0, 0⟩⟩, ⟨2, 0, ⟨0, 0⟩⟩, ⟨5, 0, ⟨0, 0⟩⟩]⟩

/-- Playfield `4♦` at `(100, 100)` and, above it in z-order, `9♦` at
`(257, 100)`; base `5♣`. -/
def levelMargin : LevelConfig :=
  ⟨[⟨4, 1, ⟨100, 100⟩⟩, ⟨9, 1, ⟨257, 100⟩⟩], [], [⟨5, 0, ⟨0, 0⟩⟩]⟩

/-- Reserve `7♠`; base `3♥, 9♥` (top last). -/
def levelDrawReorder : LevelConfig :=
  ⟨[], [⟨7, 3, ⟨0, 0⟩⟩], [⟨3, 2, ⟨0, 0⟩⟩, ⟨9, 2, ⟨0, 0⟩⟩]⟩

/-- Reserve `7♠, 8♠` (top last), both configured at `(0, 0)`; base `3♥, 9♥`
(top last). -/
def levelTwoDraws : LevelConfig :=
  ⟨[], [⟨7, 3, ⟨0, 0⟩⟩, ⟨8, 3, ⟨0, 0⟩⟩], [⟨3, 2, ⟨0, 0⟩⟩, ⟨9, 2, ⟨0, 0⟩⟩]⟩

/-- Playfield `4♦` at `(100, 100)` and, above it in z-order, `9♦` at
`(252, 100)`: the two footprints are `2` apart; base `5♣`. -/
def levelNear : LevelConfig :=
  ⟨[⟨4, 1, ⟨100, 100⟩⟩, ⟨9, 1, ⟨252, 100⟩⟩], [], [⟨5, 0, ⟨0, 0⟩⟩]⟩

/-- Playfield `4♦` at `(100, 100)` and, above it in z-order, `9♦` at
`(150, 130)`, overlapping it; base `5♣`. -/
def levelCovered : LevelConfig :=
  ⟨[⟨4, 1, ⟨100, 100⟩⟩, ⟨9, 1, ⟨150, 130⟩⟩], [], [⟨5, 0, ⟨0, 0⟩⟩]⟩

/-! ## Footprints, in the words of the specification -/

/-- The area of the intersection of two axis-aligned rectangles, each given by
its centre and its size (zero when they do not meet). -/
def footprintOverlapArea (p : Vec2) (sp : Size) (q : Vec2) (sq : Size) : Int :=
  max 0 (min (p.x + sp.width / 2) (q.x + sq.width / 2)
    - max (p.x - sp.width / 2) (q.x - sq.width / 2)) *
  max 0 (min (p.y + sp.height / 2) (q.y + sq.height / 2)
    - max (p.y - sp.height / 2) (q.y - sq.height / 2))

/-- The card footprint of the specification: `150 x 210`. -/
def cardFootprint : Size := ⟨150, 210⟩

/-- Two cards' footprints, centred on their positions, overlap in a region of
non-zero area. -/
def footprintsOverlap (p q : Vec2) : Prop :=
  0 < footprintOverlapArea p cardFootprint q cardFootprint

instance (p q : Vec2) : Decidable (footprintsOverlap p q) := by
  unfold footprintsOverlap
  infer_instance

/-! ## PlayfieldView layouts -/

/-- One round of the `KEEP_ORIGINAL` loop of `PlayfieldView::layoutCards`, for
the card at index `i`: a z-order shared with the card at another index, or a
negative one, is replaced by `i`; the card is made visible. -/
def PlayfieldView.layoutKeepOriginalStep (cards : List Nat) (h : Heap) (ic : Nat × Nat) :
    Heap :=
  let i := ic.1
  let card := ic.2
  let currentZOrder := (h card).localZOrder
  let hasConflict : Bool :=
    cards.enum.any
      (fun jc => decide (i ≠ jc.1) && decide ((h jc.2).localZOrder = currentZOrder))
  let h1 :=
    if hasConflict = true ∨ currentZOrder < 0 then h.setLocalZOrder card (i : Int) else h
  h1.setVisible card true

/-- One round of the `HORIZONTAL_LINE` loop of `PlayfieldView::layoutCards`. -/
def PlayfieldView.layoutHorizontalStep (h : Heap) (ic : Nat × Nat) : Heap :=
  ((h.setPosition ic.2 ⟨50 + (ic.1 : Int) * 120, 100⟩).setLocalZOrder ic.2
    (ic.1 : Int)).setVisible ic.2 true

/-- One round of the `CUSTOM` loop of `PlayfieldView::layoutCards`. -/
def PlayfieldView.layoutCustomStep (h : Heap) (ic : Nat × Nat) : Heap :=
  let h1 := h.setVisible ic.2 true
  if (h1 ic.2).localZOrder < 0 then h1.setLocalZOrder ic.2 (ic.1 : Int) else h1

/-- Mirror of `PlayfieldView::layoutCards`: the cards are visited by index. -/
def PlayfieldView.layoutCards (h : Heap) (v : PlayfieldView) (type : LayoutType) :
    Heap × PlayfieldView :=
  let v1 : PlayfieldView := { v with currentLayout := type }
  match type with
  | LayoutType.KEEP_ORIGINAL =>
    (v.cards.enum.foldl (PlayfieldView.layoutKeepOriginalStep v.cards) h, v1)
  | LayoutType.HORIZONTAL_LINE =>
    (v.cards.enum.foldl PlayfieldView.layoutHorizontalStep h, v1)
  | LayoutType.CUSTOM => (v.cards.enum.foldl PlayfieldView.layoutCustomStep h, v1)

/-! ## Statements of the specification and what they need -/

/-- No two playfield cards share a z-order. -/
def PlayfieldView.DistinctZOrders (h : Heap) (cards : List Nat) : Prop :=
  ∀ a ∈ cards, ∀ b ∈ cards, a ≠ b → (h a).localZOrder ≠ (h b).localZOrder

instance PlayfieldView.decidableDistinctZOrders (h : Heap) (cards : List Nat) :
    Decidable (PlayfieldView.DistinctZOrders h cards) := by
  unfold PlayfieldView.DistinctZOrders
  infer_instance

/-- Push the records of a list, the first one first. -/
def UndoManager.pushAll (undoStack : List UndoRecord) (records : List UndoRecord) :
    List UndoRecord :=
  records.foldl UndoManager.push undoStack

/-- Call `undo` `n` times: the records returned, in the order of the calls,
and the remaining ledger. -/
def UndoManager.undoTimes : Nat → List UndoRecord → List UndoRecord × List UndoRecord
  | 0, undoStack => ([], undoStack)
  | n + 1, undoStack =>
    let r := UndoManager.undo undoStack
    let rest := UndoManager.undoTimes n r.2
    (r.1 :: rest.1, rest.2)

/-- Call `getNextCardId` `n` times: the ids returned, in the order of the
calls, and the advanced model. -/
def GameModel.takeIds : Nat → GameModel → List Int × GameModel
  | 0, m => ([], m)
  | n + 1, m =>
    let r := m.getNextCardId
    let rest := GameModel.takeIds n r.2
    (r.1 :: rest.1, rest.2)

/-- Does `onCardClicked` reach one of its three move branches for this id?
The conditions are those of the handler, read off path by path: a playfield
card must pass the three coverage checks and the clickable-list check, and
match the base top; a reserve card must be the reserve top; a base card must
not be the base top. -/
def GameController.acceptsClick (s : GameState) (cardId : Int) : Bool :=
  match GameController.findCardViewById s.heap cardId s.playfieldView.cards with
  | some cardView =>
    !(PlayfieldView.isCardCovered s.heap s.playfieldView (some cardView)) &&
    (GameController.getClickablePlayfieldCards s.heap s.playfieldView).any
      (fun card => decide ((s.heap card).cardId = cardId)) &&
    !(GameController.manualCoverageCheck s.heap s.playfieldView cardView) &&
    (match s.baseStackView.getTopCard with
      | some topCard =>
        GameController.canMatchCards (s.heap cardView).cardFace (s.heap topCard).cardFace
      | none => false)
  | none =>
    match GameController.findCardViewById s.heap cardId s.reserveStackView.cards with
    | some cardView => decide (some cardView = s.reserveStackView.getTopCard)
    | none =>
      match GameController.findCardViewById s.heap cardId s.baseStackView.cards with
      | some cardView => decide (some cardView ≠ s.baseStackView.getTopCard)
      | none => false

/-- What the player does: a click on a card id, or an undo request. -/
inductive PlayerAction where
  | click (cardId : Int)
  | undo
deriving DecidableEq, Repr

/-- One player action, run to completion. -/
def GameState.step (s : GameState) : PlayerAction → GameState
  | PlayerAction.click cardId => s.click cardId
  | PlayerAction.undo => s.undoRequest

/-- A sequence of player actions, each run to completion before the next. -/
def GameState.run (s : GameState) (actions : List PlayerAction) : GameState :=
  actions.foldl GameState.step s

/-- The number of accepted moves among the actions played from `s`. -/
def GameState.acceptedMoves (s : GameState) : List PlayerAction → Nat
  | [] => 0
  | PlayerAction.click cardId :: rest =>
    (if GameController.acceptsClick s cardId = true then 1 else 0) +
      GameState.acceptedMoves (s.click cardId) rest
  | PlayerAction.undo :: rest => GameState.acceptedMoves s.undoRequest rest

/-- The number of undo requests, among the actions played from `s`, that found
the ledger non-empty. -/
def GameState.effectiveUndos (s : GameState) : List PlayerAction → Nat
  | [] => 0
  | PlayerAction.click cardId :: rest => GameState.effectiveUndos (s.click cardId) rest
  | PlayerAction.undo :: rest =>
    (if UndoManager.canUndo s.undoStack = true then 1 else 0) +
      GameState.effectiveUndos s.undoRequest rest

/-! ## Small playfields for the z-order claims -/

/-- Cards with z-order `0` everywhere, except address 0 with z-order `1`. -/
def heapZOrderOne : Heap :=
  Heap.setLocalZOrder (fun _ => CardView.create 0 0) 0 1

/-- Cards with z-order `0` everywhere, except address 0 with z-order `-5` and
address 1 with z-order `-1`. -/
def heapNegativeZOrders : Heap :=
  Heap.setLocalZOrder (Heap.setLocalZOrder (fun _ => CardView.create 0 0) 0 (-5)) 1 (-1)

/-- Cards with z-order `0` everywhere, except address 0 with z-order `10` and
address 1 with z-order `-1`. -/
def heapZOrderTen : Heap :=
  Heap.setLocalZOrder (Heap.setLocalZOrder (fun _ => CardView.create 0 0) 0 10) 1 (-1)

/-! ## Heap lemmas -/

@[simp] theorem Heap.set_apply (h : Heap) (p : Nat) (c : CardView) (q : Nat) :
    (h.set p c) q = if q = p then c else h q := rfl

@[simp] theorem Heap.setPosition_apply (h : Heap) (p : Nat) (v : Vec2) (q : Nat) :
    (h.setPosition p v) q = if q = p then (h p).withPosition v else h q := rfl

@[simp] theorem Heap.setLocalZOrder_apply (h : Heap) (p : Nat) (z : Int) (q : Nat) :
    (h.setLocalZOrder p z) q = if q = p then (h p).withLocalZOrder z else h q := rfl

@[simp] theorem Heap.setVisible_apply (h : Heap) (p : Nat) (b : Bool) (q : Nat) :
    (h.setVisible p b) q = if q = p then (h p).withVisible b else h q := rfl

@[simp] theorem Heap.setOpacity_apply (h : Heap) (p : Nat) (o : Nat) (q : Nat) :
    (h.setOpacity p o) q = if q = p then (h p).withOpacity o else h q := rfl

@[simp] theorem Heap.setCardId_apply (h : Heap) (p : Nat) (i : Int) (q : Nat) :
    (h.setCardId p i) q = if q = p then (h p).withCardId i else h q := rfl

@[simp] theorem Heap.setParent_apply (h : Heap) (p : Nat) (n : ParentNode) (q : Nat) :
    (h.setParent p n) q = if q = p then (h p).withParent n else h q := rfl

/-! ## MatchRule -/

/-- C1: for ranks in 1..13 `canMatchCards a b` holds exactly when the ranks
differ by one or are Ace and King; so `r` matches `r + 1`, Ace and King match
both ways, no rank matches itself, and Ace does not match the Queen. -/
theorem canMatchCards_spec :
    (∀ a b : Int, 1 ≤ a → a ≤ 13 → 1 ≤ b → b ≤ 13 →
      (GameController.canMatchCards a b = true ↔
        (|a - b| = 1 ∨ (a = 1 ∧ b = 13) ∨ (a = 13 ∧ b = 1)))) ∧
    (∀ r : Int, 1 ≤ r → r ≤ 12 → GameController.canMatchCards r (r + 1) = true) ∧
    GameController.canMatchCards 1 13 = true ∧
    GameController.canMatchCards 13 1 = true ∧
    (∀ r : Int, GameController.canMatchCards r r = false) ∧
    GameController.canMatchCards 1 12 = false := by
  refine ⟨?_, ?_, by decide, by decide, ?_, by decide⟩
  · intro a b _ _ _ _
    unfold GameController.canMatchCards
    have habs : (a - b).natAbs = 1 ↔ |a - b| = 1 := by
      rw [Int.abs_eq_natAbs]
      omega
    by_cases h1 : (a - b).natAbs = 1
    · simp [h1, habs.mp h1]
    · have h2 : ¬ |a - b| = 1 := fun h => h1 (habs.mpr h)
      by_cases h3 : (a = 1 ∧ b = 13) ∨ (a = 13 ∧ b = 1)
      · simp [h1, h3]
      · simp [h1, h3, h2]
  · intro r _ _
    unfold GameController.canMatchCards
    have : (r - (r + 1)).natAbs = 1 := by omega
    simp [this]
  · intro r
    unfold GameController.canMatchCards
    have h1 : ¬ (r - r).natAbs = 1 := by simp
    have h2 : ¬ ((r = 1 ∧ r = 13) ∨ (r = 13 ∧ r = 1)) := by omega
    simp [h1, h2]

/-- Witness for C1: the equivalence applied to the ranks 5 and 4. -/
theorem canMatchCards_spec_witness :
    GameController.canMatchCards 5 4 = true :=
  (canMatchCards_spec.1 5 4 (by decide) (by decide) (by decide) (by decide)).mpr
    (Or.inl (by decide))

/-! ## Layout of a stack -/

theorem StackView.layoutFrom_not_mem (l : List Nat) :
    ∀ (h : Heap) (i p : Nat), p ∉ l → StackView.layoutFrom h l i p = h p := by
  induction l with
  | nil => intro h i p _; rfl
  | cons a t ih =>
    intro h i p hp
    have hpa : p ≠ a := fun e => hp (e ▸ List.mem_cons_self _ _)
    have hpt : p ∉ t := fun e => hp (List.mem_cons_of_mem _ e)
    simp only [StackView.layoutFrom]
    rw [ih _ _ _ hpt]
    simp [hpa]

theorem StackView.layoutFrom_append (l1 : List Nat) :
    ∀ (h : Heap) (l2 : List Nat) (i : Nat),
      StackView.layoutFrom h (l1 ++ l2) i =
        StackView.layoutFrom (StackView.layoutFrom h l1 i) l2 (i + l1.length) := by
  induction l1 with
  | nil => intro h l2 i; simp [StackView.layoutFrom]
  | cons a t ih =>
    intro h l2 i
    show StackView.layoutFrom _ (t ++ l2) (i + 1) = _
    rw [ih]
    show _ = StackView.layoutFrom (StackView.layoutFrom _ t (i + 1)) l2 (i + (t.length + 1))
    have e : i + 1 + t.length = i + (t.length + 1) := by omega
    rw [e]

/-- The fields that a layout never writes. -/
theorem StackView.layoutFrom_frame (l : List Nat) :
    ∀ (h : Heap) (i p : Nat),
      (StackView.layoutFrom h l i p).cardId = (h p).cardId ∧
      (StackView.layoutFrom h l i p).cardFace = (h p).cardFace ∧
      (StackView.layoutFrom h l i p).cardSuit = (h p).cardSuit ∧
      (StackView.layoutFrom h l i p).opacity = (h p).opacity ∧
      (StackView.layoutFrom h l i p).parent = (h p).parent := by
  induction l with
  | nil => intro h i p; simp [StackView.layoutFrom]
  | cons a t ih =>
    intro h i p
    simp only [StackView.layoutFrom]
    have := ih (((h.setPosition a ⟨0 + (i : Int) * 25, 0⟩).setLocalZOrder a (i : Int)).setVisible
      a true) (i + 1) p
    rw [this.1, this.2.1, this.2.2.1, this.2.2.2.1, this.2.2.2.2]
    by_cases hp : p = a <;>
      simp [hp, CardView.withPosition, CardView.withLocalZOrder, CardView.withVisible]

/-- The card laid out last, when it does not occur earlier in the list. -/
theorem StackView.layoutFrom_last (l : List Nat) (a : Nat) (h : Heap) (i : Nat) :
    StackView.layoutFrom h (l ++ [a]) i a =
      (((StackView.layoutFrom h l i a).withPosition ⟨0 + ((i + l.length : Nat) : Int) * 25, 0⟩
        ).withLocalZOrder ((i + l.length : Nat) : Int)).withVisible true := by
  rw [StackView.layoutFrom_append]
  simp [StackView.layoutFrom]

/-- A card other than the last one is laid out as if the last were absent. -/
theorem StackView.layoutFrom_init (l : List Nat) (a p : Nat) (h : Heap) (i : Nat)
    (hp : p ≠ a) :
    StackView.layoutFrom h (l ++ [a]) i p = StackView.layoutFrom h l i p := by
  rw [StackView.layoutFrom_append]
  simp [StackView.layoutFrom, hp]

/-- In a stack without repetition, the card at index `k` gets slot `i + k`. -/
theorem StackView.layoutFrom_get (l : List Nat) :
    ∀ (h : Heap) (i k : Nat) (hk : k < l.length), l.Nodup →
      StackView.layoutFrom h l i (l.get ⟨k, hk⟩) =
        (((h (l.get ⟨k, hk⟩)).withPosition ⟨0 + ((i + k : Nat) : Int) * 25, 0⟩
          ).withLocalZOrder ((i + k : Nat) : Int)).withVisible true := by
  induction l with
  | nil => intro h i k hk; simp at hk
  | cons a t ih =>
    intro h i k hk hnd
    have hat : a ∉ t := (List.nodup_cons.mp hnd).1
    have hnt : t.Nodup := (List.nodup_cons.mp hnd).2
    cases k with
    | zero =>
      show StackView.layoutFrom _ t (i + 1) a = _
      rw [StackView.layoutFrom_not_mem _ _ _ _ hat]
      simp [CardView.withPosition, CardView.withLocalZOrder, CardView.withVisible]
    | succ k =>
      have hk2 : k < t.length := by simpa using hk
      show StackView.layoutFrom _ t (i + 1) (t.get ⟨k, hk2⟩) = _
      rw [ih _ _ k hk2 hnt]
      have hne : t.get ⟨k, hk2⟩ ≠ a := fun e => hat (e ▸ List.get_mem t k hk2)
      simp only [Heap.setVisible_apply, Heap.setLocalZOrder_apply, Heap.setPosition_apply,
        hne, if_false]
      have e : i + 1 + k = i + (k + 1) := by omega
      rw [e]
      rfl

/-! ## Coverage checks -/

@[simp] theorem cardSizeOrDefault_getContentSize (c : CardView) :
    cardSizeOrDefault c.getContentSize = ⟨150, 210⟩ := by
  simp [cardSizeOrDefault, CardView.getContentSize]

/-- What `isCardCovered = false` says about the target card. -/
theorem PlayfieldView.isCardCovered_eq_false {h : Heap} {v : PlayfieldView} {c : Nat}
    (hc : PlayfieldView.isCardCovered h v (some c) = false) :
    (h c).visible = true ∧ (h c).opacity ≠ 0 ∧ (h c).parent = ParentNode.playfield ∧
      ∀ o ∈ v.cards, PlayfieldView.coveredBy h c ⟨150 + 5 * 2, 210 + 5 * 2⟩ o = false := by
  unfold PlayfieldView.isCardCovered at hc
  by_cases h1 : (h c).visible = false ∨ (h c).opacity = 0
  · simp [h1] at hc
  · by_cases h2 : (h c).parent ≠ ParentNode.playfield
    · simp [h1, h2] at hc
    · simp only [h1, h2, if_false, cardSizeOrDefault_getContentSize] at hc
      refine ⟨by simpa using fun e => h1 (Or.inl e), fun e => h1 (Or.inr e),
        by simpa using h2, ?_⟩
      intro o ho
      have := List.any_eq_false.mp hc o ho
      simpa using this

/-- The third, margin-free check of the click handler never rejects a card
that `isCardCovered` accepts. -/
theorem GameController.manualCoverageCheck_of_not_covered {h : Heap} {v : PlayfieldView}
    {c : Nat} (hc : PlayfieldView.isCardCovered h v (some c) = false) :
    GameController.manualCoverageCheck h v c = false := by
  obtain ⟨_, _, _, hall⟩ := PlayfieldView.isCardCovered_eq_false hc
  unfold GameController.manualCoverageCheck
  rw [List.any_eq_false]
  intro o ho
  have hco := hall o ho
  unfold PlayfieldView.coveredBy at hco
  simp only [cardSizeOrDefault_getContentSize] at hco ⊢
  by_cases h1 : o = c ∨ (h o).visible = false ∨ (h o).opacity = 0
  · simp [h1]
  · simp only [h1, if_false] at hco ⊢
    by_cases h2 : (h o).localZOrder ≤ (h c).localZOrder
    · have : ¬ (h o).localZOrder > (h c).localZOrder := by omega
      simp [this]
    · have h3 : (h o).localZOrder > (h c).localZOrder := by omega
      simp only [h2, if_false, decide_eq_false_iff_not] at hco
      simp only [h3, if_true, Bool.not_eq_true, decide_eq_false_iff_not]
      intro hov
      apply hco
      simp only [lt_min_iff, max_lt_iff]
      omega

/-! ## Running scheduled actions -/

theorem GameState.runPending_single (s : GameState) (a : Scheduled) (hp : s.pending = [a]) :
    s.runPending = Scheduled.run { s with pending := [] } a := by
  simp [GameState.runPending, hp]

theorem GameState.runPending_nil (s : GameState) (hp : s.pending = []) :
    s.runPending = s := by
  cases s
  simp_all [GameState.runPending]

/-! ## The click handler, branch by branch -/

theorem GameController.mem_clickable {h : Heap} {v : PlayfieldView} {c : Nat}
    (hc : c ∈ GameController.getClickablePlayfieldCards h v) :
    PlayfieldView.isCardCovered h v (some c) = false ∧ (h c).visible = true ∧
      0 < (h c).opacity := by
  unfold GameController.getClickablePlayfieldCards at hc
  simp only [List.mem_filter, Bool.and_eq_true, Bool.not_eq_true', decide_eq_true_eq] at hc
  exact ⟨hc.2.1, hc.1.2.1, hc.1.2.2⟩

theorem GameController.findCardViewById_some {h : Heap} {cardId : Int} {cards : List Nat}
    {c : Nat} (hf : GameController.findCardViewById h cardId cards = some c) :
    c ∈ cards ∧ (h c).cardId = cardId := by
  unfold GameController.findCardViewById at hf
  exact ⟨List.mem_of_find?_eq_some hf, by simpa using List.find?_some hf⟩

theorem GameController.findCardViewById_none {h : Heap} {cardId : Int} {cards : List Nat}
    (hf : GameController.findCardViewById h cardId cards = none) :
    ∀ c ∈ cards, (h c).cardId ≠ cardId := by
  unfold GameController.findCardViewById at hf
  intro c hc
  simpa using List.find?_eq_none.mp hf c hc

/-- A click on a clickable playfield card whose rank matches the base top runs
the `PLAYFIELD_TO_BASE` branch. -/
theorem GameController.onCardClicked_playfieldToBase (s : GameState) (cardId : Int)
    (cardView topCard : Nat)
    (hfound : GameController.findCardViewById s.heap cardId s.playfieldView.cards
      = some cardView)
    (hclick : cardView ∈ GameController.getClickablePlayfieldCards s.heap s.playfieldView)
    (htop : s.baseStackView.getTopCard = some topCard)
    (hmatch : GameController.canMatchCards (s.heap cardView).cardFace
      (s.heap topCard).cardFace = true) :
    GameController.onCardClicked s cardId =
      GameController.clickPlayfieldToBase s cardId cardView topCard := by
  have hcov := (GameController.mem_clickable hclick).1
  have hman := GameController.manualCoverageCheck_of_not_covered hcov
  have hid := (GameController.findCardViewById_some hfound).2
  have hany : (GameController.getClickablePlayfieldCards s.heap s.playfieldView).any
      (fun card => decide ((s.heap card).cardId = cardId)) = true := by
    rw [List.any_eq_true]
    exact ⟨cardView, hclick, by simpa using hid⟩
  unfold GameController.onCardClicked
  rw [hfound]
  simp only [hcov, hany, GameController.clickDispatch, hman, htop, hmatch]
  simp

/-! ## StackView operations on the member list and the heap -/

@[simp] theorem StackView.addCard_cards (self : ParentNode) (h : Heap) (v : StackView)
    (c : Nat) : (StackView.addCard self h v (some c)).2.cards = v.cards ++ [c] := by
  simp only [StackView.addCard]
  split <;> rfl

@[simp] theorem StackView.addCard_cardStates (self : ParentNode) (h : Heap) (v : StackView)
    (c : Nat) : (StackView.addCard self h v (some c)).2.cardStates = v.cardStates := by
  simp only [StackView.addCard]
  split <;> rfl

/-- The heap after `addCard`: the card is attached, and the stack is laid out
exactly when the card sits at the origin. -/
theorem StackView.addCard_heap (self : ParentNode) (h : Heap) (v : StackView) (c : Nat) :
    (StackView.addCard self h v (some c)).1 =
      if (h c).position.x = 0 ∧ (h c).position.y = 0 then
        StackView.layoutFrom (h.setParent c self) (v.cards ++ [c]) 0
      else h.setParent c self := by
  simp only [StackView.addCard, Heap.setParent_apply, if_true, CardView.withParent,
    StackView.layoutCards]
  split <;> rfl

theorem StackView.removeCard_cards (h : Heap) (v : StackView) (c : Nat) :
    (StackView.removeCard h v (some c)).2.cards = v.cards.erase c := by
  simp only [StackView.removeCard]
  split
  · rfl
  · rename_i hc
    exact (List.erase_of_not_mem hc).symm

@[simp] theorem StackView.removeCard_cardStates (h : Heap) (v : StackView) (c : Nat) :
    (StackView.removeCard h v (some c)).2.cardStates = v.cardStates := by
  simp only [StackView.removeCard]
  split <;> rfl

theorem StackView.removeCard_heap (h : Heap) (v : StackView) (c : Nat) (hc : c ∈ v.cards) :
    (StackView.removeCard h v (some c)).1 =
      StackView.layoutFrom (h.setParent c ParentNode.none) (v.cards.erase c) 0 := by
  simp [StackView.removeCard, hc, StackView.layoutCards]

theorem StackView.getTopCard_append (v : StackView) (l : List Nat) (c : Nat)
    (hv : v.cards = l ++ [c]) : v.getTopCard = some c := by
  simp [StackView.getTopCard, hv]

theorem StackView.getTopCard_some {v : StackView} {c : Nat} (h : v.getTopCard = some c) :
    v.cards = v.cards.dropLast ++ [c] := by
  unfold StackView.getTopCard at h
  have hne : v.cards ≠ [] := by
    intro e
    simp [e] at h
  rw [List.getLast?_eq_getLast _ hne] at h
  have := List.dropLast_append_getLast hne
  rw [Option.some.inj h] at this
  exact this.symm

/-! ## PlayfieldToBase -/

theorem PlayfieldView.playfield_saveCardState_cards (h : Heap) (v : PlayfieldView) (cardId : Int) :
    (PlayfieldView.saveCardState h v cardId).cards = v.cards := by
  unfold PlayfieldView.saveCardState
  split <;> rfl

/-- The state reached when the flight scheduled by the `PLAYFIELD_TO_BASE`
branch has landed. -/
theorem GameController.clickPlayfieldToBase_run (s : GameState) (cardId : Int)
    (cardView topCard : Nat) (hp : s.pending = []) :
    (GameController.clickPlayfieldToBase s cardId cardView topCard).runPending =
      Scheduled.run
        { GameController.clickPlayfieldToBase s cardId cardView topCard with pending := [] }
        ⟨some s.nextPtr, 300,
          some (((s.heap.set s.nextPtr (CardView.create (s.heap cardView).cardFace
            (s.heap cardView).cardSuit)).setCardId s.nextPtr cardId) topCard).position,
          Callback.playfieldToBase s.nextPtr topCard cardView⟩ := by
  apply GameState.runPending_single
  simp only [GameController.clickPlayfieldToBase, GameState.schedule, GameView.showUndoButton,
    hp, List.nil_append]

theorem GameController.playfieldToBase_baseCards (s : GameState) (cardId : Int)
    (cardView topCard : Nat) (hp : s.pending = []) :
    (GameController.clickPlayfieldToBase s cardId cardView topCard).runPending.baseStackView.cards
      = s.baseStackView.cards ++ [s.nextPtr] := by
  rw [GameController.clickPlayfieldToBase_run s cardId cardView topCard hp]
  simp only [Scheduled.run, Callback.run, Callback.runPlayfieldToBase, StackView.addCard_cards]
  rfl

theorem GameController.playfieldToBase_playfieldCards (s : GameState) (cardId : Int)
    (cardView topCard : Nat) (hp : s.pending = []) :
    (GameController.clickPlayfieldToBase s cardId cardView topCard).runPending.playfieldView.cards
      = s.playfieldView.cards := by
  rw [GameController.clickPlayfieldToBase_run s cardId cardView topCard hp]
  simp only [Scheduled.run, Callback.run, Callback.runPlayfieldToBase]
  exact PlayfieldView.playfield_saveCardState_cards _ _ _

theorem GameController.playfieldToBase_undoStack (s : GameState) (cardId : Int)
    (cardView topCard : Nat) (hp : s.pending = []) :
    (GameController.clickPlayfieldToBase s cardId cardView topCard).runPending.undoStack
      = ⟨cardId, MoveType.PLAYFIELD_TO_BASE, (s.heap cardView).position, 0, -1⟩ ::
          s.undoStack := by
  rw [GameController.clickPlayfieldToBase_run s cardId cardView topCard hp]
  rfl

theorem GameController.playfieldToBase_reserve (s : GameState) (cardId : Int)
    (cardView topCard : Nat) (hp : s.pending = []) :
    (GameController.clickPlayfieldToBase s cardId cardView topCard).runPending.reserveStackView
      = s.reserveStackView := by
  rw [GameController.clickPlayfieldToBase_run s cardId cardView topCard hp]
  rfl

/-- The heap after a completed `PLAYFIELD_TO_BASE` move, in terms of the heap
`hp4` on which the overlay card is ready to be added to the base stack. -/
theorem GameController.playfieldToBase_heap (s : GameState) (cardId : Int)
    (cardView topCard : Nat) (hp : s.pending = []) (ht : topCard ≠ s.nextPtr)
    (hc : cardView ≠ s.nextPtr) :
    ∃ h4 : Heap,
      (∀ q, q ≠ s.nextPtr → h4 q = s.heap q) ∧
      h4 s.nextPtr = ⟨cardId, (s.heap cardView).cardFace, (s.heap cardView).cardSuit,
        (s.heap topCard).position, (s.heap topCard).localZOrder + 1, true, 255,
        ParentNode.none⟩ ∧
      (GameController.clickPlayfieldToBase s cardId cardView topCard).runPending.heap =
        ((StackView.addCard ParentNode.baseStack h4 s.baseStackView (some s.nextPtr)).1.setOpacity
          cardView 0).setVisible cardView false := by
  rw [GameController.clickPlayfieldToBase_run s cardId cardView topCard hp]
  simp only [Scheduled.run, Callback.run, Callback.runPlayfieldToBase]
  refine ⟨_, ?_, ?_, rfl⟩
  · intro q hq
    simp [GameController.clickPlayfieldToBase, GameState.schedule, GameView.showUndoButton, hq,
      CardView.withParent, CardView.withOpacity, CardView.withVisible,
      CardView.withLocalZOrder, CardView.withPosition, CardView.withCardId, CardView.create]
  · simp [GameController.clickPlayfieldToBase, GameState.schedule, GameView.showUndoButton,
      ht, hc, CardView.withParent, CardView.withOpacity, CardView.withVisible,
      CardView.withLocalZOrder, CardView.withPosition, CardView.withCardId, CardView.create]

/-- The `PlayfieldToBase` move in a state with nothing scheduled and a fresh
next address: the card stays in the playfield, hidden; the base stack gets a
new top card with the same id, above the previous top; one record is pushed. -/
theorem playfieldToBase_move_of (s : GameState) (cardId : Int) (cardView topCard : Nat)
    (hp : s.pending = [])
    (hfresh : ∀ q, q ∈ s.playfieldView.cards ∨ q ∈ s.baseStackView.cards → q < s.nextPtr)
    (hfound : GameController.findCardViewById s.heap cardId s.playfieldView.cards
      = some cardView)
    (hclick : cardView ∈ GameController.getClickablePlayfieldCards s.heap s.playfieldView)
    (htop : s.baseStackView.getTopCard = some topCard)
    (hmatch : GameController.canMatchCards (s.heap cardView).cardFace
      (s.heap topCard).cardFace = true) :
    (s.click cardId).playfieldView.cards = s.playfieldView.cards ∧
    cardView ∈ (s.click cardId).playfieldView.cards ∧
    ((s.click cardId).heap cardView).visible = false ∧
    ((s.click cardId).heap cardView).opacity = 0 ∧
    (s.click cardId).baseStackView.cards = s.baseStackView.cards ++ [s.nextPtr] ∧
    s.nextPtr ∉ s.baseStackView.cards ∧
    ((s.click cardId).heap s.nextPtr).cardId = cardId ∧
    (s.click cardId).baseStackView.getTopCard = some s.nextPtr ∧
    ((s.click cardId).heap topCard).localZOrder <
      ((s.click cardId).heap s.nextPtr).localZOrder ∧
    (s.click cardId).undoStack =
      ⟨cardId, MoveType.PLAYFIELD_TO_BASE, (s.heap cardView).position, 0, -1⟩ ::
        s.undoStack ∧
    UndoManager.canUndo (s.click cardId).undoStack = true := by
  have hmem := (GameController.findCardViewById_some hfound).1
  have hbase := StackView.getTopCard_some htop
  have htmem : topCard ∈ s.baseStackView.cards := by
    rw [hbase]
    simp
  have hc : cardView ≠ s.nextPtr := Nat.ne_of_lt (hfresh _ (Or.inl hmem))
  have ht : topCard ≠ s.nextPtr := Nat.ne_of_lt (hfresh _ (Or.inr htmem))
  have hob : s.nextPtr ∉ s.baseStackView.cards := fun hm =>
    Nat.lt_irrefl _ (hfresh _ (Or.inr hm))
  have hclk : s.click cardId =
      (GameController.clickPlayfieldToBase s cardId cardView topCard).runPending := by
    unfold GameState.click
    rw [GameController.onCardClicked_playfieldToBase s cardId cardView topCard hfound hclick
      htop hmatch]
  obtain ⟨h4, hq4, ho4, hheap⟩ :=
    GameController.playfieldToBase_heap s cardId cardView topCard hp ht hc
  have hcards := GameController.playfieldToBase_baseCards s cardId cardView topCard hp
  have hpf := GameController.playfieldToBase_playfieldCards s cardId cardView topCard hp
  have hundo := GameController.playfieldToBase_undoStack s cardId cardView topCard hp
  rw [hclk, hpf, hcards, hundo, hheap]
  refine ⟨rfl, hmem, by simp [CardView.withVisible], by simp [CardView.withVisible,
    CardView.withOpacity], rfl, hob, ?_, ?_, ?_, rfl, rfl⟩
  · rw [StackView.addCard_heap]
    have hne : s.nextPtr ≠ cardView := fun e => hc e.symm
    split
    · simp only [Heap.setVisible_apply, Heap.setOpacity_apply, hne, if_false]
      rw [(StackView.layoutFrom_frame _ _ _ _).1]
      simp [CardView.withParent, ho4]
    · simp [hne, CardView.withParent, ho4]
  · exact StackView.getTopCard_append _ _ _ hcards
  · rw [StackView.addCard_heap]
    have hz : ∀ (h : Heap) (q : Nat),
        (((h.setOpacity cardView 0).setVisible cardView false) q).localZOrder =
          (h q).localZOrder := by
      intro h q
      by_cases hq : q = cardView <;> simp [hq, CardView.withVisible, CardView.withOpacity]
    rw [hz, hz]
    split
    · rw [StackView.layoutFrom_last, StackView.layoutFrom_init _ _ _ _ _ ht]
      conv_lhs => rw [hbase]
      rw [StackView.layoutFrom_last]
      have hlen : s.baseStackView.cards.dropLast.length < s.baseStackView.cards.length := by
        conv_rhs => rw [hbase]
        simp
      simp only [CardView.withVisible, CardView.withLocalZOrder, CardView.withPosition]
      omega
    · simp only [Heap.setParent_apply, if_true, ht, if_false, CardView.withParent, ho4,
        hq4 topCard ht]
      omega

/-! ## DrawToBase -/

theorem StackView.saveCardState_cards (h : Heap) (v : StackView) (cardId : Int) :
    (StackView.saveCardState h v cardId).cards = v.cards := by
  unfold StackView.saveCardState
  split <;> rfl

/-- A click on the id of the reserve top, when no playfield card bears that id,
runs the `RESERVE_TO_BASE` branch. -/
theorem GameController.onCardClicked_reserveToBase (s : GameState) (cardId : Int)
    (cardView : Nat)
    (hpf : GameController.findCardViewById s.heap cardId s.playfieldView.cards = none)
    (hfound : GameController.findCardViewById s.heap cardId s.reserveStackView.cards
      = some cardView)
    (htop : s.reserveStackView.getTopCard = some cardView) :
    GameController.onCardClicked s cardId =
      GameController.clickReserveToBase s cardId cardView := by
  unfold GameController.onCardClicked
  rw [hpf]
  simp only [hfound, GameController.clickDispatch, htop]
  simp

/-- The `MoveTo` end position chosen by `GameView::onReserveCardClicked`. -/
theorem GameController.clickReserveToBase_run (s : GameState) (cardId : Int)
    (cardView : Nat) (hp : s.pending = []) :
    (GameController.clickReserveToBase s cardId cardView).runPending =
      Scheduled.run
        { GameController.clickReserveToBase s cardId cardView with pending := [] }
        ⟨some cardView, 300,
          some (match s.baseStackView.getTopCard with
            | some t => (s.heap t).position
            | none => ⟨(s.baseStackView.cards.length : Int) * 25, 0⟩),
          Callback.reserveCard cardView s.baseStackView.getTopCard⟩ := by
  apply GameState.runPending_single
  simp only [GameController.clickReserveToBase, GameView.onReserveCardClicked,
    GameState.schedule, GameView.showUndoButton, hp, List.nil_append]

theorem GameController.reserveToBase_cards (s : GameState) (cardId : Int)
    (cardView : Nat) (hp : s.pending = []) :
    (GameController.clickReserveToBase s cardId cardView).runPending.baseStackView.cards
        = s.baseStackView.cards ++ [cardView] ∧
    (GameController.clickReserveToBase s cardId cardView).runPending.reserveStackView.cards
        = s.reserveStackView.cards.erase cardView ∧
    (GameController.clickReserveToBase s cardId cardView).runPending.playfieldView
        = s.playfieldView ∧
    (GameController.clickReserveToBase s cardId cardView).runPending.undoStack
        = ⟨cardId, MoveType.RESERVE_TO_BASE, (s.heap cardView).position, 1, -1⟩ ::
          s.undoStack ∧
    (GameController.clickReserveToBase s cardId cardView).runPending.baseStackSnapshot
        = s.baseStackSnapshot ∧
    (GameController.clickReserveToBase s cardId cardView).runPending.nextPtr = s.nextPtr ∧
    (GameController.clickReserveToBase s cardId cardView).runPending.pending = [] := by
  rw [GameController.clickReserveToBase_run s cardId cardView hp]
  refine ⟨?_, ?_, rfl, rfl, rfl, rfl, rfl⟩
  · simp only [Scheduled.run, Callback.run, Callback.runReserveCard, StackView.addCard_cards]
    rfl
  · simp only [Scheduled.run, Callback.run, Callback.runReserveCard,
      StackView.removeCard_cards]
    show (StackView.saveCardState s.heap s.reserveStackView cardId).cards.erase cardView = _
    rw [StackView.saveCardState_cards]

/-! ## Card ids are never rewritten -/

theorem StackView.addCard_cardId (self : ParentNode) (h : Heap) (v : StackView) (c q : Nat) :
    ((StackView.addCard self h v (some c)).1 q).cardId = (h q).cardId := by
  rw [StackView.addCard_heap]
  split
  · rw [(StackView.layoutFrom_frame _ _ _ _).1]
    by_cases hq : q = c <;> simp [hq, CardView.withParent]
  · by_cases hq : q = c <;> simp [hq, CardView.withParent]

theorem StackView.removeCard_cardId (h : Heap) (v : StackView) (c q : Nat) :
    ((StackView.removeCard h v (some c)).1 q).cardId = (h q).cardId := by
  simp only [StackView.removeCard]
  split
  · show ((StackView.layoutFrom _ _ 0) q).cardId = _
    rw [(StackView.layoutFrom_frame _ _ _ _).1]
    by_cases hq : q = c <;> simp [hq, CardView.withParent]
  · rfl

theorem StackView.moveCardToTop_cardId (h : Heap) (v : StackView) (c q : Nat) :
    ((StackView.moveCardToTop h v c).1 q).cardId = (h q).cardId := by
  unfold StackView.moveCardToTop
  split
  · show ((StackView.layoutFrom _ _ 0) q).cardId = _
    rw [(StackView.layoutFrom_frame _ _ _ _).1]
  · rfl

theorem StackView.layoutCards_cardId (h : Heap) (v : StackView) (q : Nat) :
    ((StackView.layoutCards h v) q).cardId = (h q).cardId :=
  (StackView.layoutFrom_frame _ _ _ _).1

theorem PlayfieldView.restoreCardState_cardId (h : Heap) (v : PlayfieldView) (cardId : Int)
    (q : Nat) : ((PlayfieldView.restoreCardState h v cardId) q).cardId = (h q).cardId := by
  unfold PlayfieldView.restoreCardState
  cases v.cardStates cardId with
  | none => rfl
  | some info =>
    cases PlayfieldView.findCardById h v cardId with
    | none => rfl
    | some card =>
      by_cases hq : q = card <;>
        simp [hq, CardView.withVisible, CardView.withLocalZOrder, CardView.withPosition]

theorem GameController.updateViewCard_cardId (h : Heap) (c q : Nat) :
    ((GameController.updateViewCard h c) q).cardId = (h q).cardId := by
  by_cases hq : q = c <;> by_cases h1 : (h c).opacity = 0 <;>
    by_cases h2 : (h c).visible = false <;> by_cases h3 : (h c).localZOrder < 0 <;>
    simp [GameController.updateViewCard, hq, h1, h2, h3, CardView.withVisible,
      CardView.withLocalZOrder]

theorem GameController.finalCheckCard_cardId (h : Heap) (c q : Nat) :
    ((GameController.finalCheckCard h c) q).cardId = (h q).cardId := by
  by_cases hq : q = c <;> by_cases h1 : (h c).opacity = 0 <;>
    by_cases h2 : (h c).visible = false <;> by_cases h3 : (h c).localZOrder < 0 <;>
    simp [GameController.finalCheckCard, hq, h1, h2, h3, CardView.withVisible,
      CardView.withLocalZOrder, CardView.withOpacity]

theorem GameController.foldl_updateViewCard_cardId (l : List Nat) :
    ∀ (h : Heap) (q : Nat),
      ((l.foldl GameController.updateViewCard h) q).cardId = (h q).cardId := by
  induction l with
  | nil => intro h q; rfl
  | cons a t ih =>
    intro h q
    rw [List.foldl_cons, ih, GameController.updateViewCard_cardId]

theorem GameController.foldl_finalCheckCard_cardId (l : List Nat) :
    ∀ (h : Heap) (q : Nat),
      ((l.foldl GameController.finalCheckCard h) q).cardId = (h q).cardId := by
  induction l with
  | nil => intro h q; rfl
  | cons a t ih =>
    intro h q
    rw [List.foldl_cons, ih, GameController.finalCheckCard_cardId]

/-! ## ReorderBase -/

/-- A click on the id of a base card that is not the top card, when neither
the playfield nor the reserve holds a card with that id, runs the
`REORDER_BASE` branch. -/
theorem GameController.onCardClicked_reorderBase (s : GameState) (cardId : Int)
    (cardView : Nat)
    (hpf : GameController.findCardViewById s.heap cardId s.playfieldView.cards = none)
    (hrs : GameController.findCardViewById s.heap cardId s.reserveStackView.cards = none)
    (hfound : GameController.findCardViewById s.heap cardId s.baseStackView.cards
      = some cardView)
    (hnot : some cardView ≠ s.baseStackView.getTopCard) :
    GameController.onCardClicked s cardId =
      GameController.clickReorderBase s cardId cardView := by
  unfold GameController.onCardClicked
  rw [hpf]
  simp only [hrs, hfound, GameController.clickDispatch]
  simp [hnot]

/-- The reorder branch written out: the snapshot is taken, the move to the
top is scheduled, the record is pushed. -/
theorem GameController.clickReorderBase_eq (s : GameState) (cardId : Int)
    (cardView : Nat) (hmem : cardView ∈ s.baseStackView.cards)
    (hnot : some cardView ≠ s.baseStackView.getTopCard) :
    GameController.clickReorderBase s cardId cardView =
      { s with
        baseStackSnapshot := s.baseStackView.cards,
        pending := s.pending ++ [⟨some cardView, 10, none, Callback.handCard cardView⟩],
        moveHistory := ⟨cardId, false, true⟩ :: s.moveHistory,
        undoStack := ⟨cardId, MoveType.REORDER_BASE, (s.heap cardView).position, 2,
            GameController.originalIndexOf s.baseStackView.cards cardView⟩ :: s.undoStack,
        undoButtonVisible := true } := by
  have hne : s.baseStackView.cards ≠ [] := List.ne_nil_of_mem hmem
  obtain ⟨t, ht⟩ : ∃ t, s.baseStackView.getTopCard = some t := by
    unfold StackView.getTopCard
    exact ⟨_, List.getLast?_eq_getLast _ hne⟩
  have hct : cardView ≠ t := by
    intro e
    apply hnot
    rw [ht, e]
  simp only [GameController.clickReorderBase, GameView.onHandCardClicked, ht, hct, if_false,
    GameState.schedule, GameView.showUndoButton, UndoManager.push]

theorem GameController.reorderBase_facts (s : GameState) (cardId : Int)
    (cardView : Nat) (hp : s.pending = []) (hmem : cardView ∈ s.baseStackView.cards)
    (hnot : some cardView ≠ s.baseStackView.getTopCard) :
    (GameController.clickReorderBase s cardId cardView).runPending.baseStackView.cards
        = s.baseStackView.cards.erase cardView ++ [cardView] ∧
    (GameController.clickReorderBase s cardId cardView).runPending.reserveStackView
        = s.reserveStackView ∧
    (GameController.clickReorderBase s cardId cardView).runPending.playfieldView
        = s.playfieldView ∧
    (GameController.clickReorderBase s cardId cardView).runPending.undoStack
        = ⟨cardId, MoveType.REORDER_BASE, (s.heap cardView).position, 2,
            GameController.originalIndexOf s.baseStackView.cards cardView⟩ :: s.undoStack ∧
    (GameController.clickReorderBase s cardId cardView).runPending.baseStackSnapshot
        = s.baseStackView.cards ∧
    (GameController.clickReorderBase s cardId cardView).runPending.nextPtr = s.nextPtr ∧
    (GameController.clickReorderBase s cardId cardView).runPending.pending = [] ∧
    (GameController.clickReorderBase s cardId cardView).runPending.heap =
      StackView.layoutFrom s.heap (s.baseStackView.cards.erase cardView ++ [cardView]) 0 := by
  rw [GameController.clickReorderBase_eq s cardId cardView hmem hnot]
  rw [GameState.runPending_single _ ⟨some cardView, 10, none, Callback.handCard cardView⟩
    (by simp [hp])]
  simp [Scheduled.run, Callback.run, Callback.runHandCard, StackView.moveCardToTop, hmem,
    StackView.layoutCards]

/-! ## The undo handler, case by case -/

theorem GameState.runPending_pair (s : GameState) (a b : Scheduled) (hp : s.pending = [a, b])
    (hab : a.delay ≤ b.delay) :
    s.runPending = Scheduled.run (Scheduled.run { s with pending := [] } a) b := by
  simp [GameState.runPending, hp, List.insertionSort, List.orderedInsert, hab]

theorem GameState.runPending_pair_swap (s : GameState) (a b : Scheduled)
    (hp : s.pending = [a, b]) (hab : ¬ a.delay ≤ b.delay) :
    s.runPending = Scheduled.run (Scheduled.run { s with pending := [] } b) a := by
  simp [GameState.runPending, hp, List.insertionSort, List.orderedInsert, hab]

/-- Mirror of `onUndoClicked` on a non-empty ledger whose top record names a real zone:
the record is popped and the card is looked up in the base stack. -/
theorem GameController.onUndoClicked_cons (s : GameState) (r : UndoRecord)
    (rest : List UndoRecord) (hs : s.undoStack = r :: rest)
    (hpar : r.originalParent = 0 ∨ r.originalParent = 1 ∨ r.originalParent = 2) :
    GameController.onUndoClicked s =
      match GameController.findCardViewById s.heap r.cardId s.baseStackView.cards with
      | none => GameView.showUndoButton { s with undoStack := rest } (UndoManager.canUndo rest)
      | some cardView =>
        GameController.scheduleFinalCheck
          (match r.moveType with
          | MoveType.RESERVE_TO_BASE =>
            GameState.schedule { s with undoStack := rest }
              ⟨some cardView, 300, some r.originalPos, Callback.undoReserveToBase cardView⟩
          | MoveType.REORDER_BASE =>
            GameState.schedule { s with undoStack := rest }
              ⟨some cardView, 100, none, Callback.undoReorderBase cardView⟩
          | MoveType.PLAYFIELD_TO_BASE =>
            GameController.undoPlayfieldToBase { s with undoStack := rest } r) := by
  unfold GameController.onUndoClicked
  simp only [hs, UndoManager.canUndo, UndoManager.undo, List.isEmpty_cons, Bool.not_false,
    hpar, if_true]
  simp

/-- An undo request on an empty ledger does nothing. -/
theorem GameController.onUndoClicked_nil (s : GameState) (hs : s.undoStack = []) :
    GameController.onUndoClicked s = s := by
  unfold GameController.onUndoClicked
  simp [hs, UndoManager.canUndo]

theorem StackView.addCard_snd (self : ParentNode) (h : Heap) (v : StackView) (c : Nat) :
    (StackView.addCard self h v (some c)).2 = { v with cards := v.cards ++ [c] } := by
  simp only [StackView.addCard]
  split <;> rfl

theorem StackView.removeCard_snd (h : Heap) (v : StackView) (c : Nat) :
    (StackView.removeCard h v (some c)).2 = { v with cards := v.cards.erase c } := by
  simp only [StackView.removeCard]
  split
  · rfl
  · rename_i hc
    rw [List.erase_of_not_mem hc]

/-- The whole state after a completed `PLAYFIELD_TO_BASE` move. -/
theorem GameController.playfieldToBase_state (s : GameState) (cardId : Int)
    (cardView topCard : Nat) (hp : s.pending = []) :
    (GameController.clickPlayfieldToBase s cardId cardView topCard).runPending =
      { s with
        heap := (GameController.clickPlayfieldToBase s cardId cardView topCard).runPending.heap,
        nextPtr := s.nextPtr + 1,
        playfieldView := PlayfieldView.saveCardState s.heap s.playfieldView cardId,
        baseStackView := { s.baseStackView with cards := s.baseStackView.cards ++ [s.nextPtr] },
        moveHistory := ⟨cardId, true, true⟩ :: s.moveHistory,
        undoStack := ⟨cardId, MoveType.PLAYFIELD_TO_BASE, (s.heap cardView).position, 0, -1⟩ ::
          s.undoStack,
        undoButtonVisible := true,
        pending := [] } := by
  rw [GameController.clickPlayfieldToBase_run s cardId cardView topCard hp]
  simp only [Scheduled.run, Callback.run, Callback.runPlayfieldToBase, StackView.addCard_snd]
  rfl

/-! ## Lookup by id -/

/-- The lookup only reads the ids of the members. -/
theorem GameController.findCardViewById_congr {h1 h2 : Heap} (cardId : Int) (cards : List Nat)
    (hids : ∀ q ∈ cards, (h1 q).cardId = (h2 q).cardId) :
    GameController.findCardViewById h1 cardId cards =
      GameController.findCardViewById h2 cardId cards := by
  unfold GameController.findCardViewById
  induction cards with
  | nil => rfl
  | cons a t ih =>
    have ha := hids a (List.mem_cons_self _ _)
    have ht := ih (fun q hq => hids q (List.mem_cons_of_mem _ hq))
    simp only [List.find?_cons, ha, ht]

theorem GameController.findCardViewById_append_last (h : Heap) (cardId : Int)
    (cards : List Nat) (c : Nat) (hno : ∀ q ∈ cards, (h q).cardId ≠ cardId)
    (hc : (h c).cardId = cardId) :
    GameController.findCardViewById h cardId (cards ++ [c]) = some c := by
  unfold GameController.findCardViewById
  rw [List.find?_append]
  have : cards.find? (fun card => decide ((h card).cardId = cardId)) = none := by
    rw [List.find?_eq_none]
    intro q hq
    simpa using hno q hq
  simp [this, hc]

theorem PlayfieldView.playfield_findCardById_eq (h : Heap) (v : PlayfieldView) (cardId : Int) :
    PlayfieldView.findCardById h v cardId =
      GameController.findCardViewById h cardId v.cards := rfl

theorem StackView.findCardById_eq (h : Heap) (v : StackView) (cardId : Int) :
    StackView.findCardById h v cardId =
      GameController.findCardViewById h cardId v.cards := rfl

/-! ## The repair passes leave healthy cards alone -/

theorem GameController.updateViewCard_stable (h : Heap) (c q : Nat)
    (hq : (h q).visible = true ∧ 0 ≤ (h q).localZOrder) :
    (GameController.updateViewCard h c) q = h q := by
  by_cases e : q = c
  · subst e
    have h3 : ¬ (h q).localZOrder < 0 := by omega
    by_cases h1 : (h q).opacity = 0 <;>
      simp [GameController.updateViewCard, h1, hq.1, h3]
  · by_cases h1 : (h c).opacity = 0 <;>
      by_cases h2 : (h c).visible = false <;> by_cases h3 : (h c).localZOrder < 0 <;>
      simp [GameController.updateViewCard, e, h1, h2, h3, CardView.withVisible]

theorem GameController.finalCheckCard_stable (h : Heap) (c q : Nat)
    (hq : (h q).visible = true ∧ 0 ≤ (h q).localZOrder) :
    (GameController.finalCheckCard h c) q = h q := by
  by_cases e : q = c
  · subst e
    have h3 : ¬ (h q).localZOrder < 0 := by omega
    by_cases h1 : (h q).opacity = 0 <;>
      simp [GameController.finalCheckCard, h1, hq.1, h3]
  · by_cases h1 : (h c).opacity = 0 <;>
      by_cases h2 : (h c).visible = false <;> by_cases h3 : (h c).localZOrder < 0 <;>
      simp [GameController.finalCheckCard, e, h1, h2, h3, CardView.withVisible,
        CardView.withOpacity]

theorem GameController.foldl_updateViewCard_stable (l : List Nat) :
    ∀ (h : Heap) (q : Nat), (h q).visible = true ∧ 0 ≤ (h q).localZOrder →
      (l.foldl GameController.updateViewCard h) q = h q := by
  induction l with
  | nil => intro h q _; rfl
  | cons a t ih =>
    intro h q hq
    have e := GameController.updateViewCard_stable h a q hq
    rw [List.foldl_cons, ih _ _ (by rw [e]; exact hq), e]

theorem GameController.foldl_finalCheckCard_stable (l : List Nat) :
    ∀ (h : Heap) (q : Nat), (h q).visible = true ∧ 0 ≤ (h q).localZOrder →
      (l.foldl GameController.finalCheckCard h) q = h q := by
  induction l with
  | nil => intro h q _; rfl
  | cons a t ih =>
    intro h q hq
    have e := GameController.finalCheckCard_stable h a q hq
    rw [List.foldl_cons, ih _ _ (by rw [e]; exact hq), e]

/-! ## Undo of PlayfieldToBase -/

/-- The synchronous part of the `PLAYFIELD_TO_BASE` undo written out, when the
overlay card `o` is found in the base stack and the original `cv` in the
playfield. -/
theorem GameController.undoPlayfieldToBase_eq (x : GameState) (r : UndoRecord) (o cv : Nat)
    (ho : GameController.findCardViewById x.heap r.cardId x.baseStackView.cards = some o)
    (hcv : GameController.findCardViewById x.heap r.cardId x.playfieldView.cards = some cv) :
    GameController.undoPlayfieldToBase x r =
      GameController.updateView
        { x with
          heap := StackView.layoutFrom
            (PlayfieldView.restoreCardState
              ((((StackView.removeCard x.heap x.baseStackView (some o)).1.setVisible cv
                true).setOpacity cv 255).setPosition cv r.originalPos)
              x.playfieldView r.cardId)
            (x.baseStackView.cards.erase o) 0,
          baseStackView := { x.baseStackView with cards := x.baseStackView.cards.erase o },
          pending := x.pending.filter (fun a => decide (a.target ≠ some o)),
          undoButtonVisible := UndoManager.canUndo x.undoStack } := by
  have hcv2 : List.find?
      (fun card => decide (((StackView.removeCard x.heap x.baseStackView (some o)).1 card).cardId
        = r.cardId)) x.playfieldView.cards = some cv := by
    have := @GameController.findCardViewById_congr (StackView.removeCard x.heap
      x.baseStackView (some o)).1 x.heap r.cardId x.playfieldView.cards
      (fun q _ => StackView.removeCard_cardId _ _ _ _)
    unfold GameController.findCardViewById at this hcv
    rw [this, hcv]
  simp only [GameController.undoPlayfieldToBase, ho, hcv2, StackView.removeCard_snd,
    GameView.showUndoButton, StackView.layoutCards]

theorem GameController.repair_stable (l : List Nat) (h : Heap) (q : Nat)
    (hq : (h q).visible = true ∧ 0 ≤ (h q).localZOrder) :
    (l.foldl GameController.finalCheckCard (l.foldl GameController.updateViewCard h)) q
      = h q := by
  have e := GameController.foldl_updateViewCard_stable l h q hq
  rw [GameController.foldl_finalCheckCard_stable _ _ _ (by rw [e]; exact hq), e]

/-- After the `PLAYFIELD_TO_BASE` undo and its final check: the overlay is gone
from the base stack and the original card shows its saved state. -/
theorem GameController.undoPlayfieldToBase_facts (x : GameState) (r : UndoRecord) (o cv : Nat)
    (info : CardRestoreInfo) (hpend : x.pending = [])
    (ho : GameController.findCardViewById x.heap r.cardId x.baseStackView.cards = some o)
    (hcv : GameController.findCardViewById x.heap r.cardId x.playfieldView.cards = some cv)
    (hinfo : x.playfieldView.cardStates r.cardId = some info)
    (hcvb : cv ∉ x.baseStackView.cards.erase o)
    (hvis : info.visible = true) (hz : 0 ≤ info.zOrder) :
    (GameController.scheduleFinalCheck
        (GameController.undoPlayfieldToBase x r)).runPending.baseStackView.cards
      = x.baseStackView.cards.erase o ∧
    (GameController.scheduleFinalCheck
        (GameController.undoPlayfieldToBase x r)).runPending.playfieldView = x.playfieldView ∧
    (GameController.scheduleFinalCheck
        (GameController.undoPlayfieldToBase x r)).runPending.undoStack = x.undoStack ∧
    ((GameController.scheduleFinalCheck
        (GameController.undoPlayfieldToBase x r)).runPending.heap cv).visible = true ∧
    ((GameController.scheduleFinalCheck
        (GameController.undoPlayfieldToBase x r)).runPending.heap cv).opacity = 255 ∧
    ((GameController.scheduleFinalCheck
        (GameController.undoPlayfieldToBase x r)).runPending.heap cv).position
      = info.position ∧
    ((GameController.scheduleFinalCheck
        (GameController.undoPlayfieldToBase x r)).runPending.heap cv).localZOrder
      = info.zOrder := by
  rw [GameController.undoPlayfieldToBase_eq x r o cv ho hcv]
  rw [GameState.runPending_single _ ⟨none, 200, none, Callback.finalPlayfieldCheck⟩
    (by simp [GameController.scheduleFinalCheck, GameController.updateView,
      GameView.showUndoButton, hpend])]
  refine ⟨rfl, rfl, rfl, ?_⟩
  have hfind : PlayfieldView.findCardById
      ((((StackView.removeCard x.heap x.baseStackView (some o)).1.setVisible cv
        true).setOpacity cv 255).setPosition cv r.originalPos) x.playfieldView r.cardId
      = some cv := by
    rw [PlayfieldView.playfield_findCardById_eq, ← hcv]
    apply GameController.findCardViewById_congr
    intro q _
    by_cases hq : q = cv <;>
      simp [hq, CardView.withVisible, CardView.withOpacity, CardView.withPosition,
        StackView.removeCard_cardId]
  have hheap : (Scheduled.run
      { GameController.scheduleFinalCheck
        (GameController.updateView
          { x with
            heap := StackView.layoutFrom
              (PlayfieldView.restoreCardState
                ((((StackView.removeCard x.heap x.baseStackView (some o)).1.setVisible cv
                  true).setOpacity cv 255).setPosition cv r.originalPos)
                x.playfieldView r.cardId)
              (x.baseStackView.cards.erase o) 0,
            baseStackView := { x.baseStackView with cards := x.baseStackView.cards.erase o },
            pending := x.pending.filter (fun a => decide (a.target ≠ some o)),
            undoButtonVisible := UndoManager.canUndo x.undoStack }) with pending := [] }
      ⟨none, 200, none, Callback.finalPlayfieldCheck⟩).heap cv =
      ⟨(x.heap cv).cardId, (x.heap cv).cardFace, (x.heap cv).cardSuit, info.position,
        info.zOrder, true, 255,
        ((StackView.removeCard x.heap x.baseStackView (some o)).1 cv).parent⟩ := by
    have hbase : (StackView.layoutFrom
        (PlayfieldView.restoreCardState
          ((((StackView.removeCard x.heap x.baseStackView (some o)).1.setVisible cv
            true).setOpacity cv 255).setPosition cv r.originalPos)
          x.playfieldView r.cardId)
        (x.baseStackView.cards.erase o) 0) cv =
        ⟨(x.heap cv).cardId, (x.heap cv).cardFace, (x.heap cv).cardSuit, info.position,
          info.zOrder, true, 255,
          ((StackView.removeCard x.heap x.baseStackView (some o)).1 cv).parent⟩ := by
      rw [StackView.layoutFrom_not_mem _ _ _ _ hcvb]
      simp only [PlayfieldView.restoreCardState, hinfo, hfind]
      have hid := StackView.removeCard_cardId x.heap x.baseStackView o cv
      have hfr : ((StackView.removeCard x.heap x.baseStackView (some o)).1 cv).cardFace =
            (x.heap cv).cardFace ∧
          ((StackView.removeCard x.heap x.baseStackView (some o)).1 cv).cardSuit =
            (x.heap cv).cardSuit := by
        simp only [StackView.removeCard]
        split
        · have := StackView.layoutFrom_frame (x.baseStackView.cards.erase o)
            (x.heap.setParent o ParentNode.none) 0 cv
          constructor
          · show (StackView.layoutFrom _ _ 0 cv).cardFace = _
            rw [this.2.1]
            by_cases e : cv = o <;> simp [e, CardView.withParent]
          · show (StackView.layoutFrom _ _ 0 cv).cardSuit = _
            rw [this.2.2.1]
            by_cases e : cv = o <;> simp [e, CardView.withParent]
        · exact ⟨rfl, rfl⟩
      simp [CardView.withVisible, CardView.withOpacity, CardView.withPosition,
        CardView.withLocalZOrder, hid, hfr.1, hfr.2, hvis]
    show (x.playfieldView.cards.foldl GameController.finalCheckCard
      (x.playfieldView.cards.foldl GameController.updateViewCard
        (StackView.layoutFrom
          (PlayfieldView.restoreCardState
            ((((StackView.removeCard x.heap x.baseStackView (some o)).1.setVisible cv
              true).setOpacity cv 255).setPosition cv r.originalPos)
            x.playfieldView r.cardId)
          (x.baseStackView.cards.erase o) 0))) cv = _
    rw [GameController.repair_stable _ _ _ (by rw [hbase]; exact ⟨rfl, hz⟩), hbase]
  rw [hheap]
  exact ⟨rfl, rfl, rfl, rfl⟩

theorem GameController.playfieldToBase_cardId (s : GameState) (cardId : Int)
    (cardView topCard : Nat) (hp : s.pending = []) (ht : topCard ≠ s.nextPtr)
    (hc : cardView ≠ s.nextPtr) (q : Nat) :
    ((GameController.clickPlayfieldToBase s cardId cardView topCard).runPending.heap q).cardId
      = if q = s.nextPtr then cardId else (s.heap q).cardId := by
  obtain ⟨h4, hq4, ho4, hheap⟩ :=
    GameController.playfieldToBase_heap s cardId cardView topCard hp ht hc
  rw [hheap]
  have e : ∀ (h : Heap), (((h.setOpacity cardView 0).setVisible cardView false) q).cardId =
      (h q).cardId := by
    intro h
    by_cases hq : q = cardView <;> simp [hq, CardView.withVisible, CardView.withOpacity]
  rw [e, StackView.addCard_cardId]
  by_cases hq : q = s.nextPtr
  · simp [hq, ho4]
  · simp [hq, hq4 q hq]

theorem PlayfieldView.saveCardState_cardStates (h : Heap) (v : PlayfieldView) (cardId : Int)
    (c : Nat) (hf : GameController.findCardViewById h cardId v.cards = some c) :
    (PlayfieldView.saveCardState h v cardId).cardStates cardId =
      some ⟨cardId, (h c).position, (h c).localZOrder, (h c).visible⟩ := by
  unfold PlayfieldView.saveCardState
  rw [PlayfieldView.playfield_findCardById_eq, hf]
  simp

/-- The `PlayfieldToBase` round trip in a state with nothing scheduled and a
fresh next address. -/
theorem playfieldToBase_undo_roundtrip_of (s : GameState) (cardId : Int)
    (cardView topCard : Nat)
    (hp : s.pending = [])
    (hfresh : ∀ q, q ∈ s.playfieldView.cards ∨ q ∈ s.baseStackView.cards → q < s.nextPtr)
    (hfound : GameController.findCardViewById s.heap cardId s.playfieldView.cards
      = some cardView)
    (hclick : cardView ∈ GameController.getClickablePlayfieldCards s.heap s.playfieldView)
    (htop : s.baseStackView.getTopCard = some topCard)
    (hmatch : GameController.canMatchCards (s.heap cardView).cardFace
      (s.heap topCard).cardFace = true)
    (hnew : GameController.findCardViewById s.heap cardId s.baseStackView.cards = none)
    (hz : 0 ≤ (s.heap cardView).localZOrder) :
    ((s.click cardId).undoRequest).baseStackView.cards = s.baseStackView.cards ∧
    ((s.click cardId).undoRequest).playfieldView.cards = s.playfieldView.cards ∧
    cardView ∈ ((s.click cardId).undoRequest).playfieldView.cards ∧
    (((s.click cardId).undoRequest).heap cardView).visible = true ∧
    (((s.click cardId).undoRequest).heap cardView).opacity = 255 ∧
    (((s.click cardId).undoRequest).heap cardView).position = (s.heap cardView).position ∧
    (((s.click cardId).undoRequest).heap cardView).localZOrder
      = (s.heap cardView).localZOrder ∧
    ((s.click cardId).undoRequest).undoStack = s.undoStack := by
  have hmem := (GameController.findCardViewById_some hfound).1
  have hid := (GameController.findCardViewById_some hfound).2
  have hbase := StackView.getTopCard_some htop
  have htmem : topCard ∈ s.baseStackView.cards := by
    rw [hbase]
    simp
  have hc : cardView ≠ s.nextPtr := Nat.ne_of_lt (hfresh _ (Or.inl hmem))
  have ht : topCard ≠ s.nextPtr := Nat.ne_of_lt (hfresh _ (Or.inr htmem))
  have hob : s.nextPtr ∉ s.baseStackView.cards := fun hm =>
    Nat.lt_irrefl _ (hfresh _ (Or.inr hm))
  have hnoid := GameController.findCardViewById_none hnew
  have hcb : cardView ∉ s.baseStackView.cards := fun hm => hnoid _ hm hid
  have hvis := (GameController.mem_clickable hclick).2.1
  have hids := GameController.playfieldToBase_cardId s cardId cardView topCard hp ht hc
  have hclk : s.click cardId =
      (GameController.clickPlayfieldToBase s cardId cardView topCard).runPending := by
    unfold GameState.click
    rw [GameController.onCardClicked_playfieldToBase s cardId cardView topCard hfound hclick
      htop hmatch]
  have hstate := GameController.playfieldToBase_state s cardId cardView topCard hp
  generalize (GameController.clickPlayfieldToBase s cardId cardView topCard).runPending.heap
    = F at hstate hids
  rw [hclk, hstate]
  have hfo : GameController.findCardViewById F cardId (s.baseStackView.cards ++ [s.nextPtr])
      = some s.nextPtr := by
    apply GameController.findCardViewById_append_last
    · intro q hq
      have hqo : q ≠ s.nextPtr := Nat.ne_of_lt (hfresh _ (Or.inr hq))
      rw [hids, if_neg hqo]
      exact hnoid q hq
    · rw [hids, if_pos rfl]
  have hfc : GameController.findCardViewById F cardId s.playfieldView.cards
      = some cardView := by
    rw [← hfound]
    apply GameController.findCardViewById_congr
    intro q hq
    have hqo : q ≠ s.nextPtr := Nat.ne_of_lt (hfresh _ (Or.inl hq))
    rw [hids, if_neg hqo]
  have herase : (s.baseStackView.cards ++ [s.nextPtr]).erase s.nextPtr
      = s.baseStackView.cards := by
    rw [List.erase_append_right _ hob]
    simp
  unfold GameState.undoRequest
  rw [GameController.onUndoClicked_cons _ _ s.undoStack rfl (Or.inl rfl)]
  simp only [hfo]
  have hfacts := GameController.undoPlayfieldToBase_facts
    { s with
      heap := F,
      nextPtr := s.nextPtr + 1,
      playfieldView := PlayfieldView.saveCardState s.heap s.playfieldView cardId,
      baseStackView := { s.baseStackView with cards := s.baseStackView.cards ++ [s.nextPtr] },
      moveHistory := ⟨cardId, true, true⟩ :: s.moveHistory,
      undoStack := s.undoStack,
      undoButtonVisible := true,
      pending := [] }
    ⟨cardId, MoveType.PLAYFIELD_TO_BASE, (s.heap cardView).position, 0, -1⟩
    s.nextPtr cardView
    ⟨cardId, (s.heap cardView).position, (s.heap cardView).localZOrder,
      (s.heap cardView).visible⟩
    rfl hfo
    (by
      show GameController.findCardViewById F cardId
        (PlayfieldView.saveCardState s.heap s.playfieldView cardId).cards = some cardView
      rw [PlayfieldView.playfield_saveCardState_cards]
      exact hfc)
    (PlayfieldView.saveCardState_cardStates _ _ _ _ hfound)
    (by
      show cardView ∉ (s.baseStackView.cards ++ [s.nextPtr]).erase s.nextPtr
      rw [herase]
      exact hcb)
    hvis hz
  obtain ⟨f1, f2, f3, f4, f5, f6, f7⟩ := hfacts
  refine ⟨?_, ?_, ?_, f4, f5, f6, f7, f3⟩
  · rw [f1]
    exact herase
  · rw [f2]
    exact PlayfieldView.playfield_saveCardState_cards _ _ _
  · rw [f2, PlayfieldView.playfield_saveCardState_cards]
    exact hmem

/-! ## The code at concrete inputs -/

/-- C2: after `4♦` was played onto the base and `7♠` drawn on top of it, the
overlay `4♦` (address 3, id 0) is a base member below the top, yet a click on
its id changes neither the base sequence nor the ledger. -/
theorem reorder_click_on_overlay_ignored :
    (((GameView.init levelScenario1).click 0).click 1).baseStackView.cards = [2, 3, 1] ∧
    ((((GameView.init levelScenario1).click 0).click 1).heap 3).cardId = 0 ∧
    (((GameView.init levelScenario1).click 0).click 1).baseStackView.getTopCard = some 1 ∧
    ((((GameView.init levelScenario1).click 0).click 1).click 0).baseStackView.cards
      = [2, 3, 1] ∧
    ((((GameView.init levelScenario1).click 0).click 1).click 0).undoStack
      = (((GameView.init levelScenario1).click 0).click 1).undoStack := by
  decide

/-- C3, as stated, fails: in `levelMargin` the card `4♦` (id 0) is visible,
`isCardCovered` is false for it, the base top `5♣` matches it, and yet the
click is ignored: base, ledger and the card are unchanged. -/
theorem uncovered_match_click_ignored :
    GameController.findCardViewById (GameView.init levelMargin).heap 0
        (GameView.init levelMargin).playfieldView.cards = some 0 ∧
    ((GameView.init levelMargin).heap 0).visible = true ∧
    PlayfieldView.isCardCovered (GameView.init levelMargin).heap
        (GameView.init levelMargin).playfieldView (some 0) = false ∧
    (GameView.init levelMargin).baseStackView.getTopCard = some 2 ∧
    GameController.canMatchCards ((GameView.init levelMargin).heap 0).cardFace
        ((GameView.init levelMargin).heap 2).cardFace = true ∧
    ((GameView.init levelMargin).click 0).baseStackView.cards = [2] ∧
    ((GameView.init levelMargin).click 0).undoStack = [] ∧
    UndoManager.canUndo ((GameView.init levelMargin).click 0).undoStack = false ∧
    (((GameView.init levelMargin).click 0).heap 0).visible = true := by
  decide

/-- C5: reserve `7♠`, base `3♥` at `(0, 0)`: after the draw `7♠` is the base top
but lies at `(25, 0)`, not at the position `(0, 0)` that `3♥` had and has.
For contrast, in `levelTwoDraws` the base top `9♥` lies at `(25, 0)` and the
drawn `8♠` lands exactly there. -/
theorem overlay_on_origin_is_laid_out :
    (GameView.init levelScenario3).baseStackView.getTopCard = some 1 ∧
    ((GameView.init levelScenario3).heap 1).position = ⟨0, 0⟩ ∧
    ((GameView.init levelScenario3).click 0).baseStackView.cards = [1, 0] ∧
    (((GameView.init levelScenario3).click 0).heap 1).position = ⟨0, 0⟩ ∧
    (((GameView.init levelScenario3).click 0).heap 0).position = ⟨25, 0⟩ ∧
    (GameView.init levelTwoDraws).baseStackView.getTopCard = some 3 ∧
    ((GameView.init levelTwoDraws).heap 3).position = ⟨25, 0⟩ ∧
    (((GameView.init levelTwoDraws).click 1).heap 1).position = ⟨25, 0⟩ := by
  decide

/-- C6: in `levelDrawReorder`, after reorder `3♥`, draw `7♠`, reorder `9♥`,
three undo requests and a reorder of `3♥`, the reserve is `[7♠]` and the base
`[9♥, 7♠, 3♥]`; drawing `7♠` and undoing leaves the base as `[9♥, 3♥, 7♠]`. -/
theorem draw_undo_after_stale_snapshot :
    ((((((((GameView.init levelDrawReorder).click 1).click 0).click 2).undoRequest
      ).undoRequest).undoRequest).click 1).reserveStackView.cards = [0] ∧
    ((((((((GameView.init levelDrawReorder).click 1).click 0).click 2).undoRequest
      ).undoRequest).undoRequest).click 1).baseStackView.cards = [2, 0, 1] ∧
    ((((((((((GameView.init levelDrawReorder).click 1).click 0).click 2).undoRequest
      ).undoRequest).undoRequest).click 1).click 0).undoRequest).baseStackView.cards
      = [2, 1, 0] ∧
    ((((((((((GameView.init levelDrawReorder).click 1).click 0).click 2).undoRequest
      ).undoRequest).undoRequest).click 1).click 0).undoRequest).reserveStackView.cards
      = [0] := by
  decide

/-- C8: with base `[5♣, 4♦ overlay, 7♠]`, a click on the overlay `4♦` followed
by an undo request leaves the base as `[5♣, 4♦]`, not in its order before the
click. -/
theorem reorder_undo_on_overlay :
    (((GameView.init levelScenario1).click 0).click 1).baseStackView.cards = [2, 3, 1] ∧
    (((((GameView.init levelScenario1).click 0).click 1).click 0).undoRequest
      ).baseStackView.cards = [2, 3] := by
  decide

/-- C9: base `[9♦, 2♣, 5♣]`; reorder `9♦`, reorder `2♣`, then two undo
requests: the base ends as `[2♣, 5♣, 9♦]`, not as it started. -/
theorem two_reorders_two_undos :
    (GameView.init levelThreeBase).baseStackView.cards = [0, 1, 2] ∧
    (((GameView.init levelThreeBase).click 0).click 1).baseStackView.cards = [2, 0, 1] ∧
    ((((GameView.init levelThreeBase).click 0).click 1).undoRequest).baseStackView.cards
      = [1, 2, 0] ∧
    (((((GameView.init levelThreeBase).click 0).click 1).undoRequest).undoRequest
      ).baseStackView.cards = [1, 2, 0] ∧
    (((((GameView.init levelThreeBase).click 0).click 1).undoRequest).undoRequest
      ).undoStack = [] := by
  decide

/-- C10: the reserve card `7♠` of `levelScenario1` starts at its configured
position `(300, 0)`; after the draw and its undo it is back in the reserve but
at `(0, 0)`.  And in `levelTwoDraws`, where every position comes from the
layout: after `8♠` was drawn onto `9♥` it lies in the base at `(25, 0)`;
drawing `7♠` and undoing that draw leaves the base sequence as it was but
`8♠` at `(50, 0)`. -/
theorem draw_undo_moves_reserve_card :
    (GameView.init levelScenario1).reserveStackView.cards = [1] ∧
    ((GameView.init levelScenario1).heap 1).position = ⟨300, 0⟩ ∧
    (((GameView.init levelScenario1).click 1).undoRequest).reserveStackView.cards = [1] ∧
    ((((GameView.init levelScenario1).click 1).undoRequest).heap 1).position = ⟨0, 0⟩ ∧
    ((GameView.init levelTwoDraws).click 1).baseStackView.cards = [2, 3, 1] ∧
    (((GameView.init levelTwoDraws).click 1).heap 1).position = ⟨25, 0⟩ ∧
    ((((GameView.init levelTwoDraws).click 1).click 0).undoRequest).baseStackView.cards
      = [2, 3, 1] ∧
    (((((GameView.init levelTwoDraws).click 1).click 0).undoRequest).heap 1).position
      = ⟨50, 0⟩ := by
  decide

/-- The draw, under explicit conditions on the ids: no playfield card bears
the id of the reserve top, the lookup in the reserve yields the top card, and
the reserve holds no card twice. -/
theorem drawToBase_move_of (s : GameState) (cardView : Nat)
    (hp : s.pending = [])
    (htop : s.reserveStackView.getTopCard = some cardView)
    (hpf : GameController.findCardViewById s.heap (s.heap cardView).cardId
      s.playfieldView.cards = none)
    (hfound : GameController.findCardViewById s.heap (s.heap cardView).cardId
      s.reserveStackView.cards = some cardView)
    (hnd : s.reserveStackView.cards.Nodup) :
    cardView ∉ (s.click (s.heap cardView).cardId).reserveStackView.cards ∧
    (s.click (s.heap cardView).cardId).baseStackView.cards
      = s.baseStackView.cards ++ [cardView] ∧
    (s.click (s.heap cardView).cardId).baseStackView.getTopCard = some cardView ∧
    (s.click (s.heap cardView).cardId).undoStack =
      ⟨(s.heap cardView).cardId, MoveType.RESERVE_TO_BASE, (s.heap cardView).position, 1, -1⟩
        :: s.undoStack := by
  have hclk : s.click (s.heap cardView).cardId =
      (GameController.clickReserveToBase s (s.heap cardView).cardId cardView).runPending := by
    unfold GameState.click
    rw [GameController.onCardClicked_reserveToBase s _ cardView hpf hfound htop]
  obtain ⟨f1, f2, _, f4, _, _, _⟩ :=
    GameController.reserveToBase_cards s (s.heap cardView).cardId cardView hp
  rw [hclk, f1, f2, f4]
  refine ⟨?_, rfl, StackView.getTopCard_append _ _ _ f1, rfl⟩
  intro hm
  exact (List.Nodup.mem_erase_iff hnd).mp hm |>.1 rfl

/-! ## Undo of DrawToBase and of ReorderBase -/

/-- The state after the `RESERVE_TO_BASE` undo has run to completion: the
final check fires first (200 ms), then the flight back lands (300 ms). -/
theorem GameController.undoReserveToBase_run (x : GameState) (cardView : Nat) (pos : Vec2)
    (hpend : x.pending = []) :
    (GameController.scheduleFinalCheck
      (x.schedule ⟨some cardView, 300, some pos, Callback.undoReserveToBase cardView⟩)
      ).runPending =
    Callback.runUndoReserveToBase
      { x with heap := (x.playfieldView.cards.foldl GameController.finalCheckCard
          x.heap).setPosition cardView pos }
      cardView := by
  rw [GameState.runPending_pair_swap _
    ⟨some cardView, 300, some pos, Callback.undoReserveToBase cardView⟩
    ⟨none, 200, none, Callback.finalPlayfieldCheck⟩
    (by simp [GameController.scheduleFinalCheck, GameState.schedule, hpend]) (by simp)]
  simp only [Scheduled.run, Callback.run, Callback.runFinalPlayfieldCheck,
    GameController.scheduleFinalCheck, GameState.schedule]
  cases x
  simp_all

/-- The state after the `REORDER_BASE` undo has run to completion: the
restore fires first (100 ms), then the final check (200 ms). -/
theorem GameController.undoReorderBase_run (x : GameState) (cardView : Nat)
    (hpend : x.pending = []) :
    (GameController.scheduleFinalCheck
      (x.schedule ⟨some cardView, 100, none, Callback.undoReorderBase cardView⟩)
      ).runPending =
    Callback.runFinalPlayfieldCheck (Callback.runUndoReorderBase x cardView) := by
  rw [GameState.runPending_pair _
    ⟨some cardView, 100, none, Callback.undoReorderBase cardView⟩
    ⟨none, 200, none, Callback.finalPlayfieldCheck⟩
    (by simp [GameController.scheduleFinalCheck, GameState.schedule, hpend]) (by simp)]
  simp only [Scheduled.run, Callback.run, GameController.scheduleFinalCheck,
    GameState.schedule]
  cases x
  simp_all

/-! ## Every click is one of four things -/

/-- Mirror of `onCardClicked` either changes nothing or runs one of the three move
branches on the card the lookup found. -/
theorem GameController.onCardClicked_cases (s : GameState) (cardId : Int) :
    GameController.onCardClicked s cardId = s ∨
    (∃ cardView,
      GameController.findCardViewById s.heap cardId s.playfieldView.cards = none ∧
      GameController.findCardViewById s.heap cardId s.reserveStackView.cards = none ∧
      GameController.findCardViewById s.heap cardId s.baseStackView.cards = some cardView ∧
      some cardView ≠ s.baseStackView.getTopCard ∧
      GameController.onCardClicked s cardId =
        GameController.clickReorderBase s cardId cardView) ∨
    (∃ cardView topCard,
      GameController.findCardViewById s.heap cardId s.playfieldView.cards = some cardView ∧
      s.baseStackView.getTopCard = some topCard ∧
      GameController.onCardClicked s cardId =
        GameController.clickPlayfieldToBase s cardId cardView topCard) ∨
    (∃ cardView,
      GameController.findCardViewById s.heap cardId s.playfieldView.cards = none ∧
      GameController.findCardViewById s.heap cardId s.reserveStackView.cards = some cardView ∧
      s.reserveStackView.getTopCard = some cardView ∧
      GameController.onCardClicked s cardId =
        GameController.clickReserveToBase s cardId cardView) := by
  obtain ⟨opf, hpf⟩ : ∃ o, GameController.findCardViewById s.heap cardId
      s.playfieldView.cards = o := ⟨_, rfl⟩
  obtain ⟨ors, hrs⟩ : ∃ o, GameController.findCardViewById s.heap cardId
      s.reserveStackView.cards = o := ⟨_, rfl⟩
  obtain ⟨obs, hbs⟩ : ∃ o, GameController.findCardViewById s.heap cardId
      s.baseStackView.cards = o := ⟨_, rfl⟩
  obtain ⟨otop, htop⟩ : ∃ o, s.baseStackView.getTopCard = o := ⟨_, rfl⟩
  cases opf with
  | some cv =>
    by_cases c1 : PlayfieldView.isCardCovered s.heap s.playfieldView (some cv) = true
    · left
      unfold GameController.onCardClicked
      simp [hpf, c1]
    by_cases c2 : (GameController.getClickablePlayfieldCards s.heap s.playfieldView).any
        (fun card => decide ((s.heap card).cardId = cardId)) = false
    · left
      unfold GameController.onCardClicked
      simp only [hpf, c1, c2]
      simp
    by_cases c3 : GameController.manualCoverageCheck s.heap s.playfieldView cv = true
    · left
      unfold GameController.onCardClicked
      simp only [hpf, c1, c2, GameController.clickDispatch, c3]
      simp
    cases otop with
    | none =>
      left
      unfold GameController.onCardClicked
      simp only [hpf, c1, c2, GameController.clickDispatch, c3, htop]
      simp
    | some t =>
      by_cases c5 : GameController.canMatchCards (s.heap cv).cardFace (s.heap t).cardFace
          = true
      · right; right; left
        refine ⟨cv, t, hpf, htop, ?_⟩
        unfold GameController.onCardClicked
        simp only [hpf, c1, c2, GameController.clickDispatch, c3, htop, c5]
        simp
      · left
        unfold GameController.onCardClicked
        simp only [hpf, c1, c2, GameController.clickDispatch, c3, htop, c5]
        simp
  | none =>
    cases ors with
    | some cv =>
      by_cases c1 : some cv = s.reserveStackView.getTopCard
      · right; right; right
        refine ⟨cv, hpf, hrs, c1.symm, ?_⟩
        unfold GameController.onCardClicked
        simp only [hpf, hrs, GameController.clickDispatch]
        simp [c1]
      · left
        unfold GameController.onCardClicked
        simp only [hpf, hrs, GameController.clickDispatch]
        simp [c1]
    | none =>
      cases obs with
      | some cv =>
        by_cases c1 : some cv = s.baseStackView.getTopCard
        · left
          unfold GameController.onCardClicked
          simp only [hpf, hrs, hbs, GameController.clickDispatch]
          simp [c1]
        · right; left
          refine ⟨cv, hpf, hrs, hbs, c1, ?_⟩
          unfold GameController.onCardClicked
          simp only [hpf, hrs, hbs, GameController.clickDispatch]
          simp [c1]
      | none =>
        left
        unfold GameController.onCardClicked
        simp [hpf, hrs, hbs]

/-! ## What an undo request can change -/

theorem GameController.updateView_facts (x : GameState) :
    (GameController.updateView x).baseStackView = x.baseStackView ∧
    (GameController.updateView x).reserveStackView = x.reserveStackView ∧
    (GameController.updateView x).playfieldView = x.playfieldView ∧
    (GameController.updateView x).undoStack = x.undoStack ∧
    (GameController.updateView x).baseStackSnapshot = x.baseStackSnapshot ∧
    (GameController.updateView x).nextPtr = x.nextPtr ∧
    (GameController.updateView x).pending = x.pending ∧
    (∀ q, ((GameController.updateView x).heap q).cardId = (x.heap q).cardId) := by
  refine ⟨rfl, rfl, rfl, rfl, rfl, rfl, rfl, ?_⟩
  intro q
  exact GameController.foldl_updateViewCard_cardId _ _ _

theorem Callback.runUndoReserveToBase_facts (x : GameState) (cardView : Nat) :
    (Callback.runUndoReserveToBase x cardView).baseStackView.cards
      = x.baseStackView.cards.erase cardView ∧
    (Callback.runUndoReserveToBase x cardView).reserveStackView.cards
      = x.reserveStackView.cards ++ [cardView] ∧
    (Callback.runUndoReserveToBase x cardView).playfieldView = x.playfieldView ∧
    (Callback.runUndoReserveToBase x cardView).undoStack = x.undoStack ∧
    (Callback.runUndoReserveToBase x cardView).baseStackSnapshot = x.baseStackSnapshot ∧
    (Callback.runUndoReserveToBase x cardView).nextPtr = x.nextPtr ∧
    (Callback.runUndoReserveToBase x cardView).pending = x.pending ∧
    (∀ q, ((Callback.runUndoReserveToBase x cardView).heap q).cardId = (x.heap q).cardId) := by
  unfold Callback.runUndoReserveToBase
  simp only [GameView.showUndoButton]
  refine ⟨?_, ?_, rfl, rfl, rfl, rfl, rfl, ?_⟩
  · show (StackView.removeCard x.heap x.baseStackView (some cardView)).2.cards = _
    rw [StackView.removeCard_cards]
  · show (StackView.addCard ParentNode.reserveStack _ x.reserveStackView (some cardView)).2.cards
      = _
    rw [StackView.addCard_cards]
  · intro q
    rw [(GameController.updateView_facts _).2.2.2.2.2.2.2 q]
    show ((StackView.layoutCards (StackView.layoutCards
      (StackView.addCard ParentNode.reserveStack
        (StackView.removeCard x.heap x.baseStackView (some cardView)).1 x.reserveStackView
        (some cardView)).1 _) _) q).cardId = _
    rw [StackView.layoutCards_cardId, StackView.layoutCards_cardId, StackView.addCard_cardId,
      StackView.removeCard_cardId]

theorem Callback.runUndoReorderBase_facts (x : GameState) (cardView : Nat) :
    ((Callback.runUndoReorderBase x cardView).baseStackView.cards = x.baseStackView.cards ∨
      (Callback.runUndoReorderBase x cardView).baseStackView.cards = x.baseStackSnapshot) ∧
    (x.baseStackSnapshot ≠ [] →
      (Callback.runUndoReorderBase x cardView).baseStackView.cards = x.baseStackSnapshot) ∧
    (Callback.runUndoReorderBase x cardView).reserveStackView = x.reserveStackView ∧
    (Callback.runUndoReorderBase x cardView).playfieldView = x.playfieldView ∧
    (Callback.runUndoReorderBase x cardView).undoStack = x.undoStack ∧
    (Callback.runUndoReorderBase x cardView).baseStackSnapshot = x.baseStackSnapshot ∧
    (Callback.runUndoReorderBase x cardView).nextPtr = x.nextPtr ∧
    (Callback.runUndoReorderBase x cardView).pending = x.pending ∧
    (∀ q, ((Callback.runUndoReorderBase x cardView).heap q).cardId = (x.heap q).cardId) := by
  unfold Callback.runUndoReorderBase
  cases hsn : x.baseStackSnapshot with
  | nil =>
    simp only [List.isEmpty_nil, if_true, GameView.showUndoButton]
    refine ⟨Or.inl rfl, fun h => absurd rfl h, rfl, rfl, rfl, hsn, rfl, rfl, ?_⟩
    intro q
    rw [(GameController.updateView_facts _).2.2.2.2.2.2.2 q]
  | cons a t =>
    simp only [List.isEmpty_cons, Bool.false_eq_true, if_false, GameView.showUndoButton,
      GameController.restoreBaseStackOrder]
    refine ⟨Or.inr rfl, fun _ => rfl, rfl, rfl, rfl, rfl, rfl, rfl, ?_⟩
    intro q
    rw [(GameController.updateView_facts _).2.2.2.2.2.2.2 q]
    exact StackView.layoutCards_cardId _ _ _

theorem Callback.runFinalPlayfieldCheck_facts (x : GameState) :
    (Callback.runFinalPlayfieldCheck x).baseStackView = x.baseStackView ∧
    (Callback.runFinalPlayfieldCheck x).reserveStackView = x.reserveStackView ∧
    (Callback.runFinalPlayfieldCheck x).playfieldView = x.playfieldView ∧
    (Callback.runFinalPlayfieldCheck x).undoStack = x.undoStack ∧
    (Callback.runFinalPlayfieldCheck x).baseStackSnapshot = x.baseStackSnapshot ∧
    (Callback.runFinalPlayfieldCheck x).nextPtr = x.nextPtr ∧
    (Callback.runFinalPlayfieldCheck x).pending = x.pending ∧
    (∀ q, ((Callback.runFinalPlayfieldCheck x).heap q).cardId = (x.heap q).cardId) := by
  refine ⟨rfl, rfl, rfl, rfl, rfl, rfl, rfl, ?_⟩
  intro q
  exact GameController.foldl_finalCheckCard_cardId _ _ _

theorem GameController.undoPlayfieldToBase_general (x : GameState) (r : UndoRecord)
    (hpend : x.pending = []) :
    (∀ q ∈ (GameController.undoPlayfieldToBase x r).baseStackView.cards,
      q ∈ x.baseStackView.cards) ∧
    (GameController.undoPlayfieldToBase x r).reserveStackView = x.reserveStackView ∧
    (GameController.undoPlayfieldToBase x r).playfieldView = x.playfieldView ∧
    (GameController.undoPlayfieldToBase x r).undoStack = x.undoStack ∧
    (GameController.undoPlayfieldToBase x r).baseStackSnapshot = x.baseStackSnapshot ∧
    (GameController.undoPlayfieldToBase x r).nextPtr = x.nextPtr ∧
    (GameController.undoPlayfieldToBase x r).pending = [] ∧
    (∀ q, ((GameController.undoPlayfieldToBase x r).heap q).cardId = (x.heap q).cardId) := by
  have hrestore : ∀ (h : Heap) (v : PlayfieldView) (q : Nat),
      ((match v.cards.find? (fun card => decide ((h card).cardId = r.cardId)) with
        | some originalCard =>
          PlayfieldView.restoreCardState
            (((h.setVisible originalCard true).setOpacity originalCard 255).setPosition
              originalCard r.originalPos) v r.cardId
        | none => h) q).cardId = (h q).cardId := by
    intro h v q
    cases v.cards.find? (fun card => decide ((h card).cardId = r.cardId)) with
    | none => rfl
    | some c =>
      simp only []
      rw [PlayfieldView.restoreCardState_cardId]
      by_cases hq : q = c <;>
        simp [hq, CardView.withVisible, CardView.withOpacity, CardView.withPosition]
  unfold GameController.undoPlayfieldToBase
  cases hfo : GameController.findCardViewById x.heap r.cardId x.baseStackView.cards with
  | none =>
    simp only [GameView.showUndoButton]
    refine ⟨fun q hq => hq, rfl, rfl, rfl, rfl, rfl, hpend, ?_⟩
    intro q
    rw [(GameController.updateView_facts _).2.2.2.2.2.2.2 q]
    show ((StackView.layoutCards _ _) q).cardId = _
    rw [StackView.layoutCards_cardId, hrestore]
  | some o =>
    simp only [GameView.showUndoButton, StackView.removeCard_snd]
    refine ⟨fun q hq => List.mem_of_mem_erase hq, rfl, rfl, rfl, rfl, rfl, ?_, ?_⟩
    · show List.filter _ x.pending = []
      rw [hpend]
      rfl
    · intro q
      rw [(GameController.updateView_facts _).2.2.2.2.2.2.2 q]
      show ((StackView.layoutCards _ _) q).cardId = _
      rw [StackView.layoutCards_cardId, hrestore, StackView.removeCard_cardId]

/-- Mirror of `onUndoClicked` on a non-empty ledger, for any record. -/
theorem GameController.onUndoClicked_cons_any (s : GameState) (r : UndoRecord)
    (rest : List UndoRecord) (hs : s.undoStack = r :: rest) :
    GameController.onUndoClicked s =
      match (if r.originalParent = 0 ∨ r.originalParent = 1 ∨ r.originalParent = 2 then
          GameController.findCardViewById s.heap r.cardId s.baseStackView.cards
        else none) with
      | none => GameView.showUndoButton { s with undoStack := rest } (UndoManager.canUndo rest)
      | some cardView =>
        GameController.scheduleFinalCheck
          (match r.moveType with
          | MoveType.RESERVE_TO_BASE =>
            GameState.schedule { s with undoStack := rest }
              ⟨some cardView, 300, some r.originalPos, Callback.undoReserveToBase cardView⟩
          | MoveType.REORDER_BASE =>
            GameState.schedule { s with undoStack := rest }
              ⟨some cardView, 100, none, Callback.undoReorderBase cardView⟩
          | MoveType.PLAYFIELD_TO_BASE =>
            GameController.undoPlayfieldToBase { s with undoStack := rest } r) := by
  unfold GameController.onUndoClicked
  simp only [hs, UndoManager.canUndo, UndoManager.undo, List.isEmpty_cons, Bool.not_false]
  simp

/-- What an undo request can change: nothing on an empty ledger; otherwise the
top record is popped, card ids, the playfield members, the snapshot and the
address counter stay, the base members come from the old base or the snapshot,
and the reserve either stays or, for a `RESERVE_TO_BASE` record, receives a
base card bearing the recorded id. -/
theorem GameState.undoRequest_effect (s : GameState) (hp : s.pending = []) :
    (s.undoStack = [] ∧ s.undoRequest = s) ∨
    ∃ r rest, s.undoStack = r :: rest ∧
      s.undoRequest.undoStack = rest ∧ s.undoRequest.pending = [] ∧
      s.undoRequest.playfieldView.cards = s.playfieldView.cards ∧
      s.undoRequest.nextPtr = s.nextPtr ∧
      s.undoRequest.baseStackSnapshot = s.baseStackSnapshot ∧
      (∀ q, (s.undoRequest.heap q).cardId = (s.heap q).cardId) ∧
      (∀ q ∈ s.undoRequest.baseStackView.cards,
        q ∈ s.baseStackView.cards ∨ q ∈ s.baseStackSnapshot) ∧
      (s.undoRequest.reserveStackView.cards = s.reserveStackView.cards ∨
        (r.moveType = MoveType.RESERVE_TO_BASE ∧ ∃ cv ∈ s.baseStackView.cards,
          (s.heap cv).cardId = r.cardId ∧
          s.undoRequest.reserveStackView.cards = s.reserveStackView.cards ++ [cv])) := by
  cases hs : s.undoStack with
  | nil =>
    left
    refine ⟨rfl, ?_⟩
    unfold GameState.undoRequest
    rw [GameController.onUndoClicked_nil s hs, GameState.runPending_nil s hp]
  | cons r rest =>
    right
    refine ⟨r, rest, rfl, ?_⟩
    unfold GameState.undoRequest
    rw [GameController.onUndoClicked_cons_any s r rest hs]
    obtain ⟨o, ho⟩ : ∃ o, (if r.originalParent = 0 ∨ r.originalParent = 1 ∨
        r.originalParent = 2 then
          GameController.findCardViewById s.heap r.cardId s.baseStackView.cards
        else none) = o := ⟨_, rfl⟩
    rw [ho]
    cases o with
    | none =>
      simp only []
      rw [GameState.runPending_nil _ (by simpa [GameView.showUndoButton] using hp)]
      exact ⟨rfl, hp, rfl, rfl, rfl, fun _ => rfl, fun q hq => Or.inl hq, Or.inl rfl⟩
    | some cv =>
      have hfind : GameController.findCardViewById s.heap r.cardId s.baseStackView.cards
          = some cv := by
        split_ifs at ho
        · exact ho
      obtain ⟨hcvm, hcvid⟩ := GameController.findCardViewById_some hfind
      simp only []
      cases hmt : r.moveType with
      | RESERVE_TO_BASE =>
        simp only []
        rw [GameController.undoReserveToBase_run { s with undoStack := rest } cv r.originalPos hp]
        obtain ⟨f1, f2, f3, f4, f5, f6, f7, f8⟩ := Callback.runUndoReserveToBase_facts
          { { s with undoStack := rest } with
            heap := (s.playfieldView.cards.foldl GameController.finalCheckCard
              s.heap).setPosition cv r.originalPos } cv
        refine ⟨f4, ?_, ?_, f6, f5, ?_, ?_, Or.inr ⟨trivial, cv, hcvm, hcvid, f2⟩⟩
        · rw [f7]
          exact hp
        · rw [f3]
        · intro q
          rw [f8]
          show (((s.playfieldView.cards.foldl GameController.finalCheckCard
              s.heap).setPosition cv r.originalPos) q).cardId = _
          by_cases hq : q = cv
          · simp [hq, CardView.withPosition, GameController.foldl_finalCheckCard_cardId]
          · simp [hq, GameController.foldl_finalCheckCard_cardId]
        · intro q hq
          rw [f1] at hq
          exact Or.inl (List.mem_of_mem_erase hq)
      | REORDER_BASE =>
        simp only []
        rw [GameController.undoReorderBase_run { s with undoStack := rest } cv hp]
        obtain ⟨g1, g2, g3, g4, g5, g6, g7, g8⟩ := Callback.runFinalPlayfieldCheck_facts
          (Callback.runUndoReorderBase { s with undoStack := rest } cv)
        obtain ⟨f1, _, f3, f4, f5, f6, f7, f8, f9⟩ := Callback.runUndoReorderBase_facts
          { s with undoStack := rest } cv
        refine ⟨by rw [g4, f5], by rw [g7, f8]; exact hp, by rw [g3, f4], by rw [g6, f7],
          by rw [g5, f6], ?_, ?_, Or.inl (by rw [g2, f3])⟩
        · intro q
          rw [g8, f9]
        · intro q hq
          rw [g1] at hq
          rcases f1 with e | e
          · rw [e] at hq
            exact Or.inl hq
          · rw [e] at hq
            exact Or.inr hq
      | PLAYFIELD_TO_BASE =>
        simp only []
        obtain ⟨f1, f2, f3, f4, f5, f6, f7, f8⟩ := GameController.undoPlayfieldToBase_general
          { s with undoStack := rest } r hp
        rw [GameState.runPending_single _ ⟨none, 200, none, Callback.finalPlayfieldCheck⟩
          (by simp [GameController.scheduleFinalCheck, f7])]
        refine ⟨?_, rfl, ?_, ?_, ?_, ?_, ?_, Or.inl ?_⟩
        · show (GameController.undoPlayfieldToBase _ r).undoStack = _
          rw [f4]
        · show (GameController.undoPlayfieldToBase _ r).playfieldView.cards = _
          rw [f3]
        · show (GameController.undoPlayfieldToBase _ r).nextPtr = _
          rw [f6]
        · show (GameController.undoPlayfieldToBase _ r).baseStackSnapshot = _
          rw [f5]
        · intro q
          show (((GameController.undoPlayfieldToBase _ r).playfieldView.cards.foldl
            GameController.finalCheckCard (GameController.undoPlayfieldToBase _ r).heap)
            q).cardId = _
          rw [GameController.foldl_finalCheckCard_cardId, f8]
        · intro q hq
          exact Or.inl (f1 q hq)
        · show (GameController.undoPlayfieldToBase _ r).reserveStackView.cards = _
          rw [f2]

/-! ## What a click can change -/

theorem Callback.runReserveCard_cardId (x : GameState) (cardView : Nat) (topCard : Option Nat)
    (q : Nat) :
    ((Callback.runReserveCard x cardView topCard).heap q).cardId = (x.heap q).cardId := by
  unfold Callback.runReserveCard
  have hset : ∀ (h : Heap) (t : Nat),
      (((((h.setPosition cardView (h t).position).setLocalZOrder cardView
        (((h.setPosition cardView (h t).position) t).localZOrder + 1)).setVisible
          cardView true).setOpacity cardView 255) q).cardId = (h q).cardId := by
    intro h t
    by_cases hq : q = cardView <;>
      simp [hq, CardView.withVisible, CardView.withOpacity, CardView.withPosition,
        CardView.withLocalZOrder]
  cases topCard with
  | none =>
    simp only [Option.isNone_none, if_true]
    rw [StackView.layoutCards_cardId, StackView.layoutCards_cardId, StackView.addCard_cardId,
      StackView.removeCard_cardId]
  | some t =>
    simp only [Option.isNone_some, Bool.false_eq_true, if_false]
    rw [StackView.layoutCards_cardId, StackView.addCard_cardId, hset,
      StackView.removeCard_cardId]

theorem GameController.reserveToBase_cardId (s : GameState) (cardId : Int)
    (cardView : Nat) (hp : s.pending = []) (q : Nat) :
    ((GameController.clickReserveToBase s cardId cardView).runPending.heap q).cardId
      = (s.heap q).cardId := by
  rw [GameController.clickReserveToBase_run s cardId cardView hp]
  simp only [Scheduled.run, Callback.run]
  rw [Callback.runReserveCard_cardId]
  show ((s.heap.setPosition cardView _) q).cardId = _
  by_cases hq : q = cardView <;> simp [hq, CardView.withPosition]

/-- What a click can change: the playfield members never; card ids of
existing cards never; the ledger grows by at most one record; the reserve
changes only in a draw, which removes its top card and records that card's id. -/
theorem GameState.click_effect (s : GameState) (cardId : Int) (hp : s.pending = [])
    (hb : ∀ q, q ∈ s.playfieldView.cards ∨ q ∈ s.baseStackView.cards → q < s.nextPtr) :
    (s.click cardId).pending = [] ∧
    (s.click cardId).playfieldView.cards = s.playfieldView.cards ∧
    s.nextPtr ≤ (s.click cardId).nextPtr ∧
    (∀ q, q < s.nextPtr → ((s.click cardId).heap q).cardId = (s.heap q).cardId) ∧
    (∀ q ∈ (s.click cardId).baseStackView.cards,
      q ∈ s.baseStackView.cards ∨ q ∈ s.reserveStackView.cards ∨
        (q = s.nextPtr ∧ (s.click cardId).nextPtr = s.nextPtr + 1)) ∧
    (∀ q ∈ (s.click cardId).baseStackSnapshot,
      q ∈ s.baseStackSnapshot ∨ q ∈ s.baseStackView.cards) ∧
    (((s.click cardId).undoStack = s.undoStack ∧
        (s.click cardId).reserveStackView.cards = s.reserveStackView.cards) ∨
      (∃ r, (s.click cardId).undoStack = r :: s.undoStack ∧
        r.moveType ≠ MoveType.RESERVE_TO_BASE ∧
        (s.click cardId).reserveStackView.cards = s.reserveStackView.cards) ∨
      (∃ cv, s.reserveStackView.getTopCard = some cv ∧
        GameController.findCardViewById s.heap cardId s.playfieldView.cards = none ∧
        GameController.findCardViewById s.heap cardId s.reserveStackView.cards = some cv ∧
        (s.click cardId).reserveStackView.cards = s.reserveStackView.cards.erase cv ∧
        (s.click cardId).undoStack =
          ⟨cardId, MoveType.RESERVE_TO_BASE, (s.heap cv).position, 1, -1⟩ :: s.undoStack)) := by
  unfold GameState.click
  rcases GameController.onCardClicked_cases s cardId with h | ⟨cv, hpf, hrs, hbs, hnot, h⟩ |
    ⟨cv, t, hpf, htop, h⟩ | ⟨cv, hpf, hrs, htop, h⟩
  · rw [h, GameState.runPending_nil s hp]
    exact ⟨hp, rfl, le_refl _, fun _ _ => rfl, fun q hq => Or.inl hq, fun q hq => Or.inl hq,
      Or.inl ⟨rfl, rfl⟩⟩
  · rw [h]
    have hmem := (GameController.findCardViewById_some hbs).1
    obtain ⟨f1, f2, f3, f4, f5, f6, f7, f8⟩ :=
      GameController.reorderBase_facts s cardId cv hp hmem hnot
    refine ⟨f7, by rw [f3], by rw [f6], ?_, ?_, ?_, Or.inr (Or.inl ⟨_, f4, ?_, by rw [f2]⟩)⟩
    · intro q _
      rw [f8, (StackView.layoutFrom_frame _ _ _ _).1]
    · intro q hq
      rw [f1] at hq
      rcases List.mem_append.mp hq with hq | hq
      · exact Or.inl (List.mem_of_mem_erase hq)
      · rw [List.mem_singleton.mp hq]
        exact Or.inl hmem
    · intro q hq
      rw [f5] at hq
      exact Or.inr hq
    · simp
  · rw [h]
    have hmem := (GameController.findCardViewById_some hpf).1
    have htmem : t ∈ s.baseStackView.cards := by
      rw [StackView.getTopCard_some htop]
      simp
    have hc : cv ≠ s.nextPtr := Nat.ne_of_lt (hb _ (Or.inl hmem))
    have ht : t ≠ s.nextPtr := Nat.ne_of_lt (hb _ (Or.inr htmem))
    have hids := GameController.playfieldToBase_cardId s cardId cv t hp ht hc
    have hstate := GameController.playfieldToBase_state s cardId cv t hp
    generalize (GameController.clickPlayfieldToBase s cardId cv t).runPending.heap
      = F at hstate hids
    rw [hstate]
    refine ⟨rfl, PlayfieldView.playfield_saveCardState_cards _ _ _, Nat.le_succ _, ?_, ?_,
      fun q hq => Or.inl hq, Or.inr (Or.inl ⟨_, rfl, by simp, rfl⟩)⟩
    · intro q hq
      rw [hids, if_neg (Nat.ne_of_lt hq)]
    · intro q hq
      rcases List.mem_append.mp hq with hq | hq
      · exact Or.inl hq
      · exact Or.inr (Or.inr ⟨List.mem_singleton.mp hq, rfl⟩)
  · rw [h]
    obtain ⟨f1, f2, f3, f4, f5, f6, f7⟩ := GameController.reserveToBase_cards s cardId cv hp
    have hmem := (GameController.findCardViewById_some hrs).1
    refine ⟨f7, by rw [f3], by rw [f6], ?_, ?_, ?_, Or.inr (Or.inr ⟨cv, htop, hpf, hrs, f2, f4⟩)⟩
    · intro q _
      exact GameController.reserveToBase_cardId s cardId cv hp q
    · intro q hq
      rw [f1] at hq
      rcases List.mem_append.mp hq with hq | hq
      · exact Or.inl hq
      · rw [List.mem_singleton.mp hq]
        exact Or.inr (Or.inl hmem)
    · intro q hq
      rw [f5] at hq
      exact Or.inl hq

/-! ## The invariant is kept by clicks and undo requests -/

theorem GameState.Invariant.click {s : GameState} (hi : s.Invariant) (cardId : Int) :
    (s.click cardId).Invariant := by
  obtain ⟨e1, e2, e3, e4, e5, e6, e7⟩ := s.click_effect cardId hi.settled
    (fun q hq => hi.bound q (by tauto))
  have hres_sub : ∀ p ∈ (s.click cardId).reserveStackView.cards,
      p ∈ s.reserveStackView.cards := by
    intro p hp
    rcases e7 with ⟨_, h⟩ | ⟨_, _, _, h⟩ | ⟨cv, _, _, _, h, _⟩
    · rwa [h] at hp
    · rwa [h] at hp
    · rw [h] at hp
      exact List.mem_of_mem_erase hp
  have hidr : ∀ p ∈ s.reserveStackView.cards,
      ((s.click cardId).heap p).cardId = (s.heap p).cardId :=
    fun p hp => e4 p (hi.bound p (Or.inr (Or.inl hp)))
  have hidp : ∀ q ∈ s.playfieldView.cards,
      ((s.click cardId).heap q).cardId = (s.heap q).cardId :=
    fun q hq => e4 q (hi.bound q (Or.inl hq))
  have hmap : ∀ l : List Nat, (∀ p ∈ l, p ∈ s.reserveStackView.cards) →
      l.map (fun p => ((s.click cardId).heap p).cardId) = l.map (fun p => (s.heap p).cardId) :=
    fun l hl => List.map_congr_left (fun p hp => hidr p (hl p hp))
  refine ⟨e1, ?_, ?_, ?_, ?_, ?_, ?_⟩
  · intro q hq
    rcases hq with hq | hq | hq | hq
    · rw [e2] at hq
      exact lt_of_lt_of_le (hi.bound q (Or.inl hq)) e3
    · exact lt_of_lt_of_le (hi.bound q (Or.inr (Or.inl (hres_sub q hq)))) e3
    · rcases e5 q hq with h | h | ⟨h1, h2⟩
      · exact lt_of_lt_of_le (hi.bound q (Or.inr (Or.inr (Or.inl h)))) e3
      · exact lt_of_lt_of_le (hi.bound q (Or.inr (Or.inl h))) e3
      · rw [h1, h2]
        exact Nat.lt_succ_self _
    · rcases e6 q hq with h | h
      · exact lt_of_lt_of_le (hi.bound q (Or.inr (Or.inr (Or.inr h)))) e3
      · exact lt_of_lt_of_le (hi.bound q (Or.inr (Or.inr (Or.inl h)))) e3
  · rw [hmap _ hres_sub]
    rcases e7 with ⟨_, h⟩ | ⟨_, _, _, h⟩ | ⟨cv, _, _, _, h, _⟩
    · rw [h]
      exact hi.reserveIds
    · rw [h]
      exact hi.reserveIds
    · rw [h]
      exact hi.reserveIds.sublist ((List.erase_sublist _ _).map _)
  · intro p hp q hq
    rw [e2] at hq
    rw [hidr p (hres_sub p hp), hidp q hq]
    exact hi.reservePlayfield p (hres_sub p hp) q hq
  · rcases e7 with ⟨h, _⟩ | ⟨r, h, hr, _⟩ | ⟨cv, htop, hpf, hrs, _, h⟩
    · rw [h]
      exact hi.drawnIds
    · rw [h, List.filter_cons_of_neg (by simpa using hr)]
      exact hi.drawnIds
    · rw [h]
      simp only [List.filter_cons_of_pos, decide_True, List.map_cons, List.nodup_cons]
      refine ⟨?_, hi.drawnIds⟩
      intro hmem
      obtain ⟨r, hr, hrid⟩ := List.mem_map.mp hmem
      obtain ⟨hr1, hr2⟩ := List.mem_filter.mp hr
      have hcv := GameController.findCardViewById_some hrs
      exact hi.drawnReserve r hr1 (by simpa using hr2) cv hcv.1 (by rw [hcv.2, hrid])
  · intro r hr hrt p hp
    rw [hidr p (hres_sub p hp)]
    rcases e7 with ⟨h, _⟩ | ⟨r0, h, hr0, _⟩ | ⟨cv, htop, hpf, hrs, hres, h⟩
    · rw [h] at hr
      exact hi.drawnReserve r hr hrt p (hres_sub p hp)
    · rw [h] at hr
      rcases List.mem_cons.mp hr with e | hr
      · exact absurd (e ▸ hrt) hr0
      · exact hi.drawnReserve r hr hrt p (hres_sub p hp)
    · rw [h] at hr
      rcases List.mem_cons.mp hr with e | hr
      · subst e
        show (s.heap p).cardId ≠ cardId
        have hcv := GameController.findCardViewById_some hrs
        rw [hres] at hp
        intro hpid
        have hnd := hi.reserveIds
        have hpne : p ≠ cv := by
          intro e
          rw [e] at hp
          exact (List.Nodup.mem_erase_iff (List.Nodup.of_map _ hnd)).mp hp |>.1 rfl
        have := List.inj_on_of_nodup_map hnd (List.mem_of_mem_erase hp) hcv.1
          (by rw [hpid, hcv.2])
        exact hpne this
      · exact hi.drawnReserve r hr hrt p (hres_sub p hp)
  · intro r hr hrt q hq
    rw [e2] at hq
    rw [hidp q hq]
    rcases e7 with ⟨h, _⟩ | ⟨r0, h, hr0, _⟩ | ⟨cv, htop, hpf, hrs, hres, h⟩
    · rw [h] at hr
      exact hi.drawnPlayfield r hr hrt q hq
    · rw [h] at hr
      rcases List.mem_cons.mp hr with e | hr
      · exact absurd (e ▸ hrt) hr0
      · exact hi.drawnPlayfield r hr hrt q hq
    · rw [h] at hr
      rcases List.mem_cons.mp hr with e | hr
      · subst e
        exact GameController.findCardViewById_none hpf q hq
      · exact hi.drawnPlayfield r hr hrt q hq

theorem GameState.Invariant.undoRequest {s : GameState} (hi : s.Invariant) :
    s.undoRequest.Invariant := by
  rcases s.undoRequest_effect hi.settled with ⟨_, h⟩ |
    ⟨r, rest, hs, u1, u2, u3, u4, u5, u6, u7, u8⟩
  · rw [h]
    exact hi
  have hrest : ∀ r0 ∈ rest, r0 ∈ s.undoStack := by
    intro r0 h0
    rw [hs]
    exact List.mem_cons_of_mem _ h0
  have hrmem : r ∈ s.undoStack := by
    rw [hs]
    exact List.mem_cons_self _ _
  have hsub : List.Sublist
      ((rest.filter (fun r => decide (r.moveType = MoveType.RESERVE_TO_BASE))).map
        (fun r => r.cardId))
      ((s.undoStack.filter (fun r => decide (r.moveType = MoveType.RESERVE_TO_BASE))).map
        (fun r => r.cardId)) := by
    rw [hs]
    exact ((List.sublist_cons_self r rest).filter _).map _
  have hmapid : ∀ l : List Nat,
      l.map (fun p => (s.undoRequest.heap p).cardId) = l.map (fun p => (s.heap p).cardId) :=
    fun l => List.map_congr_left (fun p _ => u6 p)
  refine ⟨u2, ?_, ?_, ?_, ?_, ?_, ?_⟩
  · intro q hq
    rw [u4]
    rcases hq with hq | hq | hq | hq
    · rw [u3] at hq
      exact hi.bound q (Or.inl hq)
    · rcases u8 with h | ⟨_, cv, hcv, _, h⟩
      · rw [h] at hq
        exact hi.bound q (Or.inr (Or.inl hq))
      · rw [h] at hq
        rcases List.mem_append.mp hq with hq | hq
        · exact hi.bound q (Or.inr (Or.inl hq))
        · rw [List.mem_singleton.mp hq]
          exact hi.bound cv (Or.inr (Or.inr (Or.inl hcv)))
    · rcases u7 q hq with h | h
      · exact hi.bound q (Or.inr (Or.inr (Or.inl h)))
      · exact hi.bound q (Or.inr (Or.inr (Or.inr h)))
    · rw [u5] at hq
      exact hi.bound q (Or.inr (Or.inr (Or.inr hq)))
  · rw [hmapid]
    rcases u8 with h | ⟨hrt, cv, hcv, hcvid, h⟩
    · rw [h]
      exact hi.reserveIds
    · rw [h, List.map_append, List.map_singleton]
      apply List.Nodup.append hi.reserveIds (List.nodup_singleton _)
      intro i hi1 hi2
      rw [List.mem_singleton] at hi2
      obtain ⟨p, hp, hpid⟩ := List.mem_map.mp hi1
      exact hi.drawnReserve r hrmem hrt p hp (by rw [hpid, hi2, hcvid])
  · intro p hp q hq
    rw [u3] at hq
    rw [u6, u6]
    rcases u8 with h | ⟨hrt, cv, hcv, hcvid, h⟩
    · rw [h] at hp
      exact hi.reservePlayfield p hp q hq
    · rw [h] at hp
      rcases List.mem_append.mp hp with hp | hp
      · exact hi.reservePlayfield p hp q hq
      · rw [List.mem_singleton.mp hp, hcvid]
        exact fun e => hi.drawnPlayfield r hrmem hrt q hq e.symm
  · rw [u1]
    exact hi.drawnIds.sublist hsub
  · intro r0 hr0 hrt0 p hp
    rw [u1] at hr0
    rw [u6]
    rcases u8 with h | ⟨hrt, cv, hcv, hcvid, h⟩
    · rw [h] at hp
      exact hi.drawnReserve r0 (hrest r0 hr0) hrt0 p hp
    · rw [h] at hp
      rcases List.mem_append.mp hp with hp | hp
      · exact hi.drawnReserve r0 (hrest r0 hr0) hrt0 p hp
      · rw [List.mem_singleton.mp hp, hcvid]
        have hnd := hi.drawnIds
        rw [hs, List.filter_cons_of_pos (by simpa using hrt), List.map_cons,
          List.nodup_cons] at hnd
        intro e
        apply hnd.1
        rw [e]
        exact List.mem_map.mpr ⟨r0, List.mem_filter.mpr ⟨hr0, by simpa using hrt0⟩, rfl⟩
  · intro r0 hr0 hrt0 q hq
    rw [u1] at hr0
    rw [u3] at hq
    rw [u6]
    exact hi.drawnPlayfield r0 (hrest r0 hr0) hrt0 q hq

/-! ## Dealing the cards -/

theorem PlayfieldView.playfield_addCard_cards (h : Heap) (v : PlayfieldView) (c : Nat) :
    (PlayfieldView.addCard h v (some c)).2.cards = v.cards ++ [c] := by
  simp only [PlayfieldView.addCard]

theorem PlayfieldView.playfield_addCard_cardId (h : Heap) (v : PlayfieldView) (c q : Nat) :
    ((PlayfieldView.addCard h v (some c)).1 q).cardId = (h q).cardId := by
  simp only [PlayfieldView.addCard]
  by_cases hq : q = c
  · subst hq
    split_ifs <;>
      simp [CardView.withParent, CardView.withLocalZOrder, CardView.withVisible,
        CardView.withOpacity, CardView.withPosition]
  · split_ifs <;> simp [hq]

theorem GameView.createCard_facts (s : GameState) (cardCfg : CardConfig) :
    (GameView.createCard s cardCfg).1 = s.nextPtr ∧
    (GameView.createCard s cardCfg).2.nextPtr = s.nextPtr + 1 ∧
    (GameView.createCard s cardCfg).2.nextCardId = s.nextCardId + 1 ∧
    ((GameView.createCard s cardCfg).2.heap s.nextPtr).cardId = s.nextCardId ∧
    (∀ q, q ≠ s.nextPtr → (GameView.createCard s cardCfg).2.heap q = s.heap q) ∧
    (GameView.createCard s cardCfg).2.playfieldView = s.playfieldView ∧
    (GameView.createCard s cardCfg).2.reserveStackView = s.reserveStackView ∧
    (GameView.createCard s cardCfg).2.baseStackView = s.baseStackView ∧
    (GameView.createCard s cardCfg).2.pending = s.pending ∧
    (GameView.createCard s cardCfg).2.undoStack = s.undoStack ∧
    (GameView.createCard s cardCfg).2.baseStackSnapshot = s.baseStackSnapshot := by
  refine ⟨rfl, rfl, rfl, ?_, ?_, rfl, rfl, rfl, rfl, rfl, rfl⟩
  · simp [GameView.createCard, CardView.withCardId]
  · intro q hq
    simp [GameView.createCard, hq]

/-- One step of dealing: a state that differs from a dealt state by one new
card, appended to one zone, is dealt. -/
theorem GameState.Dealt.step {s t : GameState} (hd : s.Dealt)
    (h1 : t.pending = []) (h2 : t.undoStack = []) (h3 : t.baseStackSnapshot = [])
    (h4 : t.nextPtr = s.nextPtr + 1) (h5 : t.nextCardId = s.nextCardId + 1)
    (h6 : (t.heap s.nextPtr).cardId = s.nextCardId)
    (h7 : ∀ q, q ≠ s.nextPtr → (t.heap q).cardId = (s.heap q).cardId)
    (h8 : List.Perm (t.playfieldView.cards ++ t.reserveStackView.cards ++ t.baseStackView.cards)
      (s.nextPtr ::
        (s.playfieldView.cards ++ s.reserveStackView.cards ++ s.baseStackView.cards))) :
    t.Dealt := by
  have hnot : s.nextPtr ∉
      s.playfieldView.cards ++ s.reserveStackView.cards ++ s.baseStackView.cards :=
    fun hm => Nat.lt_irrefl _ (hd.bound _ hm)
  refine ⟨h1, h2, h3, ?_, ?_, ?_, ?_⟩
  · rw [h5, h4, hd.counter]
    push_cast
    rfl
  · intro q hq
    rw [h4]
    rcases List.mem_cons.mp (h8.mem_iff.mp hq) with e | hq
    · rw [e]
      exact Nat.lt_succ_self _
    · exact Nat.lt_succ_of_lt (hd.bound q hq)
  · intro q hq
    rcases List.mem_cons.mp (h8.mem_iff.mp hq) with e | hq
    · rw [e, h6, hd.counter]
    · have hne : q ≠ s.nextPtr := fun e => hnot (e ▸ hq)
      rw [h7 q hne]
      exact hd.ids q hq
  · rw [h8.nodup_iff]
    exact List.nodup_cons.mpr ⟨hnot, hd.nodup⟩

theorem GameView.initPlayfieldCards_dealt (cfgs : List CardConfig) :
    ∀ (s : GameState) (i : Nat), s.Dealt → (GameView.initPlayfieldCards s cfgs i).Dealt := by
  induction cfgs with
  | nil => intro s i hd; exact hd
  | cons cardCfg rest ih =>
    intro s i hd
    simp only [GameView.initPlayfieldCards]
    apply ih
    obtain ⟨c1, c2, c3, c4, c5, c6, c7, c8, c9, c10, c11⟩ := GameView.createCard_facts s cardCfg
    refine hd.step (by exact c9.trans hd.settled) (by exact c10.trans hd.noUndo)
      (by exact c11.trans hd.noSnapshot) c2 c3 ?_ ?_ ?_
    · show ((PlayfieldView.addCard
        (((GameView.createCard s cardCfg).2.heap.setPosition (GameView.createCard s cardCfg).1
          cardCfg.position).setLocalZOrder (GameView.createCard s cardCfg).1 (i : Int))
        (GameView.createCard s cardCfg).2.playfieldView
        (some (GameView.createCard s cardCfg).1)).1 s.nextPtr).cardId = _
      rw [PlayfieldView.playfield_addCard_cardId, c1]
      simp [CardView.withLocalZOrder, CardView.withPosition, c4]
    · intro q hq
      show ((PlayfieldView.addCard
        (((GameView.createCard s cardCfg).2.heap.setPosition (GameView.createCard s cardCfg).1
          cardCfg.position).setLocalZOrder (GameView.createCard s cardCfg).1 (i : Int))
        (GameView.createCard s cardCfg).2.playfieldView
        (some (GameView.createCard s cardCfg).1)).1 q).cardId = _
      rw [PlayfieldView.playfield_addCard_cardId, c1]
      simp [hq, c5 q hq]
    · show List.Perm ((PlayfieldView.addCard
        (((GameView.createCard s cardCfg).2.heap.setPosition (GameView.createCard s cardCfg).1
          cardCfg.position).setLocalZOrder (GameView.createCard s cardCfg).1 (i : Int))
        (GameView.createCard s cardCfg).2.playfieldView
        (some (GameView.createCard s cardCfg).1)).2.cards ++
          (GameView.createCard s cardCfg).2.reserveStackView.cards ++
          (GameView.createCard s cardCfg).2.baseStackView.cards) _
      rw [PlayfieldView.playfield_addCard_cards, c1, c6, c7, c8, List.append_assoc, List.append_assoc,
        List.singleton_append, List.append_assoc]
      exact List.perm_middle

theorem GameView.initReserveCards_dealt (cfgs : List CardConfig) :
    ∀ (s : GameState), s.Dealt → (GameView.initReserveCards s cfgs).Dealt := by
  induction cfgs with
  | nil => intro s hd; exact hd
  | cons cardCfg rest ih =>
    intro s hd
    simp only [GameView.initReserveCards]
    apply ih
    obtain ⟨c1, c2, c3, c4, c5, c6, c7, c8, c9, c10, c11⟩ := GameView.createCard_facts s cardCfg
    refine hd.step (by exact c9.trans hd.settled) (by exact c10.trans hd.noUndo)
      (by exact c11.trans hd.noSnapshot) c2 c3 ?_ ?_ ?_
    · show ((StackView.addCard _ _ _ (some (GameView.createCard s cardCfg).1)).1
        s.nextPtr).cardId = _
      rw [StackView.addCard_cardId, c1]
      simp [CardView.withPosition, c4]
    · intro q hq
      show ((StackView.addCard _ _ _ (some (GameView.createCard s cardCfg).1)).1 q).cardId = _
      rw [StackView.addCard_cardId, c1]
      simp [hq, c5 q hq]
    · show List.Perm ((GameView.createCard s cardCfg).2.playfieldView.cards ++
          (StackView.addCard _ _ (GameView.createCard s cardCfg).2.reserveStackView
            (some (GameView.createCard s cardCfg).1)).2.cards ++
          (GameView.createCard s cardCfg).2.baseStackView.cards) _
      rw [StackView.addCard_cards, c1, c6, c7, c8, ← List.append_assoc, List.append_assoc,
        List.singleton_append]
      exact List.perm_middle

theorem GameView.initBaseCards_dealt (cfgs : List CardConfig) :
    ∀ (s : GameState), s.Dealt → (GameView.initBaseCards s cfgs).Dealt := by
  induction cfgs with
  | nil => intro s hd; exact hd
  | cons cardCfg rest ih =>
    intro s hd
    simp only [GameView.initBaseCards]
    apply ih
    obtain ⟨c1, c2, c3, c4, c5, c6, c7, c8, c9, c10, c11⟩ := GameView.createCard_facts s cardCfg
    refine hd.step (by exact c9.trans hd.settled) (by exact c10.trans hd.noUndo)
      (by exact c11.trans hd.noSnapshot) c2 c3 ?_ ?_ ?_
    · show ((StackView.addCard _ _ _ (some (GameView.createCard s cardCfg).1)).1
        s.nextPtr).cardId = _
      rw [StackView.addCard_cardId]
      exact c4
    · intro q hq
      show ((StackView.addCard _ _ _ (some (GameView.createCard s cardCfg).1)).1 q).cardId = _
      rw [StackView.addCard_cardId, c5 q hq]
    · show List.Perm ((GameView.createCard s cardCfg).2.playfieldView.cards ++
          (GameView.createCard s cardCfg).2.reserveStackView.cards ++
          (StackView.addCard _ _ (GameView.createCard s cardCfg).2.baseStackView
            (some (GameView.createCard s cardCfg).1)).2.cards) _
      rw [StackView.addCard_cards, c1, c6, c7, c8, ← List.append_assoc]
      exact List.perm_append_singleton _ _

/-- The state built by `GameView::init` is dealt. -/
theorem GameView.init_dealt (level : LevelConfig) : (GameView.init level).Dealt := by
  have h0 : (GameController.startGame GameState.blank level).Dealt := by
    refine ⟨rfl, rfl, rfl, rfl, ?_, ?_, ?_⟩
    · intro q hq
      exact absurd hq (List.not_mem_nil q)
    · intro q hq
      exact absurd hq (List.not_mem_nil q)
    · exact List.nodup_nil
  have h4 := GameView.initBaseCards_dealt level.baseCards _
    (GameView.initReserveCards_dealt level.stackCards _
      (GameView.initPlayfieldCards_dealt level.playfieldCards _ 0 h0))
  exact ⟨h4.settled, h4.noUndo, h4.noSnapshot, h4.counter, h4.bound, h4.ids, h4.nodup⟩

/-- A dealt state satisfies the invariant. -/
theorem GameState.Dealt.toInvariant {s : GameState} (hd : s.Dealt) : s.Invariant := by
  have hnd := hd.nodup
  rw [List.append_assoc, List.nodup_append] at hnd
  obtain ⟨_, hrb, hdisj⟩ := hnd
  have hr : s.reserveStackView.cards.Nodup := (List.nodup_append.mp hrb).1
  refine ⟨hd.settled, ?_, ?_, ?_, ?_, ?_, ?_⟩
  · intro q hq
    rw [hd.noSnapshot] at hq
    apply hd.bound
    simp only [List.mem_append]
    rcases hq with hq | hq | hq | hq
    · exact Or.inl (Or.inl hq)
    · exact Or.inl (Or.inr hq)
    · exact Or.inr hq
    · exact absurd hq (List.not_mem_nil q)
  · have e : s.reserveStackView.cards.map (fun p => (s.heap p).cardId) =
        List.map (Nat.cast : Nat → Int) s.reserveStackView.cards :=
      List.map_congr_left (fun p hp => hd.ids p (by simp [hp]))
    rw [e]
    exact hr.map (fun a b hab => by exact_mod_cast hab)
  · intro p hp q hq
    rw [hd.ids p (by simp [hp]), hd.ids q (by simp [hq])]
    intro e
    have e2 : p = q := by exact_mod_cast e
    exact hdisj hq (List.mem_append_left _ (e2 ▸ hp))
  · rw [hd.noUndo]
    exact List.nodup_nil
  · intro r hr
    rw [hd.noUndo] at hr
    exact absurd hr (List.not_mem_nil r)
  · intro r hr
    rw [hd.noUndo] at hr
    exact absurd hr (List.not_mem_nil r)

/-- Every reachable state satisfies the invariant. -/
theorem GameState.Reachable.invariant {s : GameState} (hr : s.Reachable) : s.Invariant := by
  induction hr with
  | init level => exact (GameView.init_dealt level).toInvariant
  | click s cardId _ ih => exact ih.click cardId
  | undoRequest s _ ih => exact ih.undoRequest

/-! ## Cards outside a stack are not touched by it -/

theorem StackView.addCard_other (self : ParentNode) (h : Heap) (v : StackView) (c q : Nat)
    (hqc : q ≠ c) (hq : q ∉ v.cards) :
    (StackView.addCard self h v (some c)).1 q = h q := by
  rw [StackView.addCard_heap]
  split
  · rw [StackView.layoutFrom_not_mem _ _ _ _ (by simp [hq, hqc])]
    simp [hqc]
  · simp [hqc]

theorem StackView.removeCard_other (h : Heap) (v : StackView) (c q : Nat)
    (hqc : q ≠ c) (hq : q ∉ v.cards) :
    (StackView.removeCard h v (some c)).1 q = h q := by
  simp only [StackView.removeCard]
  split
  · show StackView.layoutFrom _ _ 0 q = _
    rw [StackView.layoutFrom_not_mem _ _ _ _ (fun hm => hq (List.mem_of_mem_erase hm))]
    simp [hqc]
  · rfl

theorem PlayfieldView.playfield_addCard_other (h : Heap) (v : PlayfieldView) (c q : Nat)
    (hqc : q ≠ c) : (PlayfieldView.addCard h v (some c)).1 q = h q := by
  simp only [PlayfieldView.addCard]
  split_ifs <;> simp [hqc]

theorem PlayfieldView.playfield_addCard_zOrder (h : Heap) (v : PlayfieldView) (c : Nat)
    (hz : 0 ≤ (h c).localZOrder) :
    0 ≤ ((PlayfieldView.addCard h v (some c)).1 c).localZOrder := by
  simp only [PlayfieldView.addCard]
  have hz2 : (h c).localZOrder ≥ 0 := hz
  simp only [hz2, if_true]
  split_ifs <;>
    simp [CardView.withParent, CardView.withLocalZOrder, CardView.withVisible,
      CardView.withOpacity, CardView.withPosition, hz]

/-! ## The repair passes keep z-orders non-negative -/

theorem GameController.updateViewCard_zOrder (h : Heap) (c q : Nat)
    (hq : 0 ≤ (h q).localZOrder) : 0 ≤ ((GameController.updateViewCard h c) q).localZOrder := by
  by_cases e : q = c <;> by_cases h1 : (h c).opacity = 0 <;>
    by_cases h2 : (h c).visible = false <;> by_cases h3 : (h c).localZOrder < 0 <;>
    simp [GameController.updateViewCard, e, h1, h2, h3, CardView.withVisible,
      CardView.withLocalZOrder] <;> first | exact hq | (subst e; exact hq)

theorem GameController.finalCheckCard_zOrder (h : Heap) (c q : Nat)
    (hq : 0 ≤ (h q).localZOrder) : 0 ≤ ((GameController.finalCheckCard h c) q).localZOrder := by
  by_cases e : q = c <;> by_cases h1 : (h c).opacity = 0 <;>
    by_cases h2 : (h c).visible = false <;> by_cases h3 : (h c).localZOrder < 0 <;>
    simp [GameController.finalCheckCard, e, h1, h2, h3, CardView.withVisible,
      CardView.withLocalZOrder, CardView.withOpacity] <;>
    first | exact hq | (subst e; exact hq)

theorem GameController.foldl_updateViewCard_zOrder (l : List Nat) :
    ∀ (h : Heap) (q : Nat), 0 ≤ (h q).localZOrder →
      0 ≤ ((l.foldl GameController.updateViewCard h) q).localZOrder := by
  induction l with
  | nil => intro h q hq; exact hq
  | cons a t ih =>
    intro h q hq
    rw [List.foldl_cons]
    exact ih _ _ (GameController.updateViewCard_zOrder h a q hq)

theorem GameController.foldl_finalCheckCard_zOrder (l : List Nat) :
    ∀ (h : Heap) (q : Nat), 0 ≤ (h q).localZOrder →
      0 ≤ ((l.foldl GameController.finalCheckCard h) q).localZOrder := by
  induction l with
  | nil => intro h q hq; exact hq
  | cons a t ih =>
    intro h q hq
    rw [List.foldl_cons]
    exact ih _ _ (GameController.finalCheckCard_zOrder h a q hq)

theorem PlayfieldView.restoreCardState_zOrder (h : Heap) (v : PlayfieldView) (cardId : Int)
    (q : Nat) (hq : 0 ≤ (h q).localZOrder)
    (hsaved : ∀ info, v.cardStates cardId = some info → 0 ≤ info.zOrder) :
    0 ≤ ((PlayfieldView.restoreCardState h v cardId) q).localZOrder := by
  unfold PlayfieldView.restoreCardState
  cases hcs : v.cardStates cardId with
  | none => exact hq
  | some info =>
    cases PlayfieldView.findCardById h v cardId with
    | none => exact hq
    | some card =>
      by_cases e : q = card
      · simp [e, CardView.withVisible, CardView.withLocalZOrder, CardView.withPosition,
          hsaved info hcs]
      · simp [e, hq]

theorem StackView.layoutCards_other (h : Heap) (v : StackView) (q : Nat) (hq : q ∉ v.cards) :
    StackView.layoutCards h v q = h q :=
  StackView.layoutFrom_not_mem _ _ _ _ hq

theorem Callback.runReserveCard_other (x : GameState) (cardView : Nat) (topCard : Option Nat)
    (q : Nat) (hqc : q ≠ cardView) (hqr : q ∉ x.reserveStackView.cards)
    (hqb : q ∉ x.baseStackView.cards) :
    (Callback.runReserveCard x cardView topCard).heap q = x.heap q := by
  unfold Callback.runReserveCard
  have hr1 : q ∉ (StackView.removeCard x.heap x.reserveStackView (some cardView)).2.cards := by
    rw [StackView.removeCard_cards]
    exact fun hm => hqr (List.mem_of_mem_erase hm)
  have hb1 : ∀ h : Heap, q ∉ (StackView.addCard ParentNode.baseStack h x.baseStackView
      (some cardView)).2.cards := by
    intro h
    rw [StackView.addCard_cards]
    simp [hqb, hqc]
  cases topCard with
  | none =>
    simp only [Option.isNone_none, if_true]
    rw [StackView.layoutCards_other _ _ _ (hb1 _), StackView.layoutCards_other _ _ _ hr1,
      StackView.addCard_other _ _ _ _ _ hqc hqb, StackView.removeCard_other _ _ _ _ hqc hqr]
  | some t =>
    simp only [Option.isNone_some, Bool.false_eq_true, if_false]
    rw [StackView.layoutCards_other _ _ _ hr1, StackView.addCard_other _ _ _ _ _ hqc hqb]
    simp only [Heap.setOpacity_apply, Heap.setVisible_apply, Heap.setLocalZOrder_apply,
      Heap.setPosition_apply, hqc, if_false]
    exact StackView.removeCard_other _ _ _ _ hqc hqr

theorem PlayfieldView.saveCardState_saved (h : Heap) (v : PlayfieldView) (cardId : Int)
    (hz : ∀ q ∈ v.cards, 0 ≤ (h q).localZOrder)
    (hsaved : ∀ i info, v.cardStates i = some info → 0 ≤ info.zOrder) :
    ∀ i info, (PlayfieldView.saveCardState h v cardId).cardStates i = some info →
      0 ≤ info.zOrder := by
  intro i info hi
  unfold PlayfieldView.saveCardState at hi
  cases hf : PlayfieldView.findCardById h v cardId with
  | none =>
    rw [hf] at hi
    exact hsaved i info hi
  | some card =>
    rw [hf] at hi
    simp only at hi
    by_cases e : i = cardId
    · rw [if_pos e] at hi
      have hm : card ∈ v.cards := List.mem_of_find?_eq_some hf
      cases hi
      exact hz card hm
    · rw [if_neg e] at hi
      exact hsaved i info hi

/-! ## Playfield z-orders stay non-negative -/

/-- A click keeps the z-orders of the playfield cards, and the z-orders saved
for them, non-negative. -/
theorem GameState.click_zOrders (s : GameState) (cardId : Int) (hp : s.pending = [])
    (hb : ∀ q, q ∈ s.playfieldView.cards ∨ q ∈ s.baseStackView.cards → q < s.nextPtr)
    (hapart : ∀ q ∈ s.playfieldView.cards,
      q ∉ s.reserveStackView.cards ∧ q ∉ s.baseStackView.cards)
    (hz : ∀ q ∈ s.playfieldView.cards, 0 ≤ (s.heap q).localZOrder)
    (hsaved : ∀ i info, s.playfieldView.cardStates i = some info → 0 ≤ info.zOrder) :
    (∀ q ∈ s.playfieldView.cards, 0 ≤ ((s.click cardId).heap q).localZOrder) ∧
    (∀ i info, (s.click cardId).playfieldView.cardStates i = some info →
      0 ≤ info.zOrder) := by
  unfold GameState.click
  rcases GameController.onCardClicked_cases s cardId with h | ⟨cv, hpf, hrs, hbs, hnot, h⟩ |
    ⟨cv, t, hpf, htop, h⟩ | ⟨cv, hpf, hrs, htop, h⟩
  · rw [h, GameState.runPending_nil s hp]
    exact ⟨hz, hsaved⟩
  · rw [h]
    have hmem := (GameController.findCardViewById_some hbs).1
    obtain ⟨_, _, f3, _, _, _, _, f8⟩ :=
      GameController.reorderBase_facts s cardId cv hp hmem hnot
    rw [f3, f8]
    refine ⟨?_, hsaved⟩
    intro q hq
    rw [StackView.layoutFrom_not_mem]
    · exact hz q hq
    · intro hm
      apply (hapart q hq).2
      rcases List.mem_append.mp hm with hm | hm
      · exact List.mem_of_mem_erase hm
      · rw [List.mem_singleton.mp hm]
        exact hmem
  · rw [h]
    have hmem := (GameController.findCardViewById_some hpf).1
    have htmem : t ∈ s.baseStackView.cards := by
      rw [StackView.getTopCard_some htop]
      simp
    have hc : cv ≠ s.nextPtr := Nat.ne_of_lt (hb _ (Or.inl hmem))
    have ht : t ≠ s.nextPtr := Nat.ne_of_lt (hb _ (Or.inr htmem))
    obtain ⟨h4, hq4, _, e⟩ := GameController.playfieldToBase_heap s cardId cv t hp ht hc
    have hstate := GameController.playfieldToBase_state s cardId cv t hp
    generalize (GameController.clickPlayfieldToBase s cardId cv t).runPending.heap
      = F at hstate e
    rw [hstate]
    refine ⟨?_, PlayfieldView.saveCardState_saved _ _ _ hz hsaved⟩
    intro q hq
    show 0 ≤ (F q).localZOrder
    have hqn : q ≠ s.nextPtr := Nat.ne_of_lt (hb _ (Or.inl hq))
    have e1 : (StackView.addCard ParentNode.baseStack h4 s.baseStackView (some s.nextPtr)).1 q
        = s.heap q := by
      rw [StackView.addCard_other _ _ _ _ _ hqn (hapart q hq).2, hq4 q hqn]
    have e2 : (F q).localZOrder = (s.heap q).localZOrder := by
      rw [e, ← e1]
      by_cases hqc : q = cv
      · subst hqc
        simp [CardView.withVisible, CardView.withOpacity]
      · simp [hqc]
    rw [e2]
    exact hz q hq
  · rw [h]
    obtain ⟨_, _, f3, _, _, _, _⟩ := GameController.reserveToBase_cards s cardId cv hp
    rw [f3]
    refine ⟨?_, hsaved⟩
    intro q hq
    have hmem := (GameController.findCardViewById_some hrs).1
    have hqc : q ≠ cv := fun e => (hapart q hq).1 (e ▸ hmem)
    rw [GameController.clickReserveToBase_run s cardId cv hp]
    simp only [Scheduled.run, Callback.run]
    rw [Callback.runReserveCard_other _ _ _ q hqc]
    · show 0 ≤ ((s.heap.setPosition cv _) q).localZOrder
      simp only [Heap.setPosition_apply, hqc, if_false]
      exact hz q hq
    · show q ∉ (StackView.saveCardState s.heap s.reserveStackView cardId).cards
      rw [StackView.saveCardState_cards]
      exact (hapart q hq).1
    · exact (hapart q hq).2

theorem Callback.runUndoReserveToBase_zOrder (x : GameState) (cardView q : Nat)
    (hqc : q ≠ cardView) (hqr : q ∉ x.reserveStackView.cards)
    (hqb : q ∉ x.baseStackView.cards) (hz : 0 ≤ (x.heap q).localZOrder) :
    0 ≤ ((Callback.runUndoReserveToBase x cardView).heap q).localZOrder := by
  unfold Callback.runUndoReserveToBase
  apply GameController.foldl_updateViewCard_zOrder
  show 0 ≤ ((StackView.layoutCards (StackView.layoutCards
      (StackView.addCard ParentNode.reserveStack
        (StackView.removeCard x.heap x.baseStackView (some cardView)).1 x.reserveStackView
        (some cardView)).1 _) _) q).localZOrder
  rw [StackView.layoutCards_other, StackView.layoutCards_other,
    StackView.addCard_other _ _ _ _ _ hqc hqr, StackView.removeCard_other _ _ _ _ hqc hqb]
  · exact hz
  · rw [StackView.removeCard_cards]
    exact fun hm => hqb (List.mem_of_mem_erase hm)
  · rw [StackView.addCard_cards]
    simp [hqr, hqc]

theorem Callback.runUndoReorderBase_zOrder (x : GameState) (cardView q : Nat)
    (hqs : q ∉ x.baseStackSnapshot) (hz : 0 ≤ (x.heap q).localZOrder) :
    0 ≤ ((Callback.runUndoReorderBase x cardView).heap q).localZOrder := by
  unfold Callback.runUndoReorderBase
  apply GameController.foldl_updateViewCard_zOrder
  cases hsn : x.baseStackSnapshot with
  | nil => exact hz
  | cons a t =>
    simp only [List.isEmpty_cons, Bool.false_eq_true, if_false, GameView.showUndoButton,
      GameController.restoreBaseStackOrder]
    show 0 ≤ ((StackView.layoutCards x.heap _) q).localZOrder
    rw [StackView.layoutCards_other]
    · exact hz
    · show q ∉ a :: t
      rw [← hsn]
      exact hqs

theorem GameController.undoPlayfieldToBase_zOrder (x : GameState) (r : UndoRecord) (q : Nat)
    (hqb : q ∉ x.baseStackView.cards) (hz : 0 ≤ (x.heap q).localZOrder)
    (hsaved : ∀ i info, x.playfieldView.cardStates i = some info → 0 ≤ info.zOrder) :
    0 ≤ ((GameController.undoPlayfieldToBase x r).heap q).localZOrder := by
  have hrestore : ∀ (h : Heap) (v : PlayfieldView), v.cardStates = x.playfieldView.cardStates →
      0 ≤ (h q).localZOrder →
      0 ≤ ((match v.cards.find? (fun card => decide ((h card).cardId = r.cardId)) with
        | some originalCard =>
          PlayfieldView.restoreCardState
            (((h.setVisible originalCard true).setOpacity originalCard 255).setPosition
              originalCard r.originalPos) v r.cardId
        | none => h) q).localZOrder := by
    intro h v hv hq
    cases v.cards.find? (fun card => decide ((h card).cardId = r.cardId)) with
    | none => exact hq
    | some c =>
      simp only []
      apply PlayfieldView.restoreCardState_zOrder
      · by_cases e : q = c
        · subst e
          simpa [CardView.withVisible, CardView.withOpacity, CardView.withPosition] using hq
        · simpa [e] using hq
      · intro info hi
        rw [hv] at hi
        exact hsaved _ info hi
  unfold GameController.undoPlayfieldToBase
  apply GameController.foldl_updateViewCard_zOrder
  cases hfo : GameController.findCardViewById x.heap r.cardId x.baseStackView.cards with
  | none =>
    simp only [GameView.showUndoButton]
    show 0 ≤ ((StackView.layoutCards _ _) q).localZOrder
    rw [StackView.layoutCards_other _ _ _ hqb]
    exact hrestore _ _ rfl hz
  | some o =>
    simp only [GameView.showUndoButton, StackView.removeCard_snd]
    show 0 ≤ ((StackView.layoutCards _ _) q).localZOrder
    rw [StackView.layoutCards_other _ _ _ (fun hm => hqb (List.mem_of_mem_erase hm))]
    apply hrestore _ _ rfl
    have ho := (GameController.findCardViewById_some hfo).1
    rw [StackView.removeCard_other _ _ _ _ (fun e => hqb (by rw [e]; exact ho)) hqb]
    exact hz

/-- An undo request keeps the z-orders of the playfield cards, and the z-orders
saved for them, non-negative. -/
theorem GameState.undoRequest_zOrders (s : GameState) (hp : s.pending = [])
    (hapart : ∀ q ∈ s.playfieldView.cards, q ∉ s.reserveStackView.cards ∧
      q ∉ s.baseStackView.cards ∧ q ∉ s.baseStackSnapshot)
    (hz : ∀ q ∈ s.playfieldView.cards, 0 ≤ (s.heap q).localZOrder)
    (hsaved : ∀ i info, s.playfieldView.cardStates i = some info → 0 ≤ info.zOrder) :
    (∀ q ∈ s.playfieldView.cards, 0 ≤ (s.undoRequest.heap q).localZOrder) ∧
    (∀ i info, s.undoRequest.playfieldView.cardStates i = some info →
      0 ≤ info.zOrder) := by
  cases hs : s.undoStack with
  | nil =>
    unfold GameState.undoRequest
    rw [GameController.onUndoClicked_nil s hs, GameState.runPending_nil s hp]
    exact ⟨hz, hsaved⟩
  | cons r rest =>
    unfold GameState.undoRequest
    rw [GameController.onUndoClicked_cons_any s r rest hs]
    obtain ⟨o, ho⟩ : ∃ o, (if r.originalParent = 0 ∨ r.originalParent = 1 ∨
        r.originalParent = 2 then
          GameController.findCardViewById s.heap r.cardId s.baseStackView.cards
        else none) = o := ⟨_, rfl⟩
    rw [ho]
    cases o with
    | none =>
      simp only []
      rw [GameState.runPending_nil _ (by simpa [GameView.showUndoButton] using hp)]
      exact ⟨hz, hsaved⟩
    | some cv =>
      have hfind : GameController.findCardViewById s.heap r.cardId s.baseStackView.cards
          = some cv := by
        split_ifs at ho
        · exact ho
      obtain ⟨hcvm, _⟩ := GameController.findCardViewById_some hfind
      simp only []
      cases hmt : r.moveType with
      | RESERVE_TO_BASE =>
        simp only []
        rw [GameController.undoReserveToBase_run { s with undoStack := rest } cv r.originalPos hp]
        refine ⟨?_, ?_⟩
        · intro q hq
          have hqc : q ≠ cv := fun e => (hapart q hq).2.1 (e ▸ hcvm)
          refine Callback.runUndoReserveToBase_zOrder _ cv q hqc ?_ ?_ ?_
          · exact (hapart q hq).1
          · exact (hapart q hq).2.1
          · show 0 ≤ (((s.playfieldView.cards.foldl GameController.finalCheckCard
                s.heap).setPosition cv r.originalPos) q).localZOrder
            simp only [Heap.setPosition_apply, hqc, if_false]
            exact GameController.foldl_finalCheckCard_zOrder _ _ _ (hz q hq)
        · rw [(Callback.runUndoReserveToBase_facts _ cv).2.2.1]
          exact hsaved
      | REORDER_BASE =>
        simp only []
        rw [GameController.undoReorderBase_run { s with undoStack := rest } cv hp]
        refine ⟨?_, ?_⟩
        · intro q hq
          apply GameController.foldl_finalCheckCard_zOrder
          refine Callback.runUndoReorderBase_zOrder _ cv q ?_ ?_
          · exact (hapart q hq).2.2
          · exact hz q hq
        · rw [(Callback.runFinalPlayfieldCheck_facts _).2.2.1,
            (Callback.runUndoReorderBase_facts _ cv).2.2.2.1]
          exact hsaved
      | PLAYFIELD_TO_BASE =>
        simp only []
        obtain ⟨_, _, f3, _, _, _, f7, _⟩ := GameController.undoPlayfieldToBase_general
          { s with undoStack := rest } r hp
        rw [GameState.runPending_single _ ⟨none, 200, none, Callback.finalPlayfieldCheck⟩
          (by simp [GameController.scheduleFinalCheck, f7])]
        refine ⟨?_, ?_⟩
        · intro q hq
          apply GameController.foldl_finalCheckCard_zOrder
          refine GameController.undoPlayfieldToBase_zOrder _ r q ?_ ?_ ?_
          · exact (hapart q hq).2.1
          · exact hz q hq
          · exact hsaved
        · show ∀ i info,
            (GameController.undoPlayfieldToBase _ r).playfieldView.cardStates i = some info → _
          rw [f3]
          exact hsaved

/-! ## The playfield invariant -/

theorem GameState.Layered.afterClick {s : GameState} (hi : s.Invariant) (hl : s.Layered)
    (cardId : Int) : (s.click cardId).Layered := by
  obtain ⟨_, e2, _, _, e5, e6, e7⟩ := s.click_effect cardId hi.settled
    (fun q hq => hi.bound q (by tauto))
  obtain ⟨z1, z2⟩ := s.click_zOrders cardId hi.settled (fun q hq => hi.bound q (by tauto))
    (fun q hq => ⟨(hl.apart q hq).1, (hl.apart q hq).2.1⟩) hl.zOrders hl.saved
  have hres_sub : ∀ p ∈ (s.click cardId).reserveStackView.cards,
      p ∈ s.reserveStackView.cards := by
    intro p hp
    rcases e7 with ⟨_, h⟩ | ⟨_, _, _, h⟩ | ⟨cv, _, _, _, h, _⟩
    · rwa [h] at hp
    · rwa [h] at hp
    · rw [h] at hp
      exact List.mem_of_mem_erase hp
  refine ⟨?_, ?_, z2⟩
  · intro q hq
    rw [e2] at hq
    obtain ⟨a1, a2, a3⟩ := hl.apart q hq
    refine ⟨fun hm => a1 (hres_sub q hm), ?_, ?_⟩
    · intro hm
      rcases e5 q hm with h | h | ⟨h, _⟩
      · exact a2 h
      · exact a1 h
      · exact Nat.lt_irrefl _ (h ▸ hi.bound q (Or.inl hq))
    · intro hm
      rcases e6 q hm with h | h
      · exact a3 h
      · exact a2 h
  · intro q hq
    rw [e2] at hq
    exact z1 q hq

theorem GameState.Layered.afterUndoRequest {s : GameState} (hi : s.Invariant) (hl : s.Layered) :
    s.undoRequest.Layered := by
  obtain ⟨z1, z2⟩ := s.undoRequest_zOrders hi.settled hl.apart hl.zOrders hl.saved
  rcases s.undoRequest_effect hi.settled with ⟨_, h⟩ | ⟨r, rest, _, _, _, e3, _, e5, _, e7, e8⟩
  · rw [h]
    exact hl
  · refine ⟨?_, ?_, z2⟩
    · intro q hq
      rw [e3] at hq
      obtain ⟨a1, a2, a3⟩ := hl.apart q hq
      refine ⟨?_, ?_, ?_⟩
      · intro hm
        rcases e8 with h | ⟨_, cv, hcv, _, h⟩
        · rw [h] at hm
          exact a1 hm
        · rw [h] at hm
          rcases List.mem_append.mp hm with hm | hm
          · exact a1 hm
          · rw [List.mem_singleton.mp hm] at a2
            exact a2 hcv
      · intro hm
        rcases e7 q hm with h | h
        · exact a2 h
        · exact a3 h
      · rw [e5]
        exact a3
    · intro q hq
      rw [e3] at hq
      exact z1 q hq

/-- A dealt state whose playfield z-orders and saved z-orders are not negative
satisfies the playfield invariant. -/
theorem GameState.Dealt.toLayered {s : GameState} (hd : s.Dealt)
    (hz : ∀ q ∈ s.playfieldView.cards, 0 ≤ (s.heap q).localZOrder)
    (hsaved : ∀ i info, s.playfieldView.cardStates i = some info → 0 ≤ info.zOrder) :
    s.Layered := by
  have hnd := hd.nodup
  rw [List.append_assoc, List.nodup_append] at hnd
  obtain ⟨_, _, hdisj⟩ := hnd
  refine ⟨?_, hz, hsaved⟩
  intro q hq
  refine ⟨fun hm => hdisj hq (List.mem_append_left _ hm),
    fun hm => hdisj hq (List.mem_append_right _ hm), ?_⟩
  rw [hd.noSnapshot]
  exact List.not_mem_nil q

theorem PlayfieldView.playfield_addCard_cardStates (h : Heap) (v : PlayfieldView) (c : Nat) :
    (PlayfieldView.addCard h v (some c)).2.cardStates = v.cardStates := by
  simp only [PlayfieldView.addCard]

theorem GameView.initPlayfieldCards_layered (cfgs : List CardConfig) :
    ∀ (s : GameState) (i : Nat), s.Dealt → s.Layered →
      (GameView.initPlayfieldCards s cfgs i).Layered := by
  induction cfgs with
  | nil => intro s i _ hl; exact hl
  | cons cardCfg rest ih =>
    intro s i hd hl
    have hd1 := GameView.initPlayfieldCards_dealt [cardCfg] s i hd
    simp only [GameView.initPlayfieldCards] at hd1 ⊢
    apply ih _ _ hd1
    obtain ⟨c1, _, _, _, c5, c6, _, _, _, _, _⟩ := GameView.createCard_facts s cardCfg
    apply hd1.toLayered
    · intro q hq
      show 0 ≤ ((PlayfieldView.addCard
        (((GameView.createCard s cardCfg).2.heap.setPosition (GameView.createCard s cardCfg).1
          cardCfg.position).setLocalZOrder (GameView.createCard s cardCfg).1 (i : Int))
        (GameView.createCard s cardCfg).2.playfieldView
        (some (GameView.createCard s cardCfg).1)).1 q).localZOrder
      have hq2 : q ∈ (PlayfieldView.addCard
        (((GameView.createCard s cardCfg).2.heap.setPosition (GameView.createCard s cardCfg).1
          cardCfg.position).setLocalZOrder (GameView.createCard s cardCfg).1 (i : Int))
        (GameView.createCard s cardCfg).2.playfieldView
        (some (GameView.createCard s cardCfg).1)).2.cards := hq
      rw [PlayfieldView.playfield_addCard_cards, c6, c1] at hq2
      rw [c1]
      rcases List.mem_append.mp hq2 with hm | hm
      · have hne : q ≠ s.nextPtr :=
          Nat.ne_of_lt (hd.bound q (by simp [hm]))
        rw [PlayfieldView.playfield_addCard_other _ _ _ _ hne]
        simp only [Heap.setLocalZOrder_apply, Heap.setPosition_apply, hne, if_false]
        rw [c5 q hne]
        exact hl.zOrders q hm
      · rw [List.mem_singleton.mp hm]
        apply PlayfieldView.playfield_addCard_zOrder
        simp [CardView.withLocalZOrder]
    · intro j info hj
      have hj2 : (PlayfieldView.addCard
        (((GameView.createCard s cardCfg).2.heap.setPosition (GameView.createCard s cardCfg).1
          cardCfg.position).setLocalZOrder (GameView.createCard s cardCfg).1 (i : Int))
        (GameView.createCard s cardCfg).2.playfieldView
        (some (GameView.createCard s cardCfg).1)).2.cardStates j = some info := hj
      rw [PlayfieldView.playfield_addCard_cardStates, c6] at hj2
      exact hl.saved j info hj2

theorem GameView.initReserveCards_layered (cfgs : List CardConfig) :
    ∀ (s : GameState), s.Dealt → s.Layered → (GameView.initReserveCards s cfgs).Layered := by
  induction cfgs with
  | nil => intro s _ hl; exact hl
  | cons cardCfg rest ih =>
    intro s hd hl
    have hd1 := GameView.initReserveCards_dealt [cardCfg] s hd
    simp only [GameView.initReserveCards] at hd1 ⊢
    apply ih _ hd1
    obtain ⟨c1, _, _, _, c5, c6, c7, _, _, _, _⟩ := GameView.createCard_facts s cardCfg
    apply hd1.toLayered
    · intro q hq
      have hq2 : q ∈ (GameView.createCard s cardCfg).2.playfieldView.cards := hq
      rw [c6] at hq2
      have hne : q ≠ s.nextPtr := Nat.ne_of_lt (hd.bound q (by simp [hq2]))
      show 0 ≤ ((StackView.addCard ParentNode.reserveStack
        ((GameView.createCard s cardCfg).2.heap.setPosition (GameView.createCard s cardCfg).1
          cardCfg.position)
        (GameView.createCard s cardCfg).2.reserveStackView
        (some (GameView.createCard s cardCfg).1)).1 q).localZOrder
      rw [c1, c7, StackView.addCard_other _ _ _ _ _ hne (hl.apart q hq2).1]
      simp only [Heap.setPosition_apply, hne, if_false]
      rw [c5 q hne]
      exact hl.zOrders q hq2
    · intro j info hj
      have hj2 : (GameView.createCard s cardCfg).2.playfieldView.cardStates j = some info := hj
      rw [c6] at hj2
      exact hl.saved j info hj2

theorem GameView.initBaseCards_layered (cfgs : List CardConfig) :
    ∀ (s : GameState), s.Dealt → s.Layered → (GameView.initBaseCards s cfgs).Layered := by
  induction cfgs with
  | nil => intro s _ hl; exact hl
  | cons cardCfg rest ih =>
    intro s hd hl
    have hd1 := GameView.initBaseCards_dealt [cardCfg] s hd
    simp only [GameView.initBaseCards] at hd1 ⊢
    apply ih _ hd1
    obtain ⟨c1, _, _, _, c5, c6, _, c8, _, _, _⟩ := GameView.createCard_facts s cardCfg
    apply hd1.toLayered
    · intro q hq
      have hq2 : q ∈ (GameView.createCard s cardCfg).2.playfieldView.cards := hq
      rw [c6] at hq2
      have hne : q ≠ s.nextPtr := Nat.ne_of_lt (hd.bound q (by simp [hq2]))
      show 0 ≤ ((StackView.addCard ParentNode.baseStack
        (GameView.createCard s cardCfg).2.heap
        (GameView.createCard s cardCfg).2.baseStackView
        (some (GameView.createCard s cardCfg).1)).1 q).localZOrder
      rw [c1, c8, StackView.addCard_other _ _ _ _ _ hne (hl.apart q hq2).2.1, c5 q hne]
      exact hl.zOrders q hq2
    · intro j info hj
      have hj2 : (GameView.createCard s cardCfg).2.playfieldView.cardStates j = some info := hj
      rw [c6] at hj2
      exact hl.saved j info hj2

/-- The state built by `GameView::init` satisfies the playfield invariant. -/
theorem GameView.init_layered (level : LevelConfig) : (GameView.init level).Layered := by
  have h0 : (GameController.startGame GameState.blank level).Dealt := by
    refine ⟨rfl, rfl, rfl, rfl, ?_, ?_, ?_⟩
    · intro q hq
      exact absurd hq (List.not_mem_nil q)
    · intro q hq
      exact absurd hq (List.not_mem_nil q)
    · exact List.nodup_nil
  have l0 : (GameController.startGame GameState.blank level).Layered := by
    refine ⟨?_, ?_, ?_⟩
    · intro q hq
      exact absurd hq (List.not_mem_nil q)
    · intro q hq
      exact absurd hq (List.not_mem_nil q)
    · intro i info hi
      cases hi
  have h1 := GameView.initPlayfieldCards_dealt level.playfieldCards _ 0 h0
  have h2 := GameView.initReserveCards_dealt level.stackCards _ h1
  have l3 := GameView.initBaseCards_layered level.baseCards _ h2
    (GameView.initReserveCards_layered level.stackCards _ h1
      (GameView.initPlayfieldCards_layered level.playfieldCards _ 0 h0 l0))
  exact ⟨l3.apart, l3.zOrders, l3.saved⟩

/-- Every reachable state satisfies the playfield invariant. -/
theorem GameState.Reachable.layered {s : GameState} (hr : s.Reachable) : s.Layered := by
  induction hr with
  | init level => exact GameView.init_layered level
  | click s cardId hs ih => exact ih.afterClick hs.invariant cardId
  | undoRequest s hs ih => exact ih.afterUndoRequest hs.invariant

/-! ## DrawToBase in every reachable state -/

/-- Among cards with pairwise distinct ids, the lookup of a member's id yields
that member. -/
theorem GameController.findCardViewById_of_nodup (h : Heap) (cards : List Nat) (c : Nat)
    (hnd : (cards.map (fun p => (h p).cardId)).Nodup) (hc : c ∈ cards) :
    GameController.findCardViewById h (h c).cardId cards = some c := by
  unfold GameController.findCardViewById
  induction cards with
  | nil => exact absurd hc (List.not_mem_nil c)
  | cons a t ih =>
    rw [List.map_cons, List.nodup_cons] at hnd
    by_cases hac : a = c
    · subst hac
      simp
    · have hct : c ∈ t := by
        rcases List.mem_cons.mp hc with e | e
        · exact absurd e.symm hac
        · exact e
      have hne : (h a).cardId ≠ (h c).cardId := by
        intro e
        apply hnd.1
        rw [e]
        exact List.mem_map.mpr ⟨c, hct, rfl⟩
      rw [List.find?_cons_of_neg _ (by simpa using hne)]
      exact ih hnd.2 hct

/-- C4: in every reachable state with a non-empty reserve, a click on the
reserve top is accepted whatever the playfield and the base hold: after the
move the card is no longer in the reserve, it is the last element and top of
the base stack, and exactly one record, of kind `RESERVE_TO_BASE` with
`originalParent = 1` (the reserve), has been pushed. -/
theorem drawToBase_move (s : GameState) (cardView : Nat) (hr : s.Reachable)
    (htop : s.reserveStackView.getTopCard = some cardView) :
    cardView ∉ (s.click (s.heap cardView).cardId).reserveStackView.cards ∧
    (s.click (s.heap cardView).cardId).baseStackView.cards
      = s.baseStackView.cards ++ [cardView] ∧
    (s.click (s.heap cardView).cardId).baseStackView.getTopCard = some cardView ∧
    (s.click (s.heap cardView).cardId).undoStack =
      ⟨(s.heap cardView).cardId, MoveType.RESERVE_TO_BASE, (s.heap cardView).position, 1, -1⟩
        :: s.undoStack := by
  have hi := hr.invariant
  have hmem : cardView ∈ s.reserveStackView.cards := by
    rw [StackView.getTopCard_some htop]
    simp
  apply drawToBase_move_of s cardView hi.settled htop
  · unfold GameController.findCardViewById
    rw [List.find?_eq_none]
    intro q hq
    simpa using fun e => hi.reservePlayfield cardView hmem q hq e.symm
  · exact GameController.findCardViewById_of_nodup _ _ _ hi.reserveIds hmem
  · exact List.Nodup.of_map _ hi.reserveIds

/-- Witness for C4: the draw of `7♠` in the initial state of `levelScenario3`. -/
theorem drawToBase_move_witness :
    ((GameView.init levelScenario3).click 0).baseStackView.cards = [1, 0] ∧
    ((GameView.init levelScenario3).click 0).undoStack =
      [⟨0, MoveType.RESERVE_TO_BASE, ⟨0, 0⟩, 1, -1⟩] :=
  have h := drawToBase_move (GameView.init levelScenario3) 0
    (GameState.Reachable.init levelScenario3) (by decide)
  ⟨h.2.1, h.2.2.2⟩

/-! ## Round trips that hold under conditions on the ids -/

/-- A reorder that is executed is reverted by the next undo request: the base
sequence and the ledger are as before the click. -/
theorem reorderBase_undo_restores (s : GameState) (cardId : Int) (cardView : Nat)
    (hp : s.pending = [])
    (hpf : GameController.findCardViewById s.heap cardId s.playfieldView.cards = none)
    (hrs : GameController.findCardViewById s.heap cardId s.reserveStackView.cards = none)
    (hfound : GameController.findCardViewById s.heap cardId s.baseStackView.cards
      = some cardView)
    (hnot : some cardView ≠ s.baseStackView.getTopCard) :
    (s.click cardId).baseStackView.cards = s.baseStackView.cards.erase cardView ++ [cardView] ∧
    ((s.click cardId).undoRequest).baseStackView.cards = s.baseStackView.cards ∧
    ((s.click cardId).undoRequest).undoStack = s.undoStack := by
  obtain ⟨hmem, hid⟩ := GameController.findCardViewById_some hfound
  have hclk : s.click cardId = (GameController.clickReorderBase s cardId cardView).runPending := by
    unfold GameState.click
    rw [GameController.onCardClicked_reorderBase s cardId cardView hpf hrs hfound hnot]
  obtain ⟨f1, f2, f3, f4, f5, f6, f7, f8⟩ :=
    GameController.reorderBase_facts s cardId cardView hp hmem hnot
  rw [hclk]
  refine ⟨f1, ?_⟩
  generalize (GameController.clickReorderBase s cardId cardView).runPending = X at *
  obtain ⟨c, hc⟩ : ∃ c, GameController.findCardViewById X.heap cardId X.baseStackView.cards
      = some c := by
    cases hfx : GameController.findCardViewById X.heap cardId X.baseStackView.cards with
    | some c => exact ⟨c, rfl⟩
    | none =>
      exfalso
      have := GameController.findCardViewById_none hfx cardView (by rw [f1]; simp)
      apply this
      rw [f8, (StackView.layoutFrom_frame _ _ _ _).1, hid]
  unfold GameState.undoRequest
  rw [GameController.onUndoClicked_cons X _ s.undoStack f4 (Or.inr (Or.inr rfl))]
  simp only [hc]
  rw [GameController.undoReorderBase_run { X with undoStack := s.undoStack } c f7]
  obtain ⟨g1, _, _, g4, _, _, _, _⟩ := Callback.runFinalPlayfieldCheck_facts
    (Callback.runUndoReorderBase { X with undoStack := s.undoStack } c)
  obtain ⟨_, e2, _, _, e5, _, _, _, _⟩ := Callback.runUndoReorderBase_facts
    { X with undoStack := s.undoStack } c
  rw [g1, g4, e5]
  refine ⟨?_, rfl⟩
  have hsn : ({ X with undoStack := s.undoStack } : GameState).baseStackSnapshot
      = s.baseStackView.cards := f5
  rw [e2 (by rw [hsn]; exact List.ne_nil_of_mem hmem), hsn]

/-- A draw is reverted by the next undo request when no base card bears the
drawn card's id: reserve sequence, base sequence and ledger are as before. -/
theorem drawToBase_undo_restores (s : GameState) (cardView : Nat)
    (hp : s.pending = [])
    (htop : s.reserveStackView.getTopCard = some cardView)
    (hpf : GameController.findCardViewById s.heap (s.heap cardView).cardId
      s.playfieldView.cards = none)
    (hfound : GameController.findCardViewById s.heap (s.heap cardView).cardId
      s.reserveStackView.cards = some cardView)
    (hnd : s.reserveStackView.cards.Nodup)
    (hnb : GameController.findCardViewById s.heap (s.heap cardView).cardId
      s.baseStackView.cards = none) :
    ((s.click (s.heap cardView).cardId).undoRequest).reserveStackView.cards
      = s.reserveStackView.cards ∧
    ((s.click (s.heap cardView).cardId).undoRequest).baseStackView.cards
      = s.baseStackView.cards ∧
    ((s.click (s.heap cardView).cardId).undoRequest).undoStack = s.undoStack := by
  have hclk : s.click (s.heap cardView).cardId =
      (GameController.clickReserveToBase s (s.heap cardView).cardId cardView).runPending := by
    unfold GameState.click
    rw [GameController.onCardClicked_reserveToBase s _ cardView hpf hfound htop]
  obtain ⟨f1, f2, f3, f4, f5, f6, f7⟩ :=
    GameController.reserveToBase_cards s (s.heap cardView).cardId cardView hp
  have hids := GameController.reserveToBase_cardId s (s.heap cardView).cardId cardView hp
  rw [hclk]
  generalize (GameController.clickReserveToBase s (s.heap cardView).cardId
    cardView).runPending = X at *
  have hnoid := GameController.findCardViewById_none hnb
  have hcb : cardView ∉ s.baseStackView.cards := fun hm => hnoid _ hm rfl
  have hfx : GameController.findCardViewById X.heap (s.heap cardView).cardId
      X.baseStackView.cards = some cardView := by
    rw [f1]
    apply GameController.findCardViewById_append_last
    · intro q hq
      rw [hids]
      exact hnoid q hq
    · rw [hids]
  unfold GameState.undoRequest
  rw [GameController.onUndoClicked_cons X _ s.undoStack f4 (Or.inr (Or.inl rfl))]
  simp only [hfx]
  rw [GameController.undoReserveToBase_run { X with undoStack := s.undoStack } cardView
    (s.heap cardView).position f7]
  obtain ⟨g1, g2, _, g4, _, _, _, _⟩ := Callback.runUndoReserveToBase_facts
    { { X with undoStack := s.undoStack } with
      heap := (X.playfieldView.cards.foldl GameController.finalCheckCard
        X.heap).setPosition cardView (s.heap cardView).position } cardView
  refine ⟨?_, ?_, g4⟩
  · rw [g2]
    show X.reserveStackView.cards ++ [cardView] = _
    rw [f2]
    have hrs := StackView.getTopCard_some htop
    have hnd2 := hnd
    rw [hrs] at hnd2
    have hnotin : cardView ∉ s.reserveStackView.cards.dropLast := by
      intro hm
      have := (List.nodup_append.mp hnd2).2.2
      exact this hm (List.mem_singleton_self _)
    conv_lhs => rw [hrs]
    rw [List.erase_append_right _ hnotin]
    conv_rhs => rw [hrs]
    simp
  · rw [g1]
    show X.baseStackView.cards.erase cardView = _
    rw [f1, List.erase_append_right _ hcb]
    simp

/-! ## PlayfieldToBase in every reachable state -/

/-- C3 (amended): in every reachable state, when the clicked playfield card is
listed by `getClickablePlayfieldCards`, the base stack has a top card and the
ranks match, the completed move keeps the card in the playfield but hidden
(not visible, opacity 0), appends to the base stack a new card with the same
id, which is the new top and lies above the previous top in z-order, and
pushes exactly one `PLAYFIELD_TO_BASE` record holding the card's position
before the move, so that undo is possible. -/
theorem playfieldToBase_move (s : GameState) (cardId : Int) (cardView topCard : Nat)
    (hr : s.Reachable)
    (hfound : GameController.findCardViewById s.heap cardId s.playfieldView.cards
      = some cardView)
    (hclick : cardView ∈ GameController.getClickablePlayfieldCards s.heap s.playfieldView)
    (htop : s.baseStackView.getTopCard = some topCard)
    (hmatch : GameController.canMatchCards (s.heap cardView).cardFace
      (s.heap topCard).cardFace = true) :
    (s.click cardId).playfieldView.cards = s.playfieldView.cards ∧
    cardView ∈ (s.click cardId).playfieldView.cards ∧
    ((s.click cardId).heap cardView).visible = false ∧
    ((s.click cardId).heap cardView).opacity = 0 ∧
    (s.click cardId).baseStackView.cards = s.baseStackView.cards ++ [s.nextPtr] ∧
    s.nextPtr ∉ s.baseStackView.cards ∧
    ((s.click cardId).heap s.nextPtr).cardId = cardId ∧
    (s.click cardId).baseStackView.getTopCard = some s.nextPtr ∧
    ((s.click cardId).heap topCard).localZOrder <
      ((s.click cardId).heap s.nextPtr).localZOrder ∧
    (s.click cardId).undoStack =
      ⟨cardId, MoveType.PLAYFIELD_TO_BASE, (s.heap cardView).position, 0, -1⟩ ::
        s.undoStack ∧
    UndoManager.canUndo (s.click cardId).undoStack = true :=
  playfieldToBase_move_of s cardId cardView topCard hr.invariant.settled
    (fun q hq => hr.invariant.bound q (by tauto)) hfound hclick htop hmatch

/-- Witness for C3 (amended): `4♦` played onto `5♣` in `levelScenario1`. -/
theorem playfieldToBase_move_witness :
    ((GameView.init levelScenario1).click 0).baseStackView.cards =
        (GameView.init levelScenario1).baseStackView.cards ++ [3] ∧
      (((GameView.init levelScenario1).click 0).heap 0).visible = false :=
  have h := playfieldToBase_move (GameView.init levelScenario1) 0 0 2
    (GameState.Reachable.init levelScenario1) (by decide) (by decide) (by decide) (by decide)
  ⟨h.2.2.2.2.1, h.2.2.1⟩

/-- Where the round trip of `PlayfieldToBase` holds: in every reachable state
in which no base card bears the id of the played card, a legal move followed
by an undo request leaves the base stack with its sequence from before the
move, and the original card, still a member of the playfield, visible with
opacity 255 at the position and z-order it had before the move; the ledger is
back to what it was. -/
theorem playfieldToBase_undo_roundtrip (s : GameState) (cardId : Int)
    (cardView topCard : Nat)
    (hr : s.Reachable)
    (hfound : GameController.findCardViewById s.heap cardId s.playfieldView.cards
      = some cardView)
    (hclick : cardView ∈ GameController.getClickablePlayfieldCards s.heap s.playfieldView)
    (htop : s.baseStackView.getTopCard = some topCard)
    (hmatch : GameController.canMatchCards (s.heap cardView).cardFace
      (s.heap topCard).cardFace = true)
    (hnew : GameController.findCardViewById s.heap cardId s.baseStackView.cards = none) :
    ((s.click cardId).undoRequest).baseStackView.cards = s.baseStackView.cards ∧
    ((s.click cardId).undoRequest).playfieldView.cards = s.playfieldView.cards ∧
    cardView ∈ ((s.click cardId).undoRequest).playfieldView.cards ∧
    (((s.click cardId).undoRequest).heap cardView).visible = true ∧
    (((s.click cardId).undoRequest).heap cardView).opacity = 255 ∧
    (((s.click cardId).undoRequest).heap cardView).position = (s.heap cardView).position ∧
    (((s.click cardId).undoRequest).heap cardView).localZOrder
      = (s.heap cardView).localZOrder ∧
    ((s.click cardId).undoRequest).undoStack = s.undoStack :=
  playfieldToBase_undo_roundtrip_of s cardId cardView topCard hr.invariant.settled
    (fun q hq => hr.invariant.bound q (by tauto)) hfound hclick htop hmatch hnew
    (hr.layered.zOrders cardView (GameController.findCardViewById_some hfound).1)

/-- Example of the round trip: `4♦` played onto `5♣` in `levelScenario1`, then undone. -/
theorem playfieldToBase_undo_roundtrip_witness :
    (((GameView.init levelScenario1).click 0).undoRequest).baseStackView.cards =
        (GameView.init levelScenario1).baseStackView.cards ∧
      ((((GameView.init levelScenario1).click 0).undoRequest).heap 0).visible = true ∧
      ((((GameView.init levelScenario1).click 0).undoRequest).heap 0).position =
        ((GameView.init levelScenario1).heap 0).position :=
  have h := playfieldToBase_undo_roundtrip (GameView.init levelScenario1) 0 0 2
    (GameState.Reachable.init levelScenario1) (by decide) (by decide) (by decide) (by decide)
    (by decide)
  ⟨h.1, h.2.2.2.1, h.2.2.2.2.2.1⟩

/-- The intersection of two rectangles has positive area exactly when the
horizontal and the vertical extents both overlap. -/
theorem footprintOverlapArea_pos_iff (p : Vec2) (sp : Size) (q : Vec2) (sq : Size) :
    0 < footprintOverlapArea p sp q sq ↔
      max (p.x - sp.width / 2) (q.x - sq.width / 2)
          < min (p.x + sp.width / 2) (q.x + sq.width / 2) ∧
      max (p.y - sp.height / 2) (q.y - sq.height / 2)
          < min (p.y + sp.height / 2) (q.y + sq.height / 2) := by
  unfold footprintOverlapArea
  constructor
  · intro h
    constructor
    · by_contra hc
      have : max 0 (min (p.x + sp.width / 2) (q.x + sq.width / 2)
          - max (p.x - sp.width / 2) (q.x - sq.width / 2)) = 0 := by
        apply max_eq_left
        omega
      rw [this, zero_mul] at h
      exact lt_irrefl _ h
    · by_contra hc
      have : max 0 (min (p.y + sp.height / 2) (q.y + sq.height / 2)
          - max (p.y - sp.height / 2) (q.y - sq.height / 2)) = 0 := by
        apply max_eq_left
        omega
      rw [this, mul_zero] at h
      exact lt_irrefl _ h
  · rintro ⟨h1, h2⟩
    apply mul_pos
    · exact lt_max_of_lt_right (by omega)
    · exact lt_max_of_lt_right (by omega)

/-- In coordinates: rectangles of sizes `2a x 2b` and `2c x 2d` overlap exactly
when the centres are closer than `a + c` horizontally and `b + d` vertically. -/
theorem footprintOverlapArea_pos_iff_abs (p q : Vec2) (a b c d : Int)
    (ha : 0 < a) (hb : 0 < b) (hc : 0 < c) (hd : 0 < d) :
    0 < footprintOverlapArea p ⟨2 * a, 2 * b⟩ q ⟨2 * c, 2 * d⟩ ↔
      |p.x - q.x| < a + c ∧ |p.y - q.y| < b + d := by
  rw [footprintOverlapArea_pos_iff]
  have e1 : (2 * a) / 2 = a := by omega
  have e2 : (2 * b) / 2 = b := by omega
  have e3 : (2 * c) / 2 = c := by omega
  have e4 : (2 * d) / 2 = d := by omega
  simp only [e1, e2, e3, e4, abs_lt, max_lt_iff, lt_min_iff]
  constructor
  · rintro ⟨⟨⟨_, h1⟩, _, h2⟩, ⟨_, h3⟩, _, h4⟩
    exact ⟨⟨by omega, by omega⟩, by omega, by omega⟩
  · rintro ⟨⟨h1, h2⟩, h3, h4⟩
    exact ⟨⟨⟨by omega, by omega⟩, by omega, by omega⟩, ⟨by omega, by omega⟩, by omega, by omega⟩

/-! ## What the coverage tests compute -/

/-- One round of the loop of `isCardCovered`, in terms of footprints: the
target is enlarged by the margin of `5` on every side. -/
theorem PlayfieldView.coveredBy_iff (h : Heap) (c o : Nat) :
    PlayfieldView.coveredBy h c ⟨150 + 5 * 2, 210 + 5 * 2⟩ o = true ↔
      o ≠ c ∧ (h o).visible = true ∧ (h o).opacity ≠ 0 ∧
      (h c).localZOrder < (h o).localZOrder ∧
      0 < footprintOverlapArea (h c).position ⟨160, 220⟩ (h o).position cardFootprint := by
  unfold PlayfieldView.coveredBy
  by_cases h1 : o = c ∨ (h o).visible = false ∨ (h o).opacity = 0
  · rw [if_pos h1]
    constructor
    · intro hf
      cases hf
    · rintro ⟨a1, a2, a3, _⟩
      rcases h1 with e | e | e
      · exact absurd e a1
      · rw [a2] at e
        cases e
      · exact absurd e a3
  · rw [if_neg h1]
    have a1 : o ≠ c := fun e => h1 (Or.inl e)
    have a2 : (h o).visible = true := by
      cases hv : (h o).visible
      · exact absurd (Or.inr (Or.inl hv)) h1
      · rfl
    have a3 : (h o).opacity ≠ 0 := fun e => h1 (Or.inr (Or.inr e))
    by_cases h2 : (h o).localZOrder ≤ (h c).localZOrder
    · simp only [h2, if_true]
      constructor
      · intro hf
        cases hf
      · rintro ⟨_, _, _, a4, _⟩
        omega
    · simp only [h2, if_false, cardSizeOrDefault_getContentSize, decide_eq_true_eq]
      rw [footprintOverlapArea_pos_iff]
      constructor
      · intro hov
        exact ⟨a1, a2, a3, by omega, hov⟩
      · rintro ⟨_, _, _, _, hov⟩
        exact hov

/-- The manual test of `getClickablePlayfieldCards`, in terms of footprints:
the card is enlarged by the margin of `10` on every side. -/
theorem GameController.manuallyCoveredBy_iff (h : Heap) (c o : Nat) :
    GameController.manuallyCoveredBy h c o = true ↔
      o ≠ c ∧ (h c).localZOrder < (h o).localZOrder ∧
      0 < footprintOverlapArea (h c).position ⟨170, 230⟩ (h o).position cardFootprint := by
  unfold GameController.manuallyCoveredBy
  by_cases h1 : o = c
  · simp [h1]
  · simp only [h1, if_false]
    by_cases h2 : (h o).localZOrder > (h c).localZOrder
    · rw [if_pos h2, decide_eq_true_eq, footprintOverlapArea_pos_iff]
      simp only [cardFootprint, max_lt_iff, lt_min_iff]
      constructor
      · intro hov
        refine ⟨fun e => h1 e, h2, ?_⟩
        omega
      · rintro ⟨_, _, hov⟩
        omega
    · rw [if_neg h2]
      constructor
      · intro hf
        cases hf
      · rintro ⟨_, a, _⟩
        exact absurd a h2

/-- Membership in the z-order sort is membership in the list. -/
theorem GameController.mem_sortByZOrder (h : Heap) (cards : List Nat) (c : Nat) :
    c ∈ GameController.sortByZOrder h cards ↔ c ∈ cards :=
  (List.perm_insertionSort _ cards).mem_iff

/-! ## Coverage and the clickable list -/

/-- What `isCardCovered` computes, in terms of footprints. -/
theorem PlayfieldView.isCardCovered_true_iff (h : Heap) (v : PlayfieldView) (C : Nat) :
    PlayfieldView.isCardCovered h v (some C) = true ↔
      (h C).visible = false ∨ (h C).opacity = 0 ∨ (h C).parent ≠ ParentNode.playfield ∨
      ∃ D ∈ v.cards, D ≠ C ∧ (h D).visible = true ∧ (h D).opacity ≠ 0 ∧
        (h C).localZOrder < (h D).localZOrder ∧
        0 < footprintOverlapArea (h C).position ⟨160, 220⟩ (h D).position cardFootprint := by
  unfold PlayfieldView.isCardCovered
  show (if (h C).visible = false ∨ (h C).opacity = 0 then true
    else if (h C).parent ≠ ParentNode.playfield then true
    else v.cards.any (fun otherCard => PlayfieldView.coveredBy h C
      ⟨(cardSizeOrDefault (h C).getContentSize).width + 5 * 2,
        (cardSizeOrDefault (h C).getContentSize).height + 5 * 2⟩ otherCard)) = true ↔ _
  by_cases h1 : (h C).visible = false ∨ (h C).opacity = 0
  · simp only [h1, if_true, true_iff]
    rcases h1 with e | e
    · exact Or.inl e
    · exact Or.inr (Or.inl e)
  · by_cases h2 : (h C).parent ≠ ParentNode.playfield
    · rw [if_neg h1, if_pos h2]
      exact ⟨fun _ => Or.inr (Or.inr (Or.inl h2)), fun _ => rfl⟩
    · rw [if_neg h1, if_neg h2]
      simp only [cardSizeOrDefault_getContentSize, List.any_eq_true]
      constructor
      · rintro ⟨D, hD, hcov⟩
        exact Or.inr (Or.inr (Or.inr ⟨D, hD, (PlayfieldView.coveredBy_iff h C D).mp hcov⟩))
      · rintro (e | e | e | ⟨D, hD, hcov⟩)
        · exact absurd (Or.inl e) h1
        · exact absurd (Or.inr e) h1
        · exact absurd e h2
        · exact ⟨D, hD, (PlayfieldView.coveredBy_iff h C D).mpr hcov⟩

/-- C12 (amended): `isCardCovered(C)` is true exactly when `C` is not visible,
or has opacity zero, or is not a child of the playfield node, or some other
member `D` of the playfield that is visible with non-zero opacity and has a
higher z-order overlaps, with its `150 x 210` footprint and in a region of
non-zero area, the footprint of `C` enlarged by the margin of `5` on every
side (`160 x 220`). -/
theorem isCardCovered_iff (h : Heap) (v : PlayfieldView) (C : Nat) :
    PlayfieldView.isCardCovered h v (some C) = true ↔
      (h C).visible = false ∨ (h C).opacity = 0 ∨ (h C).parent ≠ ParentNode.playfield ∨
      ∃ D ∈ v.cards, D ≠ C ∧ (h D).visible = true ∧ (h D).opacity ≠ 0 ∧
        (h C).localZOrder < (h D).localZOrder ∧
        0 < footprintOverlapArea (h C).position ⟨160, 220⟩ (h D).position cardFootprint :=
  PlayfieldView.isCardCovered_true_iff h v C

/-- C12, as stated, fails: in `levelNear` the card `4♦` (address 0) is visible
with opacity 255, the only other playfield card is `9♦` (address 1), the
`150 x 210` footprints of the two do not overlap, and yet `isCardCovered`
is true for `4♦`. -/
theorem isCardCovered_of_near_card :
    (GameView.init levelNear).playfieldView.cards = [0, 1] ∧
    ((GameView.init levelNear).heap 0).visible = true ∧
    ((GameView.init levelNear).heap 0).opacity = 255 ∧
    ((GameView.init levelNear).heap 0).position = ⟨100, 100⟩ ∧
    ((GameView.init levelNear).heap 1).position = ⟨252, 100⟩ ∧
    ¬ footprintsOverlap ((GameView.init levelNear).heap 0).position
        ((GameView.init levelNear).heap 1).position ∧
    footprintOverlapArea ((GameView.init levelNear).heap 0).position cardFootprint
        ((GameView.init levelNear).heap 1).position cardFootprint = 0 ∧
    PlayfieldView.isCardCovered (GameView.init levelNear).heap
        (GameView.init levelNear).playfieldView (some 0) = true := by
  decide

/-- What `getClickablePlayfieldCards` computes, in terms of footprints. -/
theorem GameController.mem_getClickable_iff (h : Heap) (v : PlayfieldView) (c : Nat) :
    c ∈ GameController.getClickablePlayfieldCards h v ↔
      c ∈ v.cards ∧ (h c).visible = true ∧ 0 < (h c).opacity ∧
      PlayfieldView.isCardCovered h v (some c) = false ∧
      ∀ D ∈ v.cards, D ≠ c → (h D).visible = true → 0 < (h D).opacity →
        (h c).localZOrder < (h D).localZOrder →
        ¬ 0 < footprintOverlapArea (h c).position ⟨170, 230⟩ (h D).position cardFootprint := by
  unfold GameController.getClickablePlayfieldCards
  simp only [List.mem_filter, Bool.and_eq_true, Bool.not_eq_true', decide_eq_true_eq,
    GameController.mem_sortByZOrder, List.any_eq_false]
  constructor
  · rintro ⟨⟨hm, hv, ho⟩, hc, hall⟩
    refine ⟨hm, hv, ho, hc, ?_⟩
    intro D hD hne hDv hDo hz hov
    have := hall D ⟨hD, hDv, hDo⟩
    exact this ((GameController.manuallyCoveredBy_iff h c D).mpr ⟨hne, hz, hov⟩)
  · rintro ⟨hm, hv, ho, hc, hall⟩
    refine ⟨⟨hm, hv, ho⟩, hc, ?_⟩
    rintro D ⟨hD, hDv, hDo⟩ hcov
    obtain ⟨hne, hz, hov⟩ := (GameController.manuallyCoveredBy_iff h c D).mp hcov
    exact hall D hD hne hDv hDo hz hov

/-- C13 (amended): the result of `getClickablePlayfieldCards` consists exactly
of the playfield members that are visible with non-zero opacity, for which
`isCardCovered` is false, and whose footprint enlarged by the margin of `10`
on every side (`170 x 230`) is not overlapped by the `150 x 210` footprint of
another visible member of non-zero opacity and higher z-order. -/
theorem mem_getClickablePlayfieldCards_iff (h : Heap) (v : PlayfieldView) (c : Nat) :
    c ∈ GameController.getClickablePlayfieldCards h v ↔
      c ∈ v.cards ∧ (h c).visible = true ∧ 0 < (h c).opacity ∧
      PlayfieldView.isCardCovered h v (some c) = false ∧
      ∀ D ∈ v.cards, D ≠ c → (h D).visible = true → 0 < (h D).opacity →
        (h c).localZOrder < (h D).localZOrder →
        ¬ 0 < footprintOverlapArea (h c).position ⟨170, 230⟩ (h D).position cardFootprint :=
  GameController.mem_getClickable_iff h v c

/-- C13, as stated, fails: in `levelMargin` the playfield member `4♦`
(address 0) is visible with opacity 255 and `isCardCovered` is false for it,
but it is not in the result of `getClickablePlayfieldCards`, which is `[9♦]`. -/
theorem clickable_list_misses_uncovered_card :
    0 ∈ (GameView.init levelMargin).playfieldView.cards ∧
    ((GameView.init levelMargin).heap 0).visible = true ∧
    ((GameView.init levelMargin).heap 0).opacity = 255 ∧
    PlayfieldView.isCardCovered (GameView.init levelMargin).heap
        (GameView.init levelMargin).playfieldView (some 0) = false ∧
    GameController.getClickablePlayfieldCards (GameView.init levelMargin).heap
        (GameView.init levelMargin).playfieldView = [1] := by
  decide

/-- C14: if a playfield member `D`, visible with non-zero opacity, has a higher
z-order than `C` and the `150 x 210` footprints of the two overlap in a region
of non-zero area, then `isCardCovered(C)` is true and `C` is not in the result
of `getClickablePlayfieldCards`. -/
theorem occluded_card_not_clickable (h : Heap) (v : PlayfieldView) (C D : Nat)
    (hD : D ∈ v.cards) (hz : (h C).localZOrder < (h D).localZOrder)
    (hvis : (h D).visible = true) (hop : (h D).opacity ≠ 0)
    (hov : footprintsOverlap (h C).position (h D).position) :
    C ∉ GameController.getClickablePlayfieldCards h v ∧
    PlayfieldView.isCardCovered h v (some C) = true := by
  have hcov : PlayfieldView.isCardCovered h v (some C) = true := by
    rw [PlayfieldView.isCardCovered_true_iff]
    refine Or.inr (Or.inr (Or.inr ⟨D, hD, ?_, hvis, hop, hz, ?_⟩))
    · intro e
      rw [e] at hz
      exact lt_irrefl _ hz
    · unfold footprintsOverlap at hov
      rw [footprintOverlapArea_pos_iff] at hov ⊢
      simp only [cardFootprint, max_lt_iff, lt_min_iff] at hov ⊢
      omega
  refine ⟨?_, hcov⟩
  intro hm
  have := (GameController.mem_clickable hm).1
  rw [hcov] at this
  cases this

/-- Witness for C14: in `levelCovered`, `9♦` lies over `4♦`. -/
theorem occluded_card_not_clickable_witness :
    0 ∉ GameController.getClickablePlayfieldCards (GameView.init levelCovered).heap
        (GameView.init levelCovered).playfieldView ∧
    PlayfieldView.isCardCovered (GameView.init levelCovered).heap
        (GameView.init levelCovered).playfieldView (some 0) = true :=
  occluded_card_not_clickable (GameView.init levelCovered).heap
    (GameView.init levelCovered).playfieldView 0 1 (by decide) (by decide) (by decide)
    (by decide) (by decide)

/-- A target card that is visible, has non-zero opacity and is a child of the
playfield node is not covered when every other playfield member that is
visible with non-zero opacity has a z-order less than or equal to the
target's, whatever the positions. -/
theorem PlayfieldView.isCardCovered_false_of_zOrder (h : Heap) (v : PlayfieldView)
    (target : Nat) (hvis : (h target).visible = true) (hop : (h target).opacity ≠ 0)
    (hpar : (h target).parent = ParentNode.playfield)
    (hz : ∀ o ∈ v.cards, o ≠ target → (h o).visible = true → (h o).opacity ≠ 0 →
      (h o).localZOrder ≤ (h target).localZOrder) :
    PlayfieldView.isCardCovered h v (some target) = false := by
  cases hc : PlayfieldView.isCardCovered h v (some target) with
  | false => rfl
  | true =>
    rcases (PlayfieldView.isCardCovered_true_iff h v target).mp hc with e | e | e |
      ⟨D, hD, hne, hDv, hDo, hlt, _⟩
    · rw [hvis] at e
      cases e
    · exact absurd e hop
    · exact absurd hpar e
    · have := hz D hD hne hDv hDo
      omega

/-- Hiding a card other than the target, or changing it in any way that
leaves it invisible or of opacity zero, never makes the target covered. -/
theorem PlayfieldView.isCardCovered_false_of_hide (h h2 : Heap) (v : PlayfieldView)
    (C D : Nat) (hne : D ≠ C) (hsame : ∀ q, q ≠ D → h2 q = h q)
    (hhid : (h2 D).visible = false ∨ (h2 D).opacity = 0)
    (hc : PlayfieldView.isCardCovered h v (some C) = false) :
    PlayfieldView.isCardCovered h2 v (some C) = false := by
  cases hc2 : PlayfieldView.isCardCovered h2 v (some C) with
  | false => rfl
  | true =>
    have eC : h2 C = h C := hsame C (fun e => hne e.symm)
    have hcov : PlayfieldView.isCardCovered h v (some C) = true := by
      rw [PlayfieldView.isCardCovered_true_iff] at hc2 ⊢
      rw [eC] at hc2
      rcases hc2 with e | e | e | ⟨E, hE, hEne, hEv, hEo, hlt, hov⟩
      · exact Or.inl e
      · exact Or.inr (Or.inl e)
      · exact Or.inr (Or.inr (Or.inl e))
      · have hED : E ≠ D := by
          intro e
          rw [e] at hEv hEo
          rcases hhid with e2 | e2
          · rw [hEv] at e2
            cases e2
          · exact hEo e2
        rw [hsame E hED] at hEv hEo hlt hov
        exact Or.inr (Or.inr (Or.inr ⟨E, hE, hEne, hEv, hEo, hlt, hov⟩))
    rw [hc] at hcov
    cases hcov

/-- A card that is not visible, or has opacity zero, is covered and is not in
the clickable list. -/
theorem GameController.hidden_not_clickable (h : Heap) (v : PlayfieldView) (C : Nat)
    (hhid : (h C).visible = false ∨ (h C).opacity = 0) :
    PlayfieldView.isCardCovered h v (some C) = true ∧
    C ∉ GameController.getClickablePlayfieldCards h v := by
  have hcov : PlayfieldView.isCardCovered h v (some C) = true := by
    rw [PlayfieldView.isCardCovered_true_iff]
    rcases hhid with e | e
    · exact Or.inl e
    · exact Or.inr (Or.inl e)
  refine ⟨hcov, ?_⟩
  intro hm
  have := (GameController.mem_clickable hm).1
  rw [hcov] at this
  cases this

/-! ## Clicks change playfield cards only by hiding them -/

/-- A click leaves every playfield card as it is, or hides it (the card played
onto the base stack). -/
theorem GameState.click_playfield_card (s : GameState) (cardId : Int) (hp : s.pending = [])
    (hb : ∀ q, q ∈ s.playfieldView.cards ∨ q ∈ s.baseStackView.cards → q < s.nextPtr)
    (hapart : ∀ q ∈ s.playfieldView.cards,
      q ∉ s.reserveStackView.cards ∧ q ∉ s.baseStackView.cards) :
    ∀ q ∈ s.playfieldView.cards, (s.click cardId).heap q = s.heap q ∨
      (s.click cardId).heap q = ((s.heap q).withOpacity 0).withVisible false := by
  unfold GameState.click
  rcases GameController.onCardClicked_cases s cardId with h | ⟨cv, hpf, hrs, hbs, hnot, h⟩ |
    ⟨cv, t, hpf, htop, h⟩ | ⟨cv, hpf, hrs, htop, h⟩
  · rw [h, GameState.runPending_nil s hp]
    exact fun q _ => Or.inl rfl
  · rw [h]
    have hmem := (GameController.findCardViewById_some hbs).1
    obtain ⟨_, _, _, _, _, _, _, f8⟩ :=
      GameController.reorderBase_facts s cardId cv hp hmem hnot
    rw [f8]
    intro q hq
    left
    rw [StackView.layoutFrom_not_mem]
    intro hm
    apply (hapart q hq).2
    rcases List.mem_append.mp hm with hm | hm
    · exact List.mem_of_mem_erase hm
    · rw [List.mem_singleton.mp hm]
      exact hmem
  · rw [h]
    have hmem := (GameController.findCardViewById_some hpf).1
    have htmem : t ∈ s.baseStackView.cards := by
      rw [StackView.getTopCard_some htop]
      simp
    have hc : cv ≠ s.nextPtr := Nat.ne_of_lt (hb _ (Or.inl hmem))
    have ht : t ≠ s.nextPtr := Nat.ne_of_lt (hb _ (Or.inr htmem))
    obtain ⟨h4, hq4, _, e⟩ := GameController.playfieldToBase_heap s cardId cv t hp ht hc
    rw [e]
    intro q hq
    have hqn : q ≠ s.nextPtr := Nat.ne_of_lt (hb _ (Or.inl hq))
    have e1 : (StackView.addCard ParentNode.baseStack h4 s.baseStackView (some s.nextPtr)).1 q
        = s.heap q := by
      rw [StackView.addCard_other _ _ _ _ _ hqn (hapart q hq).2, hq4 q hqn]
    by_cases hqc : q = cv
    · right
      rw [← e1]
      subst hqc
      simp
    · left
      rw [← e1]
      simp [hqc]
  · rw [h]
    intro q hq
    left
    have hmem := (GameController.findCardViewById_some hrs).1
    have hqc : q ≠ cv := fun e => (hapart q hq).1 (e ▸ hmem)
    rw [GameController.clickReserveToBase_run s cardId cv hp]
    simp only [Scheduled.run, Callback.run]
    rw [Callback.runReserveCard_other _ _ _ q hqc]
    · show (s.heap.setPosition cv _) q = _
      simp only [Heap.setPosition_apply, hqc, if_false]
    · show q ∉ (StackView.saveCardState s.heap s.reserveStackView cardId).cards
      rw [StackView.saveCardState_cards]
      exact (hapart q hq).1
    · exact (hapart q hq).2

/-! ## The parent of a playfield card never changes -/

theorem GameController.updateViewCard_parent (h : Heap) (c q : Nat) :
    ((GameController.updateViewCard h c) q).parent = (h q).parent := by
  by_cases e : q = c <;> by_cases h1 : (h c).opacity = 0 <;>
    by_cases h2 : (h c).visible = false <;> by_cases h3 : (h c).localZOrder < 0 <;>
    simp [GameController.updateViewCard, e, h1, h2, h3, CardView.withVisible,
      CardView.withLocalZOrder]

theorem GameController.finalCheckCard_parent (h : Heap) (c q : Nat) :
    ((GameController.finalCheckCard h c) q).parent = (h q).parent := by
  by_cases e : q = c <;> by_cases h1 : (h c).opacity = 0 <;>
    by_cases h2 : (h c).visible = false <;> by_cases h3 : (h c).localZOrder < 0 <;>
    simp [GameController.finalCheckCard, e, h1, h2, h3, CardView.withVisible,
      CardView.withLocalZOrder, CardView.withOpacity]

theorem GameController.foldl_updateViewCard_parent (l : List Nat) :
    ∀ (h : Heap) (q : Nat),
      ((l.foldl GameController.updateViewCard h) q).parent = (h q).parent := by
  induction l with
  | nil => intro h q; rfl
  | cons a t ih =>
    intro h q
    rw [List.foldl_cons, ih, GameController.updateViewCard_parent]

theorem GameController.foldl_finalCheckCard_parent (l : List Nat) :
    ∀ (h : Heap) (q : Nat),
      ((l.foldl GameController.finalCheckCard h) q).parent = (h q).parent := by
  induction l with
  | nil => intro h q; rfl
  | cons a t ih =>
    intro h q
    rw [List.foldl_cons, ih, GameController.finalCheckCard_parent]

theorem PlayfieldView.restoreCardState_parent (h : Heap) (v : PlayfieldView) (cardId : Int)
    (q : Nat) : ((PlayfieldView.restoreCardState h v cardId) q).parent = (h q).parent := by
  unfold PlayfieldView.restoreCardState
  cases v.cardStates cardId with
  | none => rfl
  | some info =>
    cases PlayfieldView.findCardById h v cardId with
    | none => rfl
    | some card =>
      by_cases e : q = card <;>
        simp [e, CardView.withVisible, CardView.withLocalZOrder, CardView.withPosition]

theorem Callback.runUndoReserveToBase_parent (x : GameState) (cardView q : Nat)
    (hqc : q ≠ cardView) (hqr : q ∉ x.reserveStackView.cards)
    (hqb : q ∉ x.baseStackView.cards) :
    ((Callback.runUndoReserveToBase x cardView).heap q).parent = (x.heap q).parent := by
  unfold Callback.runUndoReserveToBase
  show ((x.playfieldView.cards.foldl GameController.updateViewCard _) q).parent = _
  rw [GameController.foldl_updateViewCard_parent]
  show ((StackView.layoutCards (StackView.layoutCards
      (StackView.addCard ParentNode.reserveStack
        (StackView.removeCard x.heap x.baseStackView (some cardView)).1 x.reserveStackView
        (some cardView)).1 _) _) q).parent = _
  rw [StackView.layoutCards_other, StackView.layoutCards_other,
    StackView.addCard_other _ _ _ _ _ hqc hqr, StackView.removeCard_other _ _ _ _ hqc hqb]
  · rw [StackView.removeCard_cards]
    exact fun hm => hqb (List.mem_of_mem_erase hm)
  · rw [StackView.addCard_cards]
    simp [hqr, hqc]

theorem Callback.runUndoReorderBase_parent (x : GameState) (cardView q : Nat)
    (hqs : q ∉ x.baseStackSnapshot) :
    ((Callback.runUndoReorderBase x cardView).heap q).parent = (x.heap q).parent := by
  unfold Callback.runUndoReorderBase
  show ((_ : List Nat).foldl GameController.updateViewCard _ q).parent = _
  rw [GameController.foldl_updateViewCard_parent]
  cases hsn : x.baseStackSnapshot with
  | nil => rfl
  | cons a t =>
    simp only [List.isEmpty_cons, Bool.false_eq_true, if_false, GameView.showUndoButton,
      GameController.restoreBaseStackOrder]
    show ((StackView.layoutCards x.heap _) q).parent = _
    rw [StackView.layoutCards_other]
    show q ∉ a :: t
    rw [← hsn]
    exact hqs

theorem GameController.undoPlayfieldToBase_parent (x : GameState) (r : UndoRecord) (q : Nat)
    (hqb : q ∉ x.baseStackView.cards) :
    ((GameController.undoPlayfieldToBase x r).heap q).parent = (x.heap q).parent := by
  have hrestore : ∀ (h : Heap) (v : PlayfieldView),
      ((match v.cards.find? (fun card => decide ((h card).cardId = r.cardId)) with
        | some originalCard =>
          PlayfieldView.restoreCardState
            (((h.setVisible originalCard true).setOpacity originalCard 255).setPosition
              originalCard r.originalPos) v r.cardId
        | none => h) q).parent = (h q).parent := by
    intro h v
    cases v.cards.find? (fun card => decide ((h card).cardId = r.cardId)) with
    | none => rfl
    | some c =>
      simp only []
      rw [PlayfieldView.restoreCardState_parent]
      by_cases e : q = c
      · subst e
        simp [CardView.withVisible, CardView.withOpacity, CardView.withPosition]
      · simp [e]
  unfold GameController.undoPlayfieldToBase
  show ((_ : List Nat).foldl GameController.updateViewCard _ q).parent = _
  rw [GameController.foldl_updateViewCard_parent]
  cases hfo : GameController.findCardViewById x.heap r.cardId x.baseStackView.cards with
  | none =>
    simp only [GameView.showUndoButton]
    show ((StackView.layoutCards _ _) q).parent = _
    rw [StackView.layoutCards_other _ _ _ hqb]
    exact hrestore _ _
  | some o =>
    simp only [GameView.showUndoButton, StackView.removeCard_snd]
    show ((StackView.layoutCards _ _) q).parent = _
    rw [StackView.layoutCards_other _ _ _ (fun hm => hqb (List.mem_of_mem_erase hm))]
    refine (hrestore _ _).trans ?_
    have ho := (GameController.findCardViewById_some hfo).1
    rw [StackView.removeCard_other _ _ _ _ (fun e => hqb (by rw [e]; exact ho)) hqb]

/-- An undo request never changes the parent of a playfield card. -/
theorem GameState.undoRequest_playfield_parent (s : GameState) (hp : s.pending = [])
    (hapart : ∀ q ∈ s.playfieldView.cards, q ∉ s.reserveStackView.cards ∧
      q ∉ s.baseStackView.cards ∧ q ∉ s.baseStackSnapshot) :
    ∀ q ∈ s.playfieldView.cards, (s.undoRequest.heap q).parent = (s.heap q).parent := by
  cases hs : s.undoStack with
  | nil =>
    unfold GameState.undoRequest
    rw [GameController.onUndoClicked_nil s hs, GameState.runPending_nil s hp]
    exact fun _ _ => rfl
  | cons r rest =>
    unfold GameState.undoRequest
    rw [GameController.onUndoClicked_cons_any s r rest hs]
    obtain ⟨o, ho⟩ : ∃ o, (if r.originalParent = 0 ∨ r.originalParent = 1 ∨
        r.originalParent = 2 then
          GameController.findCardViewById s.heap r.cardId s.baseStackView.cards
        else none) = o := ⟨_, rfl⟩
    rw [ho]
    cases o with
    | none =>
      simp only []
      rw [GameState.runPending_nil _ (by simpa [GameView.showUndoButton] using hp)]
      exact fun _ _ => rfl
    | some cv =>
      have hfind : GameController.findCardViewById s.heap r.cardId s.baseStackView.cards
          = some cv := by
        split_ifs at ho
        · exact ho
      obtain ⟨hcvm, _⟩ := GameController.findCardViewById_some hfind
      simp only []
      cases hmt : r.moveType with
      | RESERVE_TO_BASE =>
        simp only []
        rw [GameController.undoReserveToBase_run { s with undoStack := rest } cv r.originalPos hp]
        intro q hq
        have hqc : q ≠ cv := fun e => (hapart q hq).2.1 (e ▸ hcvm)
        rw [Callback.runUndoReserveToBase_parent _ cv q hqc]
        · show (((s.playfieldView.cards.foldl GameController.finalCheckCard
              s.heap).setPosition cv r.originalPos) q).parent = _
          simp only [Heap.setPosition_apply, hqc, if_false]
          exact GameController.foldl_finalCheckCard_parent _ _ _
        · exact (hapart q hq).1
        · exact (hapart q hq).2.1
      | REORDER_BASE =>
        simp only []
        rw [GameController.undoReorderBase_run { s with undoStack := rest } cv hp]
        intro q hq
        show ((_ : List Nat).foldl GameController.finalCheckCard _ q).parent = _
        rw [GameController.foldl_finalCheckCard_parent,
          Callback.runUndoReorderBase_parent _ cv q]
        exact (hapart q hq).2.2
      | PLAYFIELD_TO_BASE =>
        simp only []
        obtain ⟨_, _, _, _, _, _, f7, _⟩ := GameController.undoPlayfieldToBase_general
          { s with undoStack := rest } r hp
        rw [GameState.runPending_single _ ⟨none, 200, none, Callback.finalPlayfieldCheck⟩
          (by simp [GameController.scheduleFinalCheck, f7])]
        intro q hq
        show ((_ : List Nat).foldl GameController.finalCheckCard _ q).parent = _
        rw [GameController.foldl_finalCheckCard_parent]
        exact GameController.undoPlayfieldToBase_parent _ r q (hapart q hq).2.1

theorem PlayfieldView.playfield_addCard_parent (h : Heap) (v : PlayfieldView) (c : Nat) :
    ((PlayfieldView.addCard h v (some c)).1 c).parent = ParentNode.playfield := by
  simp only [PlayfieldView.addCard]
  split_ifs <;>
    simp [CardView.withParent, CardView.withLocalZOrder, CardView.withVisible,
      CardView.withOpacity, CardView.withPosition]

theorem GameView.initPlayfieldCards_parent (cfgs : List CardConfig) :
    ∀ (s : GameState) (i : Nat), s.Dealt →
      (∀ q ∈ s.playfieldView.cards, (s.heap q).parent = ParentNode.playfield) →
      ∀ q ∈ (GameView.initPlayfieldCards s cfgs i).playfieldView.cards,
        ((GameView.initPlayfieldCards s cfgs i).heap q).parent = ParentNode.playfield := by
  induction cfgs with
  | nil => intro s i _ hl; exact hl
  | cons cardCfg rest ih =>
    intro s i hd hl
    have hd1 := GameView.initPlayfieldCards_dealt [cardCfg] s i hd
    simp only [GameView.initPlayfieldCards] at hd1 ⊢
    apply ih _ _ hd1
    obtain ⟨c1, _, _, _, c5, c6, _, _, _, _, _⟩ := GameView.createCard_facts s cardCfg
    intro q hq
    show ((PlayfieldView.addCard
      (((GameView.createCard s cardCfg).2.heap.setPosition (GameView.createCard s cardCfg).1
        cardCfg.position).setLocalZOrder (GameView.createCard s cardCfg).1 (i : Int))
      (GameView.createCard s cardCfg).2.playfieldView
      (some (GameView.createCard s cardCfg).1)).1 q).parent = _
    have hq2 : q ∈ (PlayfieldView.addCard
      (((GameView.createCard s cardCfg).2.heap.setPosition (GameView.createCard s cardCfg).1
        cardCfg.position).setLocalZOrder (GameView.createCard s cardCfg).1 (i : Int))
      (GameView.createCard s cardCfg).2.playfieldView
      (some (GameView.createCard s cardCfg).1)).2.cards := hq
    rw [PlayfieldView.playfield_addCard_cards, c6, c1] at hq2
    rw [c1]
    rcases List.mem_append.mp hq2 with hm | hm
    · have hne : q ≠ s.nextPtr := Nat.ne_of_lt (hd.bound q (by simp [hm]))
      rw [PlayfieldView.playfield_addCard_other _ _ _ _ hne]
      simp only [Heap.setLocalZOrder_apply, Heap.setPosition_apply, hne, if_false]
      rw [c5 q hne]
      exact hl q hm
    · rw [List.mem_singleton.mp hm]
      exact PlayfieldView.playfield_addCard_parent _ _ _

theorem GameView.initReserveCards_parent (cfgs : List CardConfig) :
    ∀ (s : GameState), s.Dealt →
      (∀ q ∈ s.playfieldView.cards, (s.heap q).parent = ParentNode.playfield) →
      ∀ q ∈ (GameView.initReserveCards s cfgs).playfieldView.cards,
        ((GameView.initReserveCards s cfgs).heap q).parent = ParentNode.playfield := by
  induction cfgs with
  | nil => intro s _ hl; exact hl
  | cons cardCfg rest ih =>
    intro s hd hl
    have hd1 := GameView.initReserveCards_dealt [cardCfg] s hd
    simp only [GameView.initReserveCards] at hd1 ⊢
    apply ih _ hd1
    obtain ⟨c1, _, _, _, c5, c6, c7, _, _, _, _⟩ := GameView.createCard_facts s cardCfg
    have hnd := hd.nodup
    rw [List.append_assoc, List.nodup_append] at hnd
    obtain ⟨_, _, hdisj⟩ := hnd
    intro q hq
    have hq2 : q ∈ (GameView.createCard s cardCfg).2.playfieldView.cards := hq
    rw [c6] at hq2
    have hne : q ≠ s.nextPtr := Nat.ne_of_lt (hd.bound q (by simp [hq2]))
    show ((StackView.addCard ParentNode.reserveStack
      ((GameView.createCard s cardCfg).2.heap.setPosition (GameView.createCard s cardCfg).1
        cardCfg.position)
      (GameView.createCard s cardCfg).2.reserveStackView
      (some (GameView.createCard s cardCfg).1)).1 q).parent = _
    rw [c1, c7, StackView.addCard_other _ _ _ _ _ hne
      (fun hm => hdisj hq2 (List.mem_append_left _ hm))]
    simp only [Heap.setPosition_apply, hne, if_false]
    rw [c5 q hne]
    exact hl q hq2

theorem GameView.initBaseCards_parent (cfgs : List CardConfig) :
    ∀ (s : GameState), s.Dealt →
      (∀ q ∈ s.playfieldView.cards, (s.heap q).parent = ParentNode.playfield) →
      ∀ q ∈ (GameView.initBaseCards s cfgs).playfieldView.cards,
        ((GameView.initBaseCards s cfgs).heap q).parent = ParentNode.playfield := by
  induction cfgs with
  | nil => intro s _ hl; exact hl
  | cons cardCfg rest ih =>
    intro s hd hl
    have hd1 := GameView.initBaseCards_dealt [cardCfg] s hd
    simp only [GameView.initBaseCards] at hd1 ⊢
    apply ih _ hd1
    obtain ⟨c1, _, _, _, c5, c6, _, c8, _, _, _⟩ := GameView.createCard_facts s cardCfg
    have hnd := hd.nodup
    rw [List.append_assoc, List.nodup_append] at hnd
    obtain ⟨_, _, hdisj⟩ := hnd
    intro q hq
    have hq2 : q ∈ (GameView.createCard s cardCfg).2.playfieldView.cards := hq
    rw [c6] at hq2
    have hne : q ≠ s.nextPtr := Nat.ne_of_lt (hd.bound q (by simp [hq2]))
    show ((StackView.addCard ParentNode.baseStack
      (GameView.createCard s cardCfg).2.heap
      (GameView.createCard s cardCfg).2.baseStackView
      (some (GameView.createCard s cardCfg).1)).1 q).parent = _
    rw [c1, c8, StackView.addCard_other _ _ _ _ _ hne
      (fun hm => hdisj hq2 (List.mem_append_right _ hm)), c5 q hne]
    exact hl q hq2

/-- Every member of the playfield sequence of a reachable state is a child of
the playfield node. -/
theorem GameState.Reachable.playfieldParent {s : GameState} (hr : s.Reachable) :
    ∀ q ∈ s.playfieldView.cards, (s.heap q).parent = ParentNode.playfield := by
  induction hr with
  | init level =>
    have h0 : (GameController.startGame GameState.blank level).Dealt := by
      refine ⟨rfl, rfl, rfl, rfl, ?_, ?_, ?_⟩
      · intro q hq
        exact absurd hq (List.not_mem_nil q)
      · intro q hq
        exact absurd hq (List.not_mem_nil q)
      · exact List.nodup_nil
    have h1 := GameView.initPlayfieldCards_dealt level.playfieldCards _ 0 h0
    have h2 := GameView.initReserveCards_dealt level.stackCards _ h1
    exact GameView.initBaseCards_parent level.baseCards _ h2
      (GameView.initReserveCards_parent level.stackCards _ h1
        (GameView.initPlayfieldCards_parent level.playfieldCards _ 0 h0
          (fun q hq => absurd hq (List.not_mem_nil q))))
  | click s cardId hs ih =>
    have hi := hs.invariant
    have hl := hs.layered
    obtain ⟨_, e2, _⟩ := s.click_effect cardId hi.settled (fun q hq => hi.bound q (by tauto))
    intro q hq
    rw [e2] at hq
    rcases s.click_playfield_card cardId hi.settled (fun q hq => hi.bound q (by tauto))
      (fun q hq => ⟨(hl.apart q hq).1, (hl.apart q hq).2.1⟩) q hq with e | e
    · rw [e]
      exact ih q hq
    · rw [e]
      exact ih q hq
  | undoRequest s hs ih =>
    have hi := hs.invariant
    have hl := hs.layered
    intro q hq
    have hq2 : q ∈ s.playfieldView.cards := by
      rcases s.undoRequest_effect hi.settled with ⟨_, h⟩ | ⟨r, rest, _, _, _, e3, _⟩
      · rwa [h] at hq
      · rwa [e3] at hq
    rw [s.undoRequest_playfield_parent hi.settled hl.apart q hq2]
    exact ih q hq2

/-- The playfield members of a reachable state bear pairwise distinct ids. -/
theorem GameState.Reachable.playfieldIds {s : GameState} (hr : s.Reachable) :
    (s.playfieldView.cards.map (fun p => (s.heap p).cardId)).Nodup := by
  induction hr with
  | init level =>
    have hd := GameView.init_dealt level
    have hnd := hd.nodup
    rw [List.append_assoc, List.nodup_append] at hnd
    have e : (GameView.init level).playfieldView.cards.map
        (fun p => ((GameView.init level).heap p).cardId) =
        List.map (Nat.cast : Nat → Int) (GameView.init level).playfieldView.cards :=
      List.map_congr_left (fun p hp => hd.ids p (by simp [hp]))
    rw [e]
    exact hnd.1.map (fun a b hab => by exact_mod_cast hab)
  | click s cardId hs ih =>
    have hi := hs.invariant
    obtain ⟨_, e2, _, e4, _⟩ := s.click_effect cardId hi.settled
      (fun q hq => hi.bound q (by tauto))
    rw [e2]
    have e : s.playfieldView.cards.map (fun p => ((s.click cardId).heap p).cardId) =
        s.playfieldView.cards.map (fun p => (s.heap p).cardId) :=
      List.map_congr_left (fun p hp => e4 p (hi.bound p (Or.inl hp)))
    rw [e]
    exact ih
  | undoRequest s hs ih =>
    have hi := hs.invariant
    rcases s.undoRequest_effect hi.settled with ⟨_, h⟩ | ⟨r, rest, _, _, _, e3, _, _, e6, _⟩
    · rw [h]
      exact ih
    · rw [e3]
      have e : s.playfieldView.cards.map (fun p => (s.undoRequest.heap p).cardId) =
          s.playfieldView.cards.map (fun p => (s.heap p).cardId) :=
        List.map_congr_left (fun p _ => e6 p)
      rw [e]
      exact ih

/-! ## Clicks that change nothing -/

/-- A click on the id of a playfield card that `isCardCovered` reports as
covered returns at the first check. -/
theorem GameController.onCardClicked_covered (s : GameState) (cardId : Int) (cardView : Nat)
    (hpf : GameController.findCardViewById s.heap cardId s.playfieldView.cards
      = some cardView)
    (hcov : PlayfieldView.isCardCovered s.heap s.playfieldView (some cardView) = true) :
    GameController.onCardClicked s cardId = s := by
  unfold GameController.onCardClicked
  simp [hpf, hcov]

/-- A click on the id of a playfield card when the base stack is empty, or its
top card does not match, changes nothing. -/
theorem GameController.onCardClicked_rejected (s : GameState) (cardId : Int)
    (cardView : Nat)
    (hpf : GameController.findCardViewById s.heap cardId s.playfieldView.cards
      = some cardView)
    (hrej : ∀ t, s.baseStackView.getTopCard = some t →
      GameController.canMatchCards (s.heap cardView).cardFace (s.heap t).cardFace = false) :
    GameController.onCardClicked s cardId = s := by
  unfold GameController.onCardClicked
  rw [hpf]
  simp only []
  by_cases c1 : PlayfieldView.isCardCovered s.heap s.playfieldView (some cardView) = true
  · rw [if_pos c1]
  rw [if_neg c1]
  by_cases c2 : (GameController.getClickablePlayfieldCards s.heap s.playfieldView).any
      (fun card => decide ((s.heap card).cardId = cardId)) = false
  · rw [if_pos c2]
  rw [if_neg c2]
  unfold GameController.clickDispatch
  by_cases c3 : GameController.manualCoverageCheck s.heap s.playfieldView cardView = true
  · simp [c3]
  simp only [c1, c3, or_self, and_false, if_false, Bool.false_eq_true, false_and, if_true]
  cases htop : s.baseStackView.getTopCard with
  | none => rfl
  | some t =>
    simp only [hrej t htop, Bool.false_eq_true, if_false]

/-- A click on an id that no member of any zone bears changes nothing. -/
theorem GameController.onCardClicked_unknown (s : GameState) (cardId : Int)
    (hpf : GameController.findCardViewById s.heap cardId s.playfieldView.cards = none)
    (hrs : GameController.findCardViewById s.heap cardId s.reserveStackView.cards = none)
    (hbs : GameController.findCardViewById s.heap cardId s.baseStackView.cards = none) :
    GameController.onCardClicked s cardId = s := by
  unfold GameController.onCardClicked
  simp [hpf, hrs, hbs]

/-- A click that the lookup resolves to a reserve card other than the reserve
top changes nothing. -/
theorem GameController.onCardClicked_reserve_notTop (s : GameState) (cardId : Int)
    (cardView : Nat)
    (hpf : GameController.findCardViewById s.heap cardId s.playfieldView.cards = none)
    (hrs : GameController.findCardViewById s.heap cardId s.reserveStackView.cards
      = some cardView)
    (hnot : some cardView ≠ s.reserveStackView.getTopCard) :
    GameController.onCardClicked s cardId = s := by
  unfold GameController.onCardClicked
  simp [hpf, hrs, GameController.clickDispatch, hnot]

/-- A click that the lookup resolves to the top card of the base stack changes
nothing. -/
theorem GameController.onCardClicked_baseTop (s : GameState) (cardId : Int)
    (cardView : Nat)
    (hpf : GameController.findCardViewById s.heap cardId s.playfieldView.cards = none)
    (hrs : GameController.findCardViewById s.heap cardId s.reserveStackView.cards = none)
    (hbs : GameController.findCardViewById s.heap cardId s.baseStackView.cards
      = some cardView)
    (htop : s.baseStackView.getTopCard = some cardView) :
    GameController.onCardClicked s cardId = s := by
  unfold GameController.onCardClicked
  simp [hpf, hrs, hbs, GameController.clickDispatch, htop]

/-- When the handler changes nothing and nothing is scheduled, the click
changes nothing. -/
theorem GameState.click_eq_self (s : GameState) (cardId : Int) (hp : s.pending = [])
    (h : GameController.onCardClicked s cardId = s) : s.click cardId = s := by
  unfold GameState.click
  rw [h, GameState.runPending_nil s hp]

theorem GameController.findCardViewById_eq_none {h : Heap} {cardId : Int} {cards : List Nat}
    (hall : ∀ c ∈ cards, (h c).cardId ≠ cardId) :
    GameController.findCardViewById h cardId cards = none := by
  unfold GameController.findCardViewById
  rw [List.find?_eq_none]
  intro c hc
  simpa using hall c hc

/-! ## Zone membership of ids -/

/-- C11, as stated, fails: after `4♦` (id 0) was played onto the base in
`levelScenario1`, its id is borne by the hidden original, still a member of
the playfield, and by the overlay card (address 3), a member of the base.
And in `levelDrawReorder`, after reorder, draw, reorder and three undo
requests, the card `7♠` (address 0) is a member of the reserve and of the
base at once. -/
theorem played_card_id_in_two_zones :
    ((GameView.init levelScenario1).click 0).playfieldView.cards = [0] ∧
    ((GameView.init levelScenario1).click 0).baseStackView.cards = [2, 3] ∧
    (((GameView.init levelScenario1).click 0).heap 0).cardId = 0 ∧
    (((GameView.init levelScenario1).click 0).heap 3).cardId = 0 ∧
    (((((((GameView.init levelDrawReorder).click 1).click 0).click 2).undoRequest
      ).undoRequest).undoRequest).reserveStackView.cards = [0] ∧
    (((((((GameView.init levelDrawReorder).click 1).click 0).click 2).undoRequest
      ).undoRequest).undoRequest).baseStackView.cards = [2, 1, 0] := by
  decide

/-- C11 (amended): in the state built by `GameView::init` from any level, the
members of the three zones bear pairwise distinct ids, so every id is in
exactly one zone; and in every reachable state no two playfield members share
an id, no two reserve members share an id, and no id is borne by both a
reserve member and a playfield member. -/
theorem zone_ids_exclusive :
    (∀ level : LevelConfig,
      (((GameView.init level).playfieldView.cards ++
          (GameView.init level).reserveStackView.cards ++
          (GameView.init level).baseStackView.cards).map
        (fun p => ((GameView.init level).heap p).cardId)).Nodup) ∧
    (∀ s : GameState, s.Reachable →
      (s.playfieldView.cards.map (fun p => (s.heap p).cardId)).Nodup ∧
      (s.reserveStackView.cards.map (fun p => (s.heap p).cardId)).Nodup ∧
      (∀ p ∈ s.reserveStackView.cards, ∀ q ∈ s.playfieldView.cards,
        (s.heap p).cardId ≠ (s.heap q).cardId)) := by
  constructor
  · intro level
    have hd := GameView.init_dealt level
    have e : ((GameView.init level).playfieldView.cards ++
          (GameView.init level).reserveStackView.cards ++
          (GameView.init level).baseStackView.cards).map
        (fun p => ((GameView.init level).heap p).cardId) =
        List.map (Nat.cast : Nat → Int) ((GameView.init level).playfieldView.cards ++
          (GameView.init level).reserveStackView.cards ++
          (GameView.init level).baseStackView.cards) :=
      List.map_congr_left (fun p hp => hd.ids p hp)
    rw [e]
    exact hd.nodup.map (fun a b hab => by exact_mod_cast hab)
  · intro s hr
    exact ⟨hr.playfieldIds, hr.invariant.reserveIds, hr.invariant.reservePlayfield⟩

/-- Witness for C11 (amended): the state after `4♦` was played in
`levelScenario1`. -/
theorem zone_ids_exclusive_witness :
    (((GameView.init levelScenario1).click 0).playfieldView.cards.map
      (fun p => (((GameView.init levelScenario1).click 0).heap p).cardId)).Nodup ∧
    (((GameView.init levelScenario1).click 0).reserveStackView.cards.map
      (fun p => (((GameView.init levelScenario1).click 0).heap p).cardId)).Nodup ∧
    (∀ p ∈ ((GameView.init levelScenario1).click 0).reserveStackView.cards,
      ∀ q ∈ ((GameView.init levelScenario1).click 0).playfieldView.cards,
        (((GameView.init levelScenario1).click 0).heap p).cardId ≠
          (((GameView.init levelScenario1).click 0).heap q).cardId) :=
  zone_ids_exclusive.2 _
    (GameState.Reachable.click _ 0 (GameState.Reachable.init levelScenario1))

/-! ## The edge rule and hidden cards -/

/-- C15: a target card that is visible, has non-zero opacity and is a child of
the playfield node is not covered when every other playfield member that is
visible with non-zero opacity has a z-order less than or equal to the
target's, whatever the positions; in every reachable state this holds for
every member of the playfield sequence. -/
theorem isCardCovered_edge_rule :
    (∀ (h : Heap) (v : PlayfieldView) (target : Nat),
      (h target).visible = true → (h target).opacity ≠ 0 →
      (h target).parent = ParentNode.playfield →
      (∀ o ∈ v.cards, o ≠ target → (h o).visible = true → (h o).opacity ≠ 0 →
        (h o).localZOrder ≤ (h target).localZOrder) →
      PlayfieldView.isCardCovered h v (some target) = false) ∧
    (∀ (s : GameState) (target : Nat), s.Reachable → target ∈ s.playfieldView.cards →
      (s.heap target).visible = true → (s.heap target).opacity ≠ 0 →
      (∀ o ∈ s.playfieldView.cards, o ≠ target → (s.heap o).visible = true →
        (s.heap o).opacity ≠ 0 → (s.heap o).localZOrder ≤ (s.heap target).localZOrder) →
      PlayfieldView.isCardCovered s.heap s.playfieldView (some target) = false) :=
  ⟨fun h v target hvis hop hpar hz =>
      PlayfieldView.isCardCovered_false_of_zOrder h v target hvis hop hpar hz,
    fun s target hr hm hvis hop hz =>
      PlayfieldView.isCardCovered_false_of_zOrder s.heap s.playfieldView target hvis hop
        (hr.playfieldParent target hm) hz⟩

/-- Witness for C15: `9♦`, the highest card of `levelCovered`, overlaps `4♦`
and is not covered. -/
theorem isCardCovered_edge_rule_witness :
    PlayfieldView.isCardCovered (GameView.init levelCovered).heap
      (GameView.init levelCovered).playfieldView (some 1) = false :=
  isCardCovered_edge_rule.2 (GameView.init levelCovered) 1
    (GameState.Reachable.init levelCovered) (by decide) (by decide) (by decide) (by decide)

/-- C16: a card that is not visible or has opacity zero is covered; making
another card `D` invisible or of opacity zero never turns `isCardCovered(C)`
from false to true; a card that is not visible or has opacity zero is not in
the clickable list, and so the card hidden by a `PlayfieldToBase` move is not
in the clickable list of the state after the move. -/
theorem hidden_cards_in_occlusion :
    (∀ (h : Heap) (v : PlayfieldView) (C : Nat),
      (h C).visible = false ∨ (h C).opacity = 0 →
      PlayfieldView.isCardCovered h v (some C) = true) ∧
    (∀ (h h2 : Heap) (v : PlayfieldView) (C D : Nat), D ≠ C →
      (∀ q, q ≠ D → h2 q = h q) → ((h2 D).visible = false ∨ (h2 D).opacity = 0) →
      PlayfieldView.isCardCovered h v (some C) = false →
      PlayfieldView.isCardCovered h2 v (some C) = false) ∧
    (∀ (h : Heap) (v : PlayfieldView) (C : Nat),
      (h C).visible = false ∨ (h C).opacity = 0 →
      C ∉ GameController.getClickablePlayfieldCards h v) ∧
    (∀ (s : GameState) (cardId : Int) (cardView topCard : Nat), s.Reachable →
      GameController.findCardViewById s.heap cardId s.playfieldView.cards = some cardView →
      cardView ∈ GameController.getClickablePlayfieldCards s.heap s.playfieldView →
      s.baseStackView.getTopCard = some topCard →
      GameController.canMatchCards (s.heap cardView).cardFace (s.heap topCard).cardFace
        = true →
      cardView ∉ GameController.getClickablePlayfieldCards (s.click cardId).heap
        (s.click cardId).playfieldView) := by
  refine ⟨fun h v C hh => (GameController.hidden_not_clickable h v C hh).1,
    fun h h2 v C D hne hs hh hc =>
      PlayfieldView.isCardCovered_false_of_hide h h2 v C D hne hs hh hc,
    fun h v C hh => (GameController.hidden_not_clickable h v C hh).2, ?_⟩
  intro s cardId cardView topCard hr hfound hclick htop hmatch
  have hmove := playfieldToBase_move_of s cardId cardView topCard hr.invariant.settled
    (fun q hq => hr.invariant.bound q (by tauto)) hfound hclick htop hmatch
  exact (GameController.hidden_not_clickable _ _ cardView (Or.inl hmove.2.2.1)).2

/-- Witness for C16: in `levelScenario1`, `4♦` is not clickable after it was
played onto the base; and in `levelCovered`, hiding `4♦` leaves `9♦`
uncovered. -/
theorem hidden_cards_in_occlusion_witness :
    0 ∉ GameController.getClickablePlayfieldCards
        ((GameView.init levelScenario1).click 0).heap
        ((GameView.init levelScenario1).click 0).playfieldView ∧
    PlayfieldView.isCardCovered ((GameView.init levelCovered).heap.setVisible 0 false)
        (GameView.init levelCovered).playfieldView (some 1) = false :=
  ⟨hidden_cards_in_occlusion.2.2.2 (GameView.init levelScenario1) 0 0 2
      (GameState.Reachable.init levelScenario1) (by decide) (by decide) (by decide)
      (by decide),
    hidden_cards_in_occlusion.2.1 (GameView.init levelCovered).heap _
      (GameView.init levelCovered).playfieldView 1 0 (by decide)
      (fun q hq => by simp [hq]) (Or.inl (by simp [CardView.withVisible])) (by decide)⟩

/-! ## Clicks without effect -/

/-- C17: in every reachable state, a click on the id of a playfield member for
which `isCardCovered` is true changes nothing: the handler returns the state
it was given (zone sequences, every card, ledger), and so does the click run
to completion. -/
theorem covered_click_is_noop (s : GameState) (C : Nat) (hr : s.Reachable)
    (hm : C ∈ s.playfieldView.cards)
    (hcov : PlayfieldView.isCardCovered s.heap s.playfieldView (some C) = true) :
    GameController.onCardClicked s (s.heap C).cardId = s ∧
    s.click (s.heap C).cardId = s := by
  have hfound := GameController.findCardViewById_of_nodup s.heap s.playfieldView.cards C
    hr.playfieldIds hm
  have h := GameController.onCardClicked_covered s _ C hfound hcov
  exact ⟨h, s.click_eq_self _ hr.invariant.settled h⟩

/-- Witness for C17: `4♦`, covered by `9♦` in `levelCovered`. -/
theorem covered_click_is_noop_witness :
    GameController.onCardClicked (GameView.init levelCovered)
        ((GameView.init levelCovered).heap 0).cardId = GameView.init levelCovered ∧
    (GameView.init levelCovered).click ((GameView.init levelCovered).heap 0).cardId
      = GameView.init levelCovered :=
  covered_click_is_noop (GameView.init levelCovered) 0
    (GameState.Reachable.init levelCovered) (by decide) (by decide)

/-- C18: in every reachable state, a click on the id of a playfield member
(covered or not) when the base stack is empty, or when `canMatchCards` is
false for the card's rank and the rank of the base top, changes nothing: the
handler returns the state it was given, and so does the click run to
completion. -/
theorem rejected_match_is_noop (s : GameState) (C : Nat) (hr : s.Reachable)
    (hm : C ∈ s.playfieldView.cards)
    (hrej : s.baseStackView.cards = [] ∨
      ∃ t, s.baseStackView.getTopCard = some t ∧
        GameController.canMatchCards (s.heap C).cardFace (s.heap t).cardFace = false) :
    GameController.onCardClicked s (s.heap C).cardId = s ∧
    s.click (s.heap C).cardId = s := by
  have hfound := GameController.findCardViewById_of_nodup s.heap s.playfieldView.cards C
    hr.playfieldIds hm
  have h : GameController.onCardClicked s (s.heap C).cardId = s := by
    apply GameController.onCardClicked_rejected s _ C hfound
    intro t ht
    rcases hrej with e | ⟨t2, ht2, hno⟩
    · unfold StackView.getTopCard at ht
      rw [e] at ht
      cases ht
    · rw [ht] at ht2
      cases ht2
      exact hno
  exact ⟨h, s.click_eq_self _ hr.invariant.settled h⟩

/-- Witness for C18: `9♦` clicked on base top `5♣` in `levelMargin`. -/
theorem rejected_match_is_noop_witness :
    GameController.onCardClicked (GameView.init levelMargin)
        ((GameView.init levelMargin).heap 1).cardId = GameView.init levelMargin ∧
    (GameView.init levelMargin).click ((GameView.init levelMargin).heap 1).cardId
      = GameView.init levelMargin :=
  rejected_match_is_noop (GameView.init levelMargin) 1
    (GameState.Reachable.init levelMargin) (by decide) (Or.inr ⟨2, by decide, by decide⟩)

/-- C19: for every state and every id that no member of the playfield, the
reserve or the base bears, `onCardClicked` returns the state it was given:
no zone sequence, no card and not the ledger is changed; when nothing is
scheduled the click run to completion changes nothing either. -/
theorem unknown_id_click_is_noop (s : GameState) (cardId : Int)
    (hpf : ∀ q ∈ s.playfieldView.cards, (s.heap q).cardId ≠ cardId)
    (hrs : ∀ q ∈ s.reserveStackView.cards, (s.heap q).cardId ≠ cardId)
    (hbs : ∀ q ∈ s.baseStackView.cards, (s.heap q).cardId ≠ cardId) :
    GameController.onCardClicked s cardId = s ∧
    (s.pending = [] → s.click cardId = s) := by
  have h := GameController.onCardClicked_unknown s cardId
    (GameController.findCardViewById_eq_none hpf)
    (GameController.findCardViewById_eq_none hrs)
    (GameController.findCardViewById_eq_none hbs)
  exact ⟨h, fun hp => s.click_eq_self cardId hp h⟩

/-- Witness for C19: id 7 in `levelScenario1`, whose cards bear ids 0, 1, 2. -/
theorem unknown_id_click_is_noop_witness :
    GameController.onCardClicked (GameView.init levelScenario1) 7
      = GameView.init levelScenario1 ∧
    (GameView.init levelScenario1).click 7 = GameView.init levelScenario1 :=
  have h := unknown_id_click_is_noop (GameView.init levelScenario1) 7
    (by decide) (by decide) (by decide)
  ⟨h.1, h.2 (by decide)⟩

/-- In every reachable state, a click on the id of a reserve member that is
not the reserve top changes nothing. -/
theorem GameState.Reachable.click_reserve_notTop {s : GameState} (hr : s.Reachable)
    (R : Nat) (hm : R ∈ s.reserveStackView.cards)
    (hnot : some R ≠ s.reserveStackView.getTopCard) :
    GameController.onCardClicked s (s.heap R).cardId = s ∧
    s.click (s.heap R).cardId = s := by
  have hpf : GameController.findCardViewById s.heap (s.heap R).cardId s.playfieldView.cards
      = none :=
    GameController.findCardViewById_eq_none
      (fun q hq e => hr.invariant.reservePlayfield R hm q hq e.symm)
  have hrs := GameController.findCardViewById_of_nodup s.heap s.reserveStackView.cards R
    hr.invariant.reserveIds hm
  have h := GameController.onCardClicked_reserve_notTop s _ R hpf hrs hnot
  exact ⟨h, s.click_eq_self _ hr.invariant.settled h⟩

/-- A click on the id of the base top changes nothing when no reserve member
bears that id and any playfield member bearing it is covered. -/
theorem GameController.click_baseTop_of (s : GameState) (T : Nat) (hp : s.pending = [])
    (htop : s.baseStackView.getTopCard = some T)
    (hpf : ∀ q ∈ s.playfieldView.cards, (s.heap q).cardId = (s.heap T).cardId →
      PlayfieldView.isCardCovered s.heap s.playfieldView (some q) = true)
    (hrs : ∀ q ∈ s.reserveStackView.cards, (s.heap q).cardId ≠ (s.heap T).cardId)
    (hbs : GameController.findCardViewById s.heap (s.heap T).cardId s.baseStackView.cards
      = some T) :
    GameController.onCardClicked s (s.heap T).cardId = s ∧
    s.click (s.heap T).cardId = s := by
  have h : GameController.onCardClicked s (s.heap T).cardId = s := by
    cases hf : GameController.findCardViewById s.heap (s.heap T).cardId
        s.playfieldView.cards with
    | some cv =>
      obtain ⟨hcm, hcid⟩ := GameController.findCardViewById_some hf
      exact GameController.onCardClicked_covered s _ cv hf (hpf cv hcm hcid)
    | none =>
      exact GameController.onCardClicked_baseTop s _ T hf
        (GameController.findCardViewById_eq_none hrs) hbs htop
  exact ⟨h, s.click_eq_self _ hp h⟩

/-- C20: in `levelDrawReorder`, after reorder `3♥`, draw `7♠`, reorder `9♥` and
three undo requests, the ledger is empty, the reserve is `[7♠]` and the base
is `[9♥, 3♥, 7♠]`: the card `7♠` (address 0, id 0) is the base top.  A click
on it draws it from the reserve: the reserve becomes empty, the base becomes
`[9♥, 3♥, 7♠, 7♠]` and a record is pushed. -/
theorem baseTop_click_draws_from_reserve :
    (((((((GameView.init levelDrawReorder).click 1).click 0).click 2).undoRequest
      ).undoRequest).undoRequest).undoStack = [] ∧
    (((((((GameView.init levelDrawReorder).click 1).click 0).click 2).undoRequest
      ).undoRequest).undoRequest).reserveStackView.cards = [0] ∧
    (((((((GameView.init levelDrawReorder).click 1).click 0).click 2).undoRequest
      ).undoRequest).undoRequest).baseStackView.cards = [2, 1, 0] ∧
    (((((((GameView.init levelDrawReorder).click 1).click 0).click 2).undoRequest
      ).undoRequest).undoRequest).baseStackView.getTopCard = some 0 ∧
    ((((((((GameView.init levelDrawReorder).click 1).click 0).click 2).undoRequest
      ).undoRequest).undoRequest).heap 0).cardId = 0 ∧
    ((((((((GameView.init levelDrawReorder).click 1).click 0).click 2).undoRequest
      ).undoRequest).undoRequest).click 0).reserveStackView.cards = [] ∧
    ((((((((GameView.init levelDrawReorder).click 1).click 0).click 2).undoRequest
      ).undoRequest).undoRequest).click 0).baseStackView.cards = [2, 1, 0, 0] ∧
    ((((((((GameView.init levelDrawReorder).click 1).click 0).click 2).undoRequest
      ).undoRequest).undoRequest).click 0).undoStack.length = 1 := by
  decide

/-- The overlay card stays deaf to clicks after the stack has been laid out
again: in `levelScenario1`, after `4♦` was played, `7♠` drawn and `5♣` moved
to the top, the base is `[4♦ overlay, 7♠, 5♣]` at `(0, 0)`, `(25, 0)`,
`(50, 0)`; a click on the overlay's id changes neither the base nor the
ledger, and an undo request after it reverts the reorder of `5♣`. -/
theorem GameController.overlay_click_ignored_after_layout :
    ((((GameView.init levelScenario1).click 0).click 1).click 2).baseStackView.cards
      = [3, 1, 2] ∧
    (((((GameView.init levelScenario1).click 0).click 1).click 2).heap 3).position
      = ⟨0, 0⟩ ∧
    (((((GameView.init levelScenario1).click 0).click 1).click 2).heap 1).position
      = ⟨25, 0⟩ ∧
    (((((GameView.init levelScenario1).click 0).click 1).click 2).click 0
      ).baseStackView.cards = [3, 1, 2] ∧
    (((((GameView.init levelScenario1).click 0).click 1).click 2).click 0).undoStack
      = ((((GameView.init levelScenario1).click 0).click 1).click 2).undoStack ∧
    ((((((GameView.init levelScenario1).click 0).click 1).click 2).click 0).undoRequest
      ).baseStackView.cards = [2, 3, 1] := by
  decide

/-! ## The undo ledger -/

theorem UndoManager.canUndo_iff (undoStack : List UndoRecord) :
    UndoManager.canUndo undoStack = true ↔ undoStack ≠ [] := by
  cases undoStack <;> simp [UndoManager.canUndo]

theorem UndoManager.undo_push (undoStack : List UndoRecord) (r : UndoRecord) :
    UndoManager.undo (UndoManager.push undoStack r) = (r, undoStack) := rfl

theorem UndoManager.pushAll_eq (records : List UndoRecord) :
    ∀ undoStack, UndoManager.pushAll undoStack records = records.reverse ++ undoStack := by
  induction records with
  | nil => intro undoStack; rfl
  | cons r rest ih =>
    intro undoStack
    show UndoManager.pushAll (UndoManager.push undoStack r) rest = _
    rw [ih]
    simp [UndoManager.push]

theorem UndoManager.undoTimes_append (records : List UndoRecord) :
    ∀ undoStack, UndoManager.undoTimes records.length (records ++ undoStack)
      = (records, undoStack) := by
  induction records with
  | nil => intro undoStack; rfl
  | cons r rest ih =>
    intro undoStack
    show (r :: (UndoManager.undoTimes rest.length (rest ++ undoStack)).1,
      (UndoManager.undoTimes rest.length (rest ++ undoStack)).2) = _
    rw [ih]

/-- C21: `canUndo()` is true exactly when the ledger is non-empty; `push(r)`
followed by `undo()` returns `r` and leaves the ledger as it was; and after
the records of any list have been pushed, as many calls of `undo()` return
them in reverse order of their pushes and leave the ledger as it was before
the pushes. -/
theorem undoManager_lifo :
    (∀ undoStack : List UndoRecord,
      UndoManager.canUndo undoStack = true ↔ undoStack ≠ []) ∧
    (∀ (undoStack : List UndoRecord) (r : UndoRecord),
      UndoManager.undo (UndoManager.push undoStack r) = (r, undoStack)) ∧
    (∀ (undoStack : List UndoRecord) (r : UndoRecord),
      UndoManager.undo (UndoManager.recordMove undoStack r) = (r, undoStack)) ∧
    (∀ undoStack records : List UndoRecord,
      UndoManager.undoTimes records.length (UndoManager.pushAll undoStack records)
        = (records.reverse, undoStack)) := by
  refine ⟨UndoManager.canUndo_iff, UndoManager.undo_push, UndoManager.undo_push, ?_⟩
  intro undoStack records
  rw [UndoManager.pushAll_eq, ← List.length_reverse records]
  exact UndoManager.undoTimes_append _ _

/-- C22: `undo()` on an empty ledger returns the sentinel record, whose
`cardId` is `-1`, and leaves the ledger empty; `onUndoClicked` on a state with
an empty ledger returns the state it was given (zone sequences, every card,
ledger), and so does the undo request run to completion when nothing is
scheduled. -/
theorem empty_ledger_undo :
    UndoManager.undo [] = (⟨-1, MoveType.RESERVE_TO_BASE, ⟨0, 0⟩, -1, -1⟩, []) ∧
    (UndoManager.undo []).1.cardId = -1 ∧ (UndoManager.undo []).2 = [] ∧
    (∀ s : GameState, s.undoStack = [] → GameController.onUndoClicked s = s) ∧
    (∀ s : GameState, s.undoStack = [] → s.pending = [] → s.undoRequest = s) := by
  refine ⟨rfl, rfl, rfl, fun s hs => GameController.onUndoClicked_nil s hs, ?_⟩
  intro s hs hp
  unfold GameState.undoRequest
  rw [GameController.onUndoClicked_nil s hs, GameState.runPending_nil s hp]

/-- Witness for C22: the state built by `GameView::init` from `levelScenario1`. -/
theorem empty_ledger_undo_witness :
    GameController.onUndoClicked (GameView.init levelScenario1)
      = GameView.init levelScenario1 ∧
    (GameView.init levelScenario1).undoRequest = GameView.init levelScenario1 :=
  ⟨empty_ledger_undo.2.2.2.1 _ (by decide), empty_ledger_undo.2.2.2.2 _ (by decide) (by decide)⟩

/-! ## Ledger size accounting -/

/-- A click is rejected, and the handler returns the state unchanged, or it is
accepted and the handler runs one of the three move branches. -/
theorem GameController.acceptsClick_cases (s : GameState) (cardId : Int) :
    (GameController.acceptsClick s cardId = false ∧
      GameController.onCardClicked s cardId = s) ∨
    (GameController.acceptsClick s cardId = true ∧
      ((∃ cardView, cardView ∈ s.baseStackView.cards ∧
          some cardView ≠ s.baseStackView.getTopCard ∧
          GameController.onCardClicked s cardId =
            GameController.clickReorderBase s cardId cardView) ∨
        (∃ cardView topCard,
          GameController.onCardClicked s cardId =
            GameController.clickPlayfieldToBase s cardId cardView topCard) ∨
        (∃ cardView,
          GameController.onCardClicked s cardId =
            GameController.clickReserveToBase s cardId cardView))) := by
  obtain ⟨opf, hpf⟩ : ∃ o, GameController.findCardViewById s.heap cardId
      s.playfieldView.cards = o := ⟨_, rfl⟩
  obtain ⟨ors, hrs⟩ : ∃ o, GameController.findCardViewById s.heap cardId
      s.reserveStackView.cards = o := ⟨_, rfl⟩
  obtain ⟨obs, hbs⟩ : ∃ o, GameController.findCardViewById s.heap cardId
      s.baseStackView.cards = o := ⟨_, rfl⟩
  obtain ⟨otop, htop⟩ : ∃ o, s.baseStackView.getTopCard = o := ⟨_, rfl⟩
  cases opf with
  | some cv =>
    by_cases c1 : PlayfieldView.isCardCovered s.heap s.playfieldView (some cv) = true
    · left
      unfold GameController.onCardClicked GameController.acceptsClick
      simp [hpf, c1]
    by_cases c2 : (GameController.getClickablePlayfieldCards s.heap s.playfieldView).any
        (fun card => decide ((s.heap card).cardId = cardId)) = false
    · left
      unfold GameController.onCardClicked GameController.acceptsClick
      simp only [hpf, c1, c2]
      simp
    by_cases c3 : GameController.manualCoverageCheck s.heap s.playfieldView cv = true
    · left
      unfold GameController.onCardClicked GameController.acceptsClick
      simp only [hpf, c1, c2, GameController.clickDispatch, c3]
      simp
    cases otop with
    | none =>
      left
      unfold GameController.onCardClicked GameController.acceptsClick
      simp only [hpf, c1, c2, GameController.clickDispatch, c3, htop]
      simp
    | some t =>
      by_cases c5 : GameController.canMatchCards (s.heap cv).cardFace (s.heap t).cardFace
          = true
      · right
        constructor
        · unfold GameController.acceptsClick
          simp only [hpf, c1, c2, c3, htop, c5]
          simp
        · right; left
          refine ⟨cv, t, ?_⟩
          unfold GameController.onCardClicked
          simp only [hpf, c1, c2, GameController.clickDispatch, c3, htop, c5]
          simp
      · left
        unfold GameController.onCardClicked GameController.acceptsClick
        simp only [hpf, c1, c2, GameController.clickDispatch, c3, htop, c5]
        simp
  | none =>
    cases ors with
    | some cv =>
      by_cases c1 : some cv = s.reserveStackView.getTopCard
      · right
        constructor
        · unfold GameController.acceptsClick
          simp only [hpf, hrs, decide_eq_true_eq]
          exact c1
        · right; right
          refine ⟨cv, ?_⟩
          unfold GameController.onCardClicked
          simp only [hpf, hrs, GameController.clickDispatch]
          simp [c1]
      · left
        unfold GameController.onCardClicked GameController.acceptsClick
        simp only [hpf, hrs, GameController.clickDispatch]
        simp [c1]
    | none =>
      cases obs with
      | some cv =>
        by_cases c1 : some cv = s.baseStackView.getTopCard
        · left
          unfold GameController.onCardClicked GameController.acceptsClick
          simp only [hpf, hrs, hbs, GameController.clickDispatch]
          simp [c1]
        · right
          constructor
          · unfold GameController.acceptsClick
            simp only [hpf, hrs, hbs, decide_eq_true_eq]
            exact c1
          · left
            refine ⟨cv, (GameController.findCardViewById_some hbs).1, c1, ?_⟩
            unfold GameController.onCardClicked
            simp only [hpf, hrs, hbs, GameController.clickDispatch]
            simp [c1]
      | none =>
        left
        unfold GameController.onCardClicked GameController.acceptsClick
        simp [hpf, hrs, hbs]

/-- A rejected click changes nothing; an accepted click pushes exactly one
record. -/
theorem GameState.click_ledger (s : GameState) (cardId : Int) (hp : s.pending = []) :
    (GameController.acceptsClick s cardId = false → s.click cardId = s) ∧
    (GameController.acceptsClick s cardId = true →
      ∃ r, (s.click cardId).undoStack = r :: s.undoStack) := by
  rcases GameController.acceptsClick_cases s cardId with ⟨ha, h⟩ |
    ⟨ha, ⟨cv, hmem, hnot, h⟩ | ⟨cv, t, h⟩ | ⟨cv, h⟩⟩
  · refine ⟨fun _ => s.click_eq_self cardId hp h, fun e => ?_⟩
    rw [ha] at e
    cases e
  · refine ⟨fun e => ?_, fun _ => ?_⟩
    · rw [ha] at e
      cases e
    · unfold GameState.click
      rw [h]
      exact ⟨_, (GameController.reorderBase_facts s cardId cv hp hmem hnot).2.2.2.1⟩
  · refine ⟨fun e => ?_, fun _ => ?_⟩
    · rw [ha] at e
      cases e
    · unfold GameState.click
      rw [h]
      exact ⟨_, GameController.playfieldToBase_undoStack s cardId cv t hp⟩
  · refine ⟨fun e => ?_, fun _ => ?_⟩
    · rw [ha] at e
      cases e
    · unfold GameState.click
      rw [h]
      exact ⟨_, (GameController.reserveToBase_cards s cardId cv hp).2.2.2.1⟩

/-- An undo request on a non-empty ledger removes exactly its top record; on
an empty ledger it changes nothing. -/
theorem GameState.undoRequest_ledger (s : GameState) (hp : s.pending = []) :
    s.undoRequest.undoStack = s.undoStack.tail := by
  rcases s.undoRequest_effect hp with ⟨he, h⟩ | ⟨r, rest, hs, h, _⟩
  · rw [h, he]
    rfl
  · rw [h, hs]
    rfl

/-- The accounting along a sequence of actions played from a reachable state. -/
theorem GameState.Reachable.ledger_accounting (actions : List PlayerAction) :
    ∀ {s : GameState}, s.Reachable →
      (s.run actions).Reachable ∧
      (s.run actions).undoStack.length + s.effectiveUndos actions
        = s.undoStack.length + s.acceptedMoves actions := by
  induction actions with
  | nil =>
    intro s hr
    exact ⟨hr, rfl⟩
  | cons a rest ih =>
    intro s hr
    have hp := hr.invariant.settled
    cases a with
    | click cardId =>
      obtain ⟨hr2, hlen⟩ := ih (GameState.Reachable.click s cardId hr)
      refine ⟨hr2, ?_⟩
      show ((s.click cardId).run rest).undoStack.length +
        GameState.effectiveUndos (s.click cardId) rest = s.undoStack.length +
          ((if GameController.acceptsClick s cardId = true then 1 else 0) +
            GameState.acceptedMoves (s.click cardId) rest)
      rw [hlen]
      obtain ⟨h1, h2⟩ := s.click_ledger cardId hp
      cases ha : GameController.acceptsClick s cardId with
      | false =>
        rw [h1 ha]
        simp
      | true =>
        obtain ⟨r, e⟩ := h2 ha
        rw [e]
        simp
        omega
    | undo =>
      obtain ⟨hr2, hlen⟩ := ih (GameState.Reachable.undoRequest s hr)
      refine ⟨hr2, ?_⟩
      show (s.undoRequest.run rest).undoStack.length +
        ((if UndoManager.canUndo s.undoStack = true then 1 else 0) +
          GameState.effectiveUndos s.undoRequest rest) =
        s.undoStack.length + GameState.acceptedMoves s.undoRequest rest
      have e := s.undoRequest_ledger hp
      cases hs : s.undoStack with
      | nil =>
        rw [hs] at e
        simp only [UndoManager.canUndo, List.isEmpty_nil, Bool.not_true, Bool.false_eq_true,
          if_false, List.length_nil]
        have := hlen
        rw [e] at this
        simp only [List.tail_nil, List.length_nil] at this
        omega
      | cons r t =>
        rw [hs] at e
        simp only [UndoManager.canUndo, List.isEmpty_cons, Bool.not_false, if_true,
          List.length_cons]
        have := hlen
        rw [e] at this
        simp only [List.tail_cons] at this
        omega

/-- C23: from the state built by `GameView::init`, along any sequence of clicks
and undo requests, the size of the ledger equals the number of accepted moves
minus the number of undo requests that found the ledger non-empty; in every
reachable state an accepted click adds exactly one record, a rejected click
changes nothing, and an undo request removes exactly one record from a
non-empty ledger (none from an empty one); so, from an empty ledger, an
accepted move followed by an undo request leaves `canUndo()` false. -/
theorem ledger_size_accounting :
    (∀ (level : LevelConfig) (actions : List PlayerAction),
      ((GameView.init level).run actions).undoStack.length +
          (GameView.init level).effectiveUndos actions
        = (GameView.init level).acceptedMoves actions) ∧
    (∀ (s : GameState) (cardId : Int), s.Reachable →
      (GameController.acceptsClick s cardId = true →
        (s.click cardId).undoStack.length = s.undoStack.length + 1) ∧
      (GameController.acceptsClick s cardId = false → s.click cardId = s)) ∧
    (∀ s : GameState, s.Reachable →
      s.undoRequest.undoStack.length = s.undoStack.length - 1) ∧
    (∀ (s : GameState) (cardId : Int), s.Reachable → s.undoStack = [] →
      GameController.acceptsClick s cardId = true →
      UndoManager.canUndo ((s.click cardId).undoRequest).undoStack = false) := by
  refine ⟨?_, ?_, ?_, ?_⟩
  · intro level actions
    have h := (GameState.Reachable.ledger_accounting actions
      (GameState.Reachable.init level)).2
    rw [(GameView.init_dealt level).noUndo] at h
    simpa using h
  · intro s cardId hr
    obtain ⟨h1, h2⟩ := s.click_ledger cardId hr.invariant.settled
    refine ⟨fun ha => ?_, h1⟩
    obtain ⟨r, e⟩ := h2 ha
    rw [e]
    rfl
  · intro s hr
    rw [s.undoRequest_ledger hr.invariant.settled]
    simp
  · intro s cardId hr hs ha
    obtain ⟨r, e⟩ := (s.click_ledger cardId hr.invariant.settled).2 ha
    rw [GameState.undoRequest_ledger _ (GameState.Reachable.click s cardId hr).invariant.settled,
      e, hs]
    rfl

/-- Witness for C23: in `levelScenario1`, a rejected click, the move of `4♦`,
the draw of `7♠`, two undo requests and one more on the empty ledger; and the
move of `4♦` followed by an undo request. -/
theorem ledger_size_accounting_witness :
    ((GameView.init levelScenario1).run
        [PlayerAction.click 7, PlayerAction.click 0, PlayerAction.click 1, PlayerAction.undo,
          PlayerAction.undo, PlayerAction.undo]).undoStack.length +
      (GameView.init levelScenario1).effectiveUndos
        [PlayerAction.click 7, PlayerAction.click 0, PlayerAction.click 1, PlayerAction.undo,
          PlayerAction.undo, PlayerAction.undo]
      = (GameView.init levelScenario1).acceptedMoves
        [PlayerAction.click 7, PlayerAction.click 0, PlayerAction.click 1, PlayerAction.undo,
          PlayerAction.undo, PlayerAction.undo] ∧
    UndoManager.canUndo
      (((GameView.init levelScenario1).click 0).undoRequest).undoStack = false :=
  ⟨ledger_size_accounting.1 levelScenario1 _,
    ledger_size_accounting.2.2.2 (GameView.init levelScenario1) 0
      (GameState.Reachable.init levelScenario1) (by decide) (by decide)⟩

/-- The counts of the witness, evaluated: two accepted moves, two effective
undo requests, an empty ledger at the end. -/
theorem GameState.acceptedMoves_example :
    (GameView.init levelScenario1).acceptedMoves
        [PlayerAction.click 7, PlayerAction.click 0, PlayerAction.click 1, PlayerAction.undo,
          PlayerAction.undo, PlayerAction.undo] = 2 ∧
    (GameView.init levelScenario1).effectiveUndos
        [PlayerAction.click 7, PlayerAction.click 0, PlayerAction.click 1, PlayerAction.undo,
          PlayerAction.undo, PlayerAction.undo] = 2 ∧
    ((GameView.init levelScenario1).run
        [PlayerAction.click 7, PlayerAction.click 0, PlayerAction.click 1, PlayerAction.undo,
          PlayerAction.undo, PlayerAction.undo]).undoStack = [] := by
  decide

/-! ## Starting a level -/

theorem GameController.startGame_undoStack (s : GameState) (config : LevelConfig) :
    (GameController.startGame s config).undoStack = s.undoStack := rfl

/-- C24, as stated, fails: after `7♠` was drawn in `levelScenario1` the ledger
holds one record, and it still holds it after `startGame`. -/
theorem startGame_on_used_ledger :
    ((GameView.init levelScenario1).click 1).undoStack.length = 1 ∧
    (GameController.startGame ((GameView.init levelScenario1).click 1)
      levelScenario3).undoStack.length = 1 ∧
    UndoManager.canUndo (GameController.startGame ((GameView.init levelScenario1).click 1)
      levelScenario3).undoStack = true := by
  decide

/-- C24 (amended): `startGame` leaves the undo ledger as it is, so the ledger
is empty after it exactly when it was empty before; `GameView::init` calls it
on a controller whose ledger is empty, and in the state it builds the ledger
is empty and `canUndo()` is false. -/
theorem startGame_keeps_ledger :
    (∀ (s : GameState) (config : LevelConfig),
      (GameController.startGame s config).undoStack = s.undoStack) ∧
    (∀ config : LevelConfig,
      (GameController.startGame GameState.blank config).undoStack = [] ∧
      UndoManager.canUndo (GameController.startGame GameState.blank config).undoStack
        = false) ∧
    (∀ level : LevelConfig,
      (GameView.init level).undoStack = [] ∧
      UndoManager.canUndo (GameView.init level).undoStack = false) := by
  refine ⟨fun s config => rfl, fun config => ⟨rfl, rfl⟩, fun level => ?_⟩
  have h := (GameView.init_dealt level).noUndo
  rw [h]
  exact ⟨rfl, rfl⟩

/-! ## The undo button -/

/-- C30: in the state built by `GameView::init` from `levelScenario1` the undo
button is shown although the ledger is empty, and it stays so after a
rejected click and after an undo request; `startGame`, called by `init`
before the cards are dealt, had hidden it. -/
theorem undo_button_shown_on_empty_ledger :
    (GameController.startGame GameState.blank levelScenario1).undoButtonVisible = false ∧
    (GameView.init levelScenario1).undoButtonVisible = true ∧
    UndoManager.canUndo (GameView.init levelScenario1).undoStack = false ∧
    ((GameView.init levelScenario1).click 7).undoButtonVisible = true ∧
    UndoManager.canUndo ((GameView.init levelScenario1).click 7).undoStack = false ∧
    (GameView.init levelScenario1).undoRequest.undoButtonVisible = true ∧
    UndoManager.canUndo (GameView.init levelScenario1).undoRequest.undoStack = false := by
  decide

/-- The state built by `GameView::init` from any level shows the undo button
on an empty ledger. -/
theorem GameView.init_undoButton (level : LevelConfig) :
    (GameView.init level).undoButtonVisible = true ∧
    UndoManager.canUndo (GameView.init level).undoStack = false := by
  refine ⟨rfl, ?_⟩
  rw [(GameView.init_dealt level).noUndo]
  rfl

/-- After an accepted click the undo button is shown. -/
theorem GameState.click_undoButton (s : GameState) (cardId : Int) (hp : s.pending = [])
    (ha : GameController.acceptsClick s cardId = true) :
    (s.click cardId).undoButtonVisible = true := by
  unfold GameState.click
  rcases GameController.acceptsClick_cases s cardId with ⟨hf, _⟩ |
    ⟨_, ⟨cv, hmem, hnot, h⟩ | ⟨cv, t, h⟩ | ⟨cv, h⟩⟩
  · rw [ha] at hf
    cases hf
  · rw [h, GameController.clickReorderBase_eq s cardId cv hmem hnot,
      GameState.runPending_single _ ⟨some cv, 10, none, Callback.handCard cv⟩ (by simp [hp])]
    rfl
  · rw [h, GameController.playfieldToBase_state s cardId cv t hp]
  · rw [h, GameController.clickReserveToBase_run s cardId cv hp]
    rfl

/-- After an undo request on a non-empty ledger the undo button is shown
exactly when the ledger is still non-empty. -/
theorem GameState.undoRequest_undoButton (s : GameState) (hp : s.pending = [])
    (hne : s.undoStack ≠ []) :
    s.undoRequest.undoButtonVisible = UndoManager.canUndo s.undoRequest.undoStack := by
  cases hs : s.undoStack with
  | nil => exact absurd hs hne
  | cons r rest =>
    unfold GameState.undoRequest
    rw [GameController.onUndoClicked_cons_any s r rest hs]
    obtain ⟨o, ho⟩ : ∃ o, (if r.originalParent = 0 ∨ r.originalParent = 1 ∨
        r.originalParent = 2 then
          GameController.findCardViewById s.heap r.cardId s.baseStackView.cards
        else none) = o := ⟨_, rfl⟩
    rw [ho]
    cases o with
    | none =>
      simp only []
      rw [GameState.runPending_nil _ (by simpa [GameView.showUndoButton] using hp)]
      rfl
    | some cv =>
      simp only []
      cases hmt : r.moveType with
      | RESERVE_TO_BASE =>
        simp only []
        rw [GameController.undoReserveToBase_run { s with undoStack := rest } cv r.originalPos hp]
        rfl
      | REORDER_BASE =>
        simp only []
        rw [GameController.undoReorderBase_run { s with undoStack := rest } cv hp]
        show (Callback.runUndoReorderBase { s with undoStack := rest } cv).undoButtonVisible
          = UndoManager.canUndo
            (Callback.runUndoReorderBase { s with undoStack := rest } cv).undoStack
        unfold Callback.runUndoReorderBase
        split_ifs <;> rfl
      | PLAYFIELD_TO_BASE =>
        simp only []
        obtain ⟨_, _, _, _, _, _, f7, _⟩ := GameController.undoPlayfieldToBase_general
          { s with undoStack := rest } r hp
        rw [GameState.runPending_single _ ⟨none, 200, none, Callback.finalPlayfieldCheck⟩
          (by simp [GameController.scheduleFinalCheck, f7])]
        show (GameController.undoPlayfieldToBase { s with undoStack := rest } r
          ).undoButtonVisible = UndoManager.canUndo
            (GameController.undoPlayfieldToBase { s with undoStack := rest } r).undoStack
        unfold GameController.undoPlayfieldToBase
        split <;> rfl

/-! ## PlayfieldView::removeCard -/

/-- C27: after `removeCard(c)` the member sequence is the old one with every
occurrence of `c` deleted, the saved states are the same, and every card has
the position, z-order, visibility and opacity it had (a card other than `c`
is untouched altogether); `removeCard(null)` changes nothing; `removeCard` of
a non-member leaves the member sequence as it is, and the heap as well when
the card is not a child of the playfield node. -/
theorem playfield_removeCard_frame :
    (∀ (h : Heap) (v : PlayfieldView) (c : Nat),
      (PlayfieldView.removeCard h v (some c)).2.cards = v.cards.filter (fun q => q ≠ c) ∧
      (PlayfieldView.removeCard h v (some c)).2.cardStates = v.cardStates ∧
      (∀ q, q ≠ c → (PlayfieldView.removeCard h v (some c)).1 q = h q) ∧
      (∀ q, ((PlayfieldView.removeCard h v (some c)).1 q).position = (h q).position ∧
        ((PlayfieldView.removeCard h v (some c)).1 q).localZOrder = (h q).localZOrder ∧
        ((PlayfieldView.removeCard h v (some c)).1 q).visible = (h q).visible ∧
        ((PlayfieldView.removeCard h v (some c)).1 q).opacity = (h q).opacity)) ∧
    (∀ (h : Heap) (v : PlayfieldView), PlayfieldView.removeCard h v none = (h, v)) ∧
    (∀ (h : Heap) (v : PlayfieldView) (c : Nat), c ∉ v.cards →
      (PlayfieldView.removeCard h v (some c)).2.cards = v.cards ∧
      ((h c).parent ≠ ParentNode.playfield →
        (PlayfieldView.removeCard h v (some c)).1 = h)) := by
  refine ⟨?_, fun h v => rfl, ?_⟩
  · intro h v c
    refine ⟨rfl, rfl, ?_, ?_⟩
    · intro q hq
      simp only [PlayfieldView.removeCard]
      split_ifs <;> simp [hq]
    · intro q
      simp only [PlayfieldView.removeCard]
      by_cases hq : q = c
      · subst hq
        split_ifs <;> simp [CardView.withParent]
      · split_ifs <;> simp [hq]
  · intro h v c hc
    constructor
    · show v.cards.filter (fun q => decide (q ≠ c)) = v.cards
      rw [List.filter_eq_self]
      intro a ha
      simpa using fun e : a = c => hc (e ▸ ha)
    · intro hp
      simp only [PlayfieldView.removeCard, if_neg (fun e => hp e)]

/-- Witness for C27: removing `7♠`, a reserve card, from the playfield of
`levelScenario1`. -/
theorem playfield_removeCard_frame_witness :
    (PlayfieldView.removeCard (GameView.init levelScenario1).heap
      (GameView.init levelScenario1).playfieldView (some 1)).2.cards
        = (GameView.init levelScenario1).playfieldView.cards ∧
    (PlayfieldView.removeCard (GameView.init levelScenario1).heap
      (GameView.init levelScenario1).playfieldView (some 1)).1
        = (GameView.init levelScenario1).heap :=
  ⟨(playfield_removeCard_frame.2.2 _ _ 1 (by decide)).1,
    (playfield_removeCard_frame.2.2 _ _ 1 (by decide)).2 (by decide)⟩

/-! ## Saving and restoring a card's state -/

theorem PlayfieldView.playfield_restore_after_save (h h2 : Heap) (v : PlayfieldView) (i : Int) (c : Nat)
    (hf : PlayfieldView.findCardById h v i = some c)
    (hids : ∀ q ∈ v.cards, (h2 q).cardId = (h q).cardId) :
    PlayfieldView.restoreCardState h2 (PlayfieldView.saveCardState h v i) i =
      ((h2.setPosition c (h c).position).setLocalZOrder c (h c).localZOrder).setVisible c
        (h c).visible := by
  have hf2 : PlayfieldView.findCardById h2 (PlayfieldView.saveCardState h v i) i = some c := by
    rw [PlayfieldView.playfield_findCardById_eq, PlayfieldView.playfield_saveCardState_cards, ← hf,
      PlayfieldView.playfield_findCardById_eq]
    exact GameController.findCardViewById_congr i v.cards hids
  have hs : (PlayfieldView.saveCardState h v i).cardStates i =
      some ⟨i, (h c).position, (h c).localZOrder, (h c).visible⟩ := by
    unfold PlayfieldView.saveCardState
    rw [hf]
    simp
  unfold PlayfieldView.restoreCardState
  rw [hs]
  simp only []
  rw [hf2]

theorem StackView.stack_restore_after_save (h h2 : Heap) (v : StackView) (i : Int) (c : Nat)
    (hf : StackView.findCardById h v i = some c)
    (hids : ∀ q ∈ v.cards, (h2 q).cardId = (h q).cardId) :
    StackView.restoreCardState h2 (StackView.saveCardState h v i) i =
      ((h2.setPosition c (h c).position).setLocalZOrder c (h c).localZOrder).setVisible c
        (h c).visible := by
  have hf2 : StackView.findCardById h2 (StackView.saveCardState h v i) i = some c := by
    rw [StackView.findCardById_eq, StackView.saveCardState_cards, ← hf,
      StackView.findCardById_eq]
    exact GameController.findCardViewById_congr i v.cards hids
  have hs : (StackView.saveCardState h v i).cardStates i =
      some ⟨i, (h c).position, (h c).localZOrder, (h c).visible⟩ := by
    unfold StackView.saveCardState
    rw [hf]
    simp
  unfold StackView.restoreCardState
  rw [hs]
  simp only []
  rw [hf2]

/-- What the three setters of `restoreCardState` leave behind. -/
theorem Heap.restored_card (h2 : Heap) (c : Nat) (p : Vec2) (z : Int) (b : Bool) :
    ((((h2.setPosition c p).setLocalZOrder c z).setVisible c b) c).position = p ∧
    ((((h2.setPosition c p).setLocalZOrder c z).setVisible c b) c).localZOrder = z ∧
    ((((h2.setPosition c p).setLocalZOrder c z).setVisible c b) c).visible = b ∧
    ((((h2.setPosition c p).setLocalZOrder c z).setVisible c b) c).opacity = (h2 c).opacity ∧
    ((((h2.setPosition c p).setLocalZOrder c z).setVisible c b) c).cardId = (h2 c).cardId ∧
    (∀ q, q ≠ c → (((h2.setPosition c p).setLocalZOrder c z).setVisible c b) q = h2 q) := by
  refine ⟨?_, ?_, ?_, ?_, ?_, ?_⟩ <;>
    first
    | (intro q hq; simp [hq])
    | simp [CardView.withVisible, CardView.withLocalZOrder, CardView.withPosition]

/-- C28: in a playfield and in a stack alike, when the member found for id `i`
is `c`, after `saveCardState(i)`, any changes to the cards that leave the ids
of the members alone, and `restoreCardState(i)`, the card `c` has the
position, z-order and visibility it had at save time and every other card is
as it was before the restore; `restoreCardState(i)` changes nothing when no
state is saved for `i` or no member bears the id `i`. Where the members bear
pairwise distinct ids, the member found for the id of a member is that
member. -/
theorem saveRestore_roundtrip :
    (∀ (h h2 : Heap) (v : PlayfieldView) (i : Int) (c : Nat),
      PlayfieldView.findCardById h v i = some c →
      (∀ q ∈ v.cards, (h2 q).cardId = (h q).cardId) →
      ((PlayfieldView.restoreCardState h2 (PlayfieldView.saveCardState h v i) i) c).position
          = (h c).position ∧
      ((PlayfieldView.restoreCardState h2 (PlayfieldView.saveCardState h v i) i) c).localZOrder
          = (h c).localZOrder ∧
      ((PlayfieldView.restoreCardState h2 (PlayfieldView.saveCardState h v i) i) c).visible
          = (h c).visible ∧
      (∀ q, q ≠ c →
        (PlayfieldView.restoreCardState h2 (PlayfieldView.saveCardState h v i) i) q = h2 q)) ∧
    (∀ (h : Heap) (v : PlayfieldView) (i : Int),
      v.cardStates i = none ∨ PlayfieldView.findCardById h v i = none →
      PlayfieldView.restoreCardState h v i = h) ∧
    (∀ (h h2 : Heap) (v : StackView) (i : Int) (c : Nat),
      StackView.findCardById h v i = some c →
      (∀ q ∈ v.cards, (h2 q).cardId = (h q).cardId) →
      ((StackView.restoreCardState h2 (StackView.saveCardState h v i) i) c).position
          = (h c).position ∧
      ((StackView.restoreCardState h2 (StackView.saveCardState h v i) i) c).localZOrder
          = (h c).localZOrder ∧
      ((StackView.restoreCardState h2 (StackView.saveCardState h v i) i) c).visible
          = (h c).visible ∧
      (∀ q, q ≠ c →
        (StackView.restoreCardState h2 (StackView.saveCardState h v i) i) q = h2 q)) ∧
    (∀ (h : Heap) (v : StackView) (i : Int),
      v.cardStates i = none ∨ StackView.findCardById h v i = none →
      StackView.restoreCardState h v i = h) ∧
    (∀ (h : Heap) (v : PlayfieldView) (c : Nat),
      (v.cards.map (fun p => (h p).cardId)).Nodup → c ∈ v.cards →
      PlayfieldView.findCardById h v (h c).cardId = some c) ∧
    (∀ (h : Heap) (v : StackView) (c : Nat),
      (v.cards.map (fun p => (h p).cardId)).Nodup → c ∈ v.cards →
      StackView.findCardById h v (h c).cardId = some c) := by
  refine ⟨?_, ?_, ?_, ?_,
    fun h v c hnd hc => GameController.findCardViewById_of_nodup h v.cards c hnd hc,
    fun h v c hnd hc => GameController.findCardViewById_of_nodup h v.cards c hnd hc⟩
  · intro h h2 v i c hf hids
    rw [PlayfieldView.playfield_restore_after_save h h2 v i c hf hids]
    obtain ⟨a1, a2, a3, _, _, a6⟩ :=
      Heap.restored_card h2 c (h c).position (h c).localZOrder (h c).visible
    exact ⟨a1, a2, a3, a6⟩
  · intro h v i hn
    unfold PlayfieldView.restoreCardState
    rcases hn with e | e
    · rw [e]
    · rw [e]
      cases v.cardStates i <;> rfl
  · intro h h2 v i c hf hids
    rw [StackView.stack_restore_after_save h h2 v i c hf hids]
    obtain ⟨a1, a2, a3, _, _, a6⟩ :=
      Heap.restored_card h2 c (h c).position (h c).localZOrder (h c).visible
    exact ⟨a1, a2, a3, a6⟩
  · intro h v i hn
    unfold StackView.restoreCardState
    rcases hn with e | e
    · rw [e]
    · rw [e]
      cases v.cardStates i <;> rfl

/-- Witness for C28: `4♦` of `levelScenario1` is saved, moved and hidden, and
restored. -/
theorem saveRestore_roundtrip_witness :
    ((PlayfieldView.restoreCardState
        (((GameView.init levelScenario1).heap.setPosition 0 ⟨7, 7⟩).setVisible 0 false)
        (PlayfieldView.saveCardState (GameView.init levelScenario1).heap
          (GameView.init levelScenario1).playfieldView 0) 0) 0).position
      = ((GameView.init levelScenario1).heap 0).position ∧
    PlayfieldView.restoreCardState (GameView.init levelScenario1).heap
      (GameView.init levelScenario1).playfieldView 0 = (GameView.init levelScenario1).heap :=
  ⟨(saveRestore_roundtrip.1 (GameView.init levelScenario1).heap
      (((GameView.init levelScenario1).heap.setPosition 0 ⟨7, 7⟩).setVisible 0 false)
      (GameView.init levelScenario1).playfieldView 0 0 (by decide)
      (fun q _ => by
        by_cases hq : q = 0 <;> simp [hq, CardView.withVisible, CardView.withPosition])).1,
    saveRestore_roundtrip.2.1 _ _ 0 (Or.inl (by decide))⟩

/-! ## Card ids handed out by the model -/


theorem List.map_range_succ_shift (k : Int) (n : Nat) :
    (List.range (n + 1)).map (fun i : Nat => k + (i : Int))
      = k :: (List.range n).map (fun i : Nat => k + 1 + (i : Int)) := by
  rw [List.range_succ_eq_map]
  simp only [List.map_cons, List.map_map, Nat.cast_zero, add_zero, List.cons.injEq, true_and]
  apply List.map_congr_left
  intro i _
  simp only [Function.comp, Nat.cast_succ]
  omega

theorem GameModel.takeIds_spec (n : Nat) (m : GameModel) :
    (GameModel.takeIds n m).1 = (List.range n).map (fun i : Nat => m.nextCardId + (i : Int)) ∧
    (GameModel.takeIds n m).2 = { m with nextCardId := m.nextCardId + (n : Int) } := by
  induction n generalizing m with
  | zero => simp [GameModel.takeIds]
  | succ n ih =>
    obtain ⟨h1, h2⟩ := ih m.getNextCardId.2
    refine ⟨?_, ?_⟩
    · show m.nextCardId :: (GameModel.takeIds n m.getNextCardId.2).1 = _
      rw [h1, List.map_range_succ_shift]
      rfl
    · show (GameModel.takeIds n m.getNextCardId.2).2 = _
      rw [h2]
      simp only [GameModel.getNextCardId, Nat.cast_succ]
      congr 1
      omega

/-- One loop of `startGame`, seen through the ids: the group grows by the ids
`nextCardId, nextCardId + 1, ...`, and the counter advances by the number of
cards. -/
theorem GameController.startGame_reserveLoop (l : List CardConfig) (m : GameModel) :
    ((l.foldl (fun m cardCfg =>
        { m.getNextCardId.2 with
          reserveStack := m.getNextCardId.2.reserveStack ++
            [GameController.cardModelOf m.getNextCardId.1 cardCfg] }) m).reserveStack.map
        CardModel.id
      = m.reserveStack.map CardModel.id ++
          (List.range l.length).map (fun i : Nat => m.nextCardId + (i : Int))) ∧
    (l.foldl (fun m cardCfg =>
        { m.getNextCardId.2 with
          reserveStack := m.getNextCardId.2.reserveStack ++
            [GameController.cardModelOf m.getNextCardId.1 cardCfg] }) m).nextCardId
      = m.nextCardId + (l.length : Int) ∧
    (l.foldl (fun m cardCfg =>
        { m.getNextCardId.2 with
          reserveStack := m.getNextCardId.2.reserveStack ++
            [GameController.cardModelOf m.getNextCardId.1 cardCfg] }) m).playfield
      = m.playfield ∧
    (l.foldl (fun m cardCfg =>
        { m.getNextCardId.2 with
          reserveStack := m.getNextCardId.2.reserveStack ++
            [GameController.cardModelOf m.getNextCardId.1 cardCfg] }) m).baseStack
      = m.baseStack := by
  induction l generalizing m with
  | nil => simp
  | cons a l ih =>
    simp only [List.foldl_cons]
    obtain ⟨h1, h2, h3, h4⟩ := ih
      { m.getNextCardId.2 with
        reserveStack := m.getNextCardId.2.reserveStack ++
          [GameController.cardModelOf m.getNextCardId.1 a] }
    refine ⟨?_, ?_, ?_, ?_⟩
    · rw [h1]
      simp only [GameModel.getNextCardId, GameController.cardModelOf, List.map_append,
        List.map_cons, List.map_nil, List.length_cons, List.append_assoc]
      rw [List.map_range_succ_shift]
      rfl
    · rw [h2]
      simp only [GameModel.getNextCardId, List.length_cons, Nat.cast_succ]
      omega
    · rw [h3]; rfl
    · rw [h4]; rfl

theorem GameController.startGame_playfieldLoop (l : List CardConfig) (m : GameModel) :
    ((l.foldl (fun m cardCfg =>
        { m.getNextCardId.2 with
          playfield := m.getNextCardId.2.playfield ++
            [GameController.cardModelOf m.getNextCardId.1 cardCfg] }) m).playfield.map
        CardModel.id
      = m.playfield.map CardModel.id ++
          (List.range l.length).map (fun i : Nat => m.nextCardId + (i : Int))) ∧
    (l.foldl (fun m cardCfg =>
        { m.getNextCardId.2 with
          playfield := m.getNextCardId.2.playfield ++
            [GameController.cardModelOf m.getNextCardId.1 cardCfg] }) m).nextCardId
      = m.nextCardId + (l.length : Int) ∧
    (l.foldl (fun m cardCfg =>
        { m.getNextCardId.2 with
          playfield := m.getNextCardId.2.playfield ++
            [GameController.cardModelOf m.getNextCardId.1 cardCfg] }) m).reserveStack
      = m.reserveStack ∧
    (l.foldl (fun m cardCfg =>
        { m.getNextCardId.2 with
          playfield := m.getNextCardId.2.playfield ++
            [GameController.cardModelOf m.getNextCardId.1 cardCfg] }) m).baseStack
      = m.baseStack := by
  induction l generalizing m with
  | nil => simp
  | cons a l ih =>
    simp only [List.foldl_cons]
    obtain ⟨h1, h2, h3, h4⟩ := ih
      { m.getNextCardId.2 with
        playfield := m.getNextCardId.2.playfield ++
          [GameController.cardModelOf m.getNextCardId.1 a] }
    refine ⟨?_, ?_, ?_, ?_⟩
    · rw [h1]
      simp only [GameModel.getNextCardId, GameController.cardModelOf, List.map_append,
        List.map_cons, List.map_nil, List.length_cons, List.append_assoc]
      rw [List.map_range_succ_shift]
      rfl
    · rw [h2]
      simp only [GameModel.getNextCardId, List.length_cons, Nat.cast_succ]
      omega
    · rw [h3]; rfl
    · rw [h4]; rfl

theorem GameController.startGame_baseLoop (l : List CardConfig) (m : GameModel) :
    ((l.foldl (fun m cardCfg =>
        { m.getNextCardId.2 with
          baseStack := m.getNextCardId.2.baseStack ++
            [GameController.cardModelOf m.getNextCardId.1 cardCfg] }) m).baseStack.map
        CardModel.id
      = m.baseStack.map CardModel.id ++
          (List.range l.length).map (fun i : Nat => m.nextCardId + (i : Int))) ∧
    (l.foldl (fun m cardCfg =>
        { m.getNextCardId.2 with
          baseStack := m.getNextCardId.2.baseStack ++
            [GameController.cardModelOf m.getNextCardId.1 cardCfg] }) m).nextCardId
      = m.nextCardId + (l.length : Int) ∧
    (l.foldl (fun m cardCfg =>
        { m.getNextCardId.2 with
          baseStack := m.getNextCardId.2.baseStack ++
            [GameController.cardModelOf m.getNextCardId.1 cardCfg] }) m).reserveStack
      = m.reserveStack ∧
    (l.foldl (fun m cardCfg =>
        { m.getNextCardId.2 with
          baseStack := m.getNextCardId.2.baseStack ++
            [GameController.cardModelOf m.getNextCardId.1 cardCfg] }) m).playfield
      = m.playfield := by
  induction l generalizing m with
  | nil => simp
  | cons a l ih =>
    simp only [List.foldl_cons]
    obtain ⟨h1, h2, h3, h4⟩ := ih
      { m.getNextCardId.2 with
        baseStack := m.getNextCardId.2.baseStack ++
          [GameController.cardModelOf m.getNextCardId.1 a] }
    refine ⟨?_, ?_, ?_, ?_⟩
    · rw [h1]
      simp only [GameModel.getNextCardId, GameController.cardModelOf, List.map_append,
        List.map_cons, List.map_nil, List.length_cons, List.append_assoc]
      rw [List.map_range_succ_shift]
      rfl
    · rw [h2]
      simp only [GameModel.getNextCardId, List.length_cons, Nat.cast_succ]
      omega
    · rw [h3]; rfl
    · rw [h4]; rfl

/-- The ids in the model after `startGame`: the reserve cards bear
`0 .. r-1`, the playfield cards `r .. r+p-1`, the base cards `r+p .. r+p+b-1`,
and the counter stands at `r+p+b`, whatever the state before. -/
theorem GameController.startGame_ids (s : GameState) (config : LevelConfig) :
    (GameController.startGame s config).gameModel.reserveStack.map CardModel.id
      = (List.range config.stackCards.length).map (fun i : Nat => (i : Int)) ∧
    (GameController.startGame s config).gameModel.playfield.map CardModel.id
      = (List.range config.playfieldCards.length).map
          (fun i : Nat => (config.stackCards.length : Int) + (i : Int)) ∧
    (GameController.startGame s config).gameModel.baseStack.map CardModel.id
      = (List.range config.baseCards.length).map
          (fun i : Nat => (config.stackCards.length : Int) + (config.playfieldCards.length : Int)
            + (i : Int)) ∧
    (GameController.startGame s config).gameModel.nextCardId
      = (config.stackCards.length : Int) + (config.playfieldCards.length : Int)
          + (config.baseCards.length : Int) := by
  have hm : (GameController.startGame s config).gameModel =
      config.baseCards.foldl (fun m cardCfg =>
        { m.getNextCardId.2 with
          baseStack := m.getNextCardId.2.baseStack ++
            [GameController.cardModelOf m.getNextCardId.1 cardCfg] })
        (config.playfieldCards.foldl (fun m cardCfg =>
          { m.getNextCardId.2 with
            playfield := m.getNextCardId.2.playfield ++
              [GameController.cardModelOf m.getNextCardId.1 cardCfg] })
          (config.stackCards.foldl (fun m cardCfg =>
            { m.getNextCardId.2 with
              reserveStack := m.getNextCardId.2.reserveStack ++
                [GameController.cardModelOf m.getNextCardId.1 cardCfg] })
            s.gameModel.clear)) := rfl
  rw [hm]
  obtain ⟨a1, a2, a3, a4⟩ := GameController.startGame_reserveLoop config.stackCards
    s.gameModel.clear
  obtain ⟨b1, b2, b3, b4⟩ := GameController.startGame_playfieldLoop config.playfieldCards
    (config.stackCards.foldl (fun m cardCfg =>
      { m.getNextCardId.2 with
        reserveStack := m.getNextCardId.2.reserveStack ++
          [GameController.cardModelOf m.getNextCardId.1 cardCfg] })
      s.gameModel.clear)
  obtain ⟨c1, c2, c3, c4⟩ := GameController.startGame_baseLoop config.baseCards
    (config.playfieldCards.foldl (fun m cardCfg =>
      { m.getNextCardId.2 with
        playfield := m.getNextCardId.2.playfield ++
          [GameController.cardModelOf m.getNextCardId.1 cardCfg] })
      (config.stackCards.foldl (fun m cardCfg =>
        { m.getNextCardId.2 with
          reserveStack := m.getNextCardId.2.reserveStack ++
            [GameController.cardModelOf m.getNextCardId.1 cardCfg] })
        s.gameModel.clear))
  refine ⟨?_, ?_, ?_, ?_⟩
  · rw [c3, b3, a1]
    simp [GameModel.clear]
  · rw [c4, b1, a3, a2]
    simp [GameModel.clear]
  · rw [c1, b4, a4, b2, a2]
    simp [GameModel.clear]
  · rw [c2, b2, a2]
    simp [GameModel.clear]

theorem GameController.startGame_ids_nodup (s : GameState) (config : LevelConfig) :
    ((GameController.startGame s config).gameModel.reserveStack.map CardModel.id ++
      (GameController.startGame s config).gameModel.playfield.map CardModel.id ++
      (GameController.startGame s config).gameModel.baseStack.map CardModel.id).Nodup := by
  obtain ⟨h1, h2, h3, _⟩ := GameController.startGame_ids s config
  rw [h1, h2, h3]
  have hinj : ∀ (k : Int), Function.Injective (fun i : Nat => k + (i : Int)) := by
    intro k a b hab
    simp only at hab
    omega
  have hinj0 : Function.Injective (fun i : Nat => (i : Int)) := by
    intro a b hab
    simp only at hab
    omega
  rw [List.nodup_append, List.nodup_append]
  refine ⟨⟨(List.nodup_range _).map hinj0, (List.nodup_range _).map (hinj _), ?_⟩,
    (List.nodup_range _).map (hinj _), ?_⟩
  · intro x hx hy
    simp only [List.mem_map, List.mem_range] at hx hy
    obtain ⟨i, hi, rfl⟩ := hx
    obtain ⟨j, hj, e⟩ := hy
    omega
  · intro x hx hy
    simp only [List.mem_append, List.mem_map, List.mem_range] at hx hy
    obtain ⟨j, hj, e⟩ := hy
    rcases hx with ⟨i, hi, rfl⟩ | ⟨i, hi, rfl⟩ <;> omega

/-- C29: after `GameModel::clear()`, `n` successive calls of `getNextCardId()`
return `0, 1, ..., n-1`, pairwise distinct; `startGame` gives the reserve
cards the ids `0 .. r-1`, the playfield cards `r .. r+p-1` and the base cards
`r+p .. r+p+b-1` whatever the state before it, so the ids of the three groups
are pairwise distinct and the counter starts from `0` on every `startGame`. -/
theorem cardIds_unique_and_reset :
    (∀ (m : GameModel) (n : Nat),
      (GameModel.takeIds n m.clear).1 = (List.range n).map (fun i : Nat => (i : Int)) ∧
      (GameModel.takeIds n m.clear).1.Nodup ∧
      (GameModel.takeIds n m.clear).2.nextCardId = (n : Int)) ∧
    (∀ (s : GameState) (config : LevelConfig),
      (GameController.startGame s config).gameModel.reserveStack.map CardModel.id
        = (List.range config.stackCards.length).map (fun i : Nat => (i : Int)) ∧
      (GameController.startGame s config).gameModel.playfield.map CardModel.id
        = (List.range config.playfieldCards.length).map
            (fun i : Nat => (config.stackCards.length : Int) + (i : Int)) ∧
      (GameController.startGame s config).gameModel.baseStack.map CardModel.id
        = (List.range config.baseCards.length).map
            (fun i : Nat => (config.stackCards.length : Int) + (config.playfieldCards.length : Int)
              + (i : Int)) ∧
      ((GameController.startGame s config).gameModel.reserveStack.map CardModel.id ++
        (GameController.startGame s config).gameModel.playfield.map CardModel.id ++
        (GameController.startGame s config).gameModel.baseStack.map CardModel.id).Nodup ∧
      (GameController.startGame s config).gameModel.nextCardId
        = (config.stackCards.length : Int) + (config.playfieldCards.length : Int)
            + (config.baseCards.length : Int)) := by
  refine ⟨?_, ?_⟩
  · intro m n
    obtain ⟨h1, h2⟩ := GameModel.takeIds_spec n m.clear
    have e : (GameModel.takeIds n m.clear).1 = (List.range n).map (fun i : Nat => (i : Int)) := by
      rw [h1]
      simp [GameModel.clear]
    refine ⟨e, ?_, ?_⟩
    · rw [e]
      refine (List.nodup_range _).map ?_
      intro a b hab
      simp only at hab
      omega
    · rw [h2]
      simp [GameModel.clear]
  · intro s config
    obtain ⟨h1, h2, h3, h4⟩ := GameController.startGame_ids s config
    exact ⟨h1, h2, h3, GameController.startGame_ids_nodup s config, h4⟩

/-! ## The z-order assigned by PlayfieldView::addCard -/

theorem PlayfieldView.maxZOrderOthers_foldl (h : Heap) (cards : List Nat) (c : Nat) (m : Int) :
    cards.foldl
        (fun maxZOrder card =>
          if card ≠ c ∧ (h card).localZOrder > maxZOrder then (h card).localZOrder
          else maxZOrder) m
      = ((cards.filter (fun q => q ≠ c)).map (fun q => (h q).localZOrder)).foldl max m := by
  induction cards generalizing m with
  | nil => rfl
  | cons a l ih =>
    simp only [List.foldl_cons]
    rw [ih]
    by_cases hac : a = c
    · simp [hac]
    · have e : (a :: l).filter (fun q => decide (q ≠ c)) = a :: l.filter (fun q => decide (q ≠ c)) := by
        simp [hac]
      rw [e]
      simp only [List.map_cons, List.foldl_cons]
      congr 1
      by_cases hz : (h a).localZOrder > m
      · rw [if_pos ⟨hac, hz⟩]
        exact (max_eq_right (le_of_lt hz)).symm
      · rw [if_neg (fun hh => hz hh.2)]
        exact (max_eq_left (not_lt.mp hz)).symm

theorem PlayfieldView.maxZOrderOthers_eq (h : Heap) (cards : List Nat) (c : Nat) :
    PlayfieldView.maxZOrderOthers h cards c
      = ((cards.filter (fun q => q ≠ c)).map (fun q => (h q).localZOrder)).foldl max (-1) :=
  PlayfieldView.maxZOrderOthers_foldl h cards c (-1)

theorem List.foldl_max_ge (l : List Int) (m : Int) :
    m ≤ l.foldl max m ∧ (∀ x ∈ l, x ≤ l.foldl max m) ∧
      (l.foldl max m = m ∨ l.foldl max m ∈ l) := by
  induction l generalizing m with
  | nil => simp
  | cons a l ih =>
    obtain ⟨h1, h2, h3⟩ := ih (max m a)
    simp only [List.foldl_cons, List.mem_cons]
    refine ⟨le_trans (le_max_left m a) h1, ?_, ?_⟩
    · intro x hx
      rcases hx with rfl | hx
      · exact le_trans (le_max_right m x) h1
      · exact h2 x hx
    · rcases h3 with e | e
      · rcases max_choice m a with e2 | e2
        · left; rw [e, e2]
        · right; left; rw [e, e2]
      · right; right; exact e

/-- The z-order `PlayfieldView::addCard` gives to a card that arrives with a
negative one: one more than the highest among `-1` and the z-orders of the
other members. -/
theorem PlayfieldView.addCard_assigned (h : Heap) (v : PlayfieldView) (c : Nat)
    (hz : (h c).localZOrder < 0) :
    ((PlayfieldView.addCard h v (some c)).1 c).localZOrder
      = ((v.cards.filter (fun q => q ≠ c)).map (fun q => (h q).localZOrder)).foldl max (-1)
          + 1 := by
  have hm : PlayfieldView.maxZOrderOthers (h.setParent c ParentNode.playfield)
      (v.cards ++ [c]) c
      = ((v.cards.filter (fun q => q ≠ c)).map (fun q => (h q).localZOrder)).foldl max (-1) := by
    rw [PlayfieldView.maxZOrderOthers_eq]
    congr 1
    rw [List.filter_append]
    simp only [List.filter_cons, List.filter_nil, ne_eq, not_true_eq_false, decide_False,
      Bool.false_eq_true, if_false, List.append_nil]
    apply List.map_congr_left
    intro q hq
    have hqc : q ≠ c := by simpa using (List.mem_filter.mp hq).2
    simp [hqc]
  have hge := (List.foldl_max_ge
    ((v.cards.filter (fun q => q ≠ c)).map (fun q => (h q).localZOrder)) (-1)).1
  have hz2 : ¬ (h c).localZOrder ≥ 0 := by omega
  simp only [PlayfieldView.addCard, hz2, if_false, hm]
  have e : (if ((v.cards.filter (fun q => q ≠ c)).map
        (fun q => (h q).localZOrder)).foldl max (-1) < 0 then (-1 : Int)
      else ((v.cards.filter (fun q => q ≠ c)).map
        (fun q => (h q).localZOrder)).foldl max (-1))
      = ((v.cards.filter (fun q => q ≠ c)).map (fun q => (h q).localZOrder)).foldl max (-1) := by
    split_ifs with hlt
    · omega
    · rfl
  rw [e]
  split_ifs <;>
    simp [CardView.withParent, CardView.withLocalZOrder, CardView.withVisible,
      CardView.withOpacity, CardView.withPosition]

theorem PlayfieldView.addCard_explicit (h : Heap) (v : PlayfieldView) (c : Nat)
    (hz : 0 ≤ (h c).localZOrder) :
    ((PlayfieldView.addCard h v (some c)).1 c).localZOrder = (h c).localZOrder := by
  simp only [PlayfieldView.addCard]
  have hz2 : (h c).localZOrder ≥ 0 := hz
  simp only [hz2, if_true]
  split_ifs <;>
    simp [CardView.withParent, CardView.withLocalZOrder, CardView.withVisible,
      CardView.withOpacity, CardView.withPosition]

theorem PlayfieldView.addCard_other_zOrder (h : Heap) (v : PlayfieldView) (c q : Nat)
    (hqc : q ≠ c) :
    ((PlayfieldView.addCard h v (some c)).1 q).localZOrder = (h q).localZOrder := by
  rw [PlayfieldView.playfield_addCard_other h v c q hqc]

/-- The assigned z-order lies above that of every other member, is never
negative, and is `0` or one more than the z-order of another member. -/
theorem PlayfieldView.addCard_assigned_bounds (h : Heap) (v : PlayfieldView) (c : Nat)
    (hz : (h c).localZOrder < 0) :
    (∀ q ∈ v.cards, q ≠ c →
      (h q).localZOrder < ((PlayfieldView.addCard h v (some c)).1 c).localZOrder) ∧
    0 ≤ ((PlayfieldView.addCard h v (some c)).1 c).localZOrder ∧
    (((PlayfieldView.addCard h v (some c)).1 c).localZOrder = 0 ∨
      ∃ q ∈ v.cards, q ≠ c ∧
        ((PlayfieldView.addCard h v (some c)).1 c).localZOrder = (h q).localZOrder + 1) := by
  rw [PlayfieldView.addCard_assigned h v c hz]
  obtain ⟨h1, h2, h3⟩ := List.foldl_max_ge
    ((v.cards.filter (fun q => q ≠ c)).map (fun q => (h q).localZOrder)) (-1)
  refine ⟨?_, by omega, ?_⟩
  · intro q hq hqc
    have : (h q).localZOrder ∈
        (v.cards.filter (fun q => q ≠ c)).map (fun q => (h q).localZOrder) :=
      List.mem_map.mpr ⟨q, List.mem_filter.mpr ⟨hq, by simpa using hqc⟩, rfl⟩
    have := h2 _ this
    omega
  · rcases h3 with e | e
    · left; rw [e]; rfl
    · right
      obtain ⟨q, hq, e2⟩ := List.mem_map.mp e
      have hq2 := List.mem_filter.mp hq
      exact ⟨q, hq2.1, by simpa using hq2.2, by rw [← e2]⟩

/-- C26, as stated, fails: the playfield holds one card, of z-order `-5`, and
a card of z-order `-1` is added; `max(z-orders present) + 1` is `-4`, and the
card gets `0`. -/
theorem addCard_over_negative_zOrders :
    (heapNegativeZOrders 1).localZOrder < 0 ∧
    (heapNegativeZOrders 0).localZOrder + 1 = -4 ∧
    ((PlayfieldView.addCard heapNegativeZOrders
        ⟨[0], fun _ => none, LayoutType.KEEP_ORIGINAL⟩ (some 1)).1 1).localZOrder = 0 ∧
    ((PlayfieldView.addCard heapNegativeZOrders
        ⟨[0], fun _ => none, LayoutType.KEEP_ORIGINAL⟩ (some 1)).1 1).localZOrder
      ≠ (heapNegativeZOrders 0).localZOrder + 1 := by
  decide

theorem PlayfieldView.addCard_negative (h : Heap) (v : PlayfieldView) (c : Nat)
    (hz : (h c).localZOrder < 0) :
    (PlayfieldView.addCard h v (some c)).2.cards = v.cards ++ [c] ∧
    ((PlayfieldView.addCard h v (some c)).1 c).localZOrder
      = ((v.cards.filter (fun q => q ≠ c)).map (fun q => (h q).localZOrder)).foldl max (-1)
          + 1 ∧
    (∀ q ∈ v.cards, q ≠ c →
      (h q).localZOrder < ((PlayfieldView.addCard h v (some c)).1 c).localZOrder) ∧
    0 ≤ ((PlayfieldView.addCard h v (some c)).1 c).localZOrder ∧
    (((PlayfieldView.addCard h v (some c)).1 c).localZOrder = 0 ∨
      ∃ q ∈ v.cards, q ≠ c ∧
        ((PlayfieldView.addCard h v (some c)).1 c).localZOrder = (h q).localZOrder + 1) ∧
    ((∀ q ∈ v.cards, q ≠ c → (h q).localZOrder < 0) →
      ((PlayfieldView.addCard h v (some c)).1 c).localZOrder = 0) ∧
    (∀ q, q ≠ c → (PlayfieldView.addCard h v (some c)).1 q = h q) := by
  obtain ⟨b1, b2, b3⟩ := PlayfieldView.addCard_assigned_bounds h v c hz
  refine ⟨rfl, PlayfieldView.addCard_assigned h v c hz, b1, b2, b3, ?_,
    fun q hqc => PlayfieldView.playfield_addCard_other h v c q hqc⟩
  intro hneg
  rcases b3 with e | ⟨q, hq, hqc, e⟩
  · exact e
  · have := hneg q hq hqc
    omega

/-- C26 (amended): `addCard` of a card whose z-order is negative appends it to
the member sequence and gives it one more than the highest among `-1` and the
z-orders of the other members: a value above every other member, never
negative, `0` when no other member has a non-negative z-order (an empty
playfield included), and otherwise one more than the highest z-order among
the other members; no other card changes. A card whose z-order is not
negative is appended and keeps it, and `addCard(null)` changes nothing. -/
theorem addCard_zOrder_assignment :
    (∀ (h : Heap) (v : PlayfieldView) (c : Nat), (h c).localZOrder < 0 →
      (PlayfieldView.addCard h v (some c)).2.cards = v.cards ++ [c] ∧
      ((PlayfieldView.addCard h v (some c)).1 c).localZOrder
        = ((v.cards.filter (fun q => q ≠ c)).map (fun q => (h q).localZOrder)).foldl max (-1)
            + 1 ∧
      (∀ q ∈ v.cards, q ≠ c →
        (h q).localZOrder < ((PlayfieldView.addCard h v (some c)).1 c).localZOrder) ∧
      0 ≤ ((PlayfieldView.addCard h v (some c)).1 c).localZOrder ∧
      (((PlayfieldView.addCard h v (some c)).1 c).localZOrder = 0 ∨
        ∃ q ∈ v.cards, q ≠ c ∧
          ((PlayfieldView.addCard h v (some c)).1 c).localZOrder = (h q).localZOrder + 1) ∧
      ((∀ q ∈ v.cards, q ≠ c → (h q).localZOrder < 0) →
        ((PlayfieldView.addCard h v (some c)).1 c).localZOrder = 0) ∧
      (∀ q, q ≠ c → (PlayfieldView.addCard h v (some c)).1 q = h q)) ∧
    (∀ (h : Heap) (v : PlayfieldView) (c : Nat), 0 ≤ (h c).localZOrder →
      (PlayfieldView.addCard h v (some c)).2.cards = v.cards ++ [c] ∧
      ((PlayfieldView.addCard h v (some c)).1 c).localZOrder = (h c).localZOrder ∧
      (∀ q, q ≠ c → (PlayfieldView.addCard h v (some c)).1 q = h q)) ∧
    (∀ (h : Heap) (v : PlayfieldView), PlayfieldView.addCard h v none = (h, v)) :=
  ⟨PlayfieldView.addCard_negative,
    fun h v c hz => ⟨rfl, PlayfieldView.addCard_explicit h v c hz,
      fun q hqc => PlayfieldView.playfield_addCard_other h v c q hqc⟩,
    fun _ _ => rfl⟩

/-- Witness for C26 (amended): the card of z-order `-1` added to the playfield
whose one card has z-order `-5` gets `0`; the card of z-order `1` added to an
empty playfield keeps it. -/
theorem addCard_zOrder_assignment_witness :
    (heapNegativeZOrders 1).localZOrder < 0 ∧
    ((PlayfieldView.addCard heapNegativeZOrders
        ⟨[0], fun _ => none, LayoutType.KEEP_ORIGINAL⟩ (some 1)).1 1).localZOrder = 0 ∧
    0 ≤ (heapZOrderOne 0).localZOrder ∧
    ((PlayfieldView.addCard heapZOrderOne
        ⟨[], fun _ => none, LayoutType.KEEP_ORIGINAL⟩ (some 0)).1 0).localZOrder = 1 :=
  ⟨by decide,
    (addCard_zOrder_assignment.1 heapNegativeZOrders
      ⟨[0], fun _ => none, LayoutType.KEEP_ORIGINAL⟩ 1 (by decide)).2.2.2.2.2.1
      (by decide),
    by decide,
    (addCard_zOrder_assignment.2.1 heapZOrderOne
      ⟨[], fun _ => none, LayoutType.KEEP_ORIGINAL⟩ 0 (by decide)).2.1⟩

/-! ## Pairwise distinct z-orders in the playfield -/

theorem List.foldl_keeps {α β : Type} (P : β → Prop) (f : β → α → β) (l : List α) (b : β)
    (hb : P b) (hstep : ∀ x a, a ∈ l → P x → P (f x a)) : P (l.foldl f b) := by
  induction l generalizing b with
  | nil => exact hb
  | cons a l ih =>
    exact ih (f b a) (hstep b a (List.mem_cons_self a l) hb)
      (fun x y hy hx => hstep x y (List.mem_cons_of_mem a hy) hx)

theorem PlayfieldView.DistinctZOrders.of_zOrder_eq {h h2 : Heap} {cards cards2 : List Nat}
    (hd : PlayfieldView.DistinctZOrders h cards) (hsub : ∀ q ∈ cards2, q ∈ cards)
    (hz : ∀ q ∈ cards2, (h2 q).localZOrder = (h q).localZOrder) :
    PlayfieldView.DistinctZOrders h2 cards2 := by
  intro a ha b hb hab
  rw [hz a ha, hz b hb]
  exact hd a (hsub a ha) b (hsub b hb) hab

theorem PlayfieldView.removeCard_zOrder (h : Heap) (v : PlayfieldView) (c q : Nat) :
    ((PlayfieldView.removeCard h v (some c)).1 q).localZOrder = (h q).localZOrder := by
  simp only [PlayfieldView.removeCard]
  by_cases hq : q = c
  · subst hq
    split_ifs <;> simp [CardView.withParent]
  · split_ifs <;> simp [hq]

theorem PlayfieldView.removeCard_distinct (h : Heap) (v : PlayfieldView) (c : Option Nat)
    (hd : PlayfieldView.DistinctZOrders h v.cards) :
    PlayfieldView.DistinctZOrders (PlayfieldView.removeCard h v c).1
      (PlayfieldView.removeCard h v c).2.cards := by
  cases c with
  | none => exact hd
  | some c =>
    refine hd.of_zOrder_eq ?_ ?_
    · intro q hq
      exact (List.mem_filter.mp hq).1
    · intro q _
      exact PlayfieldView.removeCard_zOrder h v c q

theorem PlayfieldView.addCard_distinct (h : Heap) (v : PlayfieldView) (c : Nat)
    (hd : PlayfieldView.DistinctZOrders h v.cards)
    (hfree : 0 ≤ (h c).localZOrder →
      ∀ q ∈ v.cards, q ≠ c → (h q).localZOrder ≠ (h c).localZOrder) :
    PlayfieldView.DistinctZOrders (PlayfieldView.addCard h v (some c)).1
      (PlayfieldView.addCard h v (some c)).2.cards := by
  have hother : ∀ q, q ≠ c →
      ((PlayfieldView.addCard h v (some c)).1 q).localZOrder = (h q).localZOrder :=
    fun q hqc => PlayfieldView.addCard_other_zOrder h v c q hqc
  have hnew : ∀ q ∈ v.cards, q ≠ c →
      (h q).localZOrder ≠ ((PlayfieldView.addCard h v (some c)).1 c).localZOrder := by
    intro q hq hqc
    by_cases hz : 0 ≤ (h c).localZOrder
    · rw [PlayfieldView.addCard_explicit h v c hz]
      exact hfree hz q hq hqc
    · have := (PlayfieldView.addCard_assigned_bounds h v c (by omega)).1 q hq hqc
      omega
  have hmem : ∀ q ∈ (PlayfieldView.addCard h v (some c)).2.cards, q ≠ c → q ∈ v.cards := by
    intro q hq hqc
    rw [PlayfieldView.playfield_addCard_cards] at hq
    rcases List.mem_append.mp hq with hq | hq
    · exact hq
    · exact absurd (List.mem_singleton.mp hq) hqc
  intro a ha b hb hab
  by_cases hac : a = c
  · subst hac
    have hbc : b ≠ a := fun e => hab e.symm
    rw [hother b hbc]
    exact fun e => hnew b (hmem b hb hbc) hbc e.symm
  · by_cases hbc : b = c
    · subst hbc
      rw [hother a hac]
      exact hnew a (hmem a ha hac) hac
    · rw [hother a hac, hother b hbc]
      exact hd a (hmem a ha hac) b (hmem b hb hbc) hab

/-! ### layoutCards -/

theorem Heap.setVisible_zOrder (h : Heap) (c q : Nat) (b : Bool) :
    ((h.setVisible c b) q).localZOrder = (h q).localZOrder := by
  by_cases hq : q = c
  · subst hq
    simp [CardView.withVisible]
  · simp [hq]

theorem PlayfieldView.layoutCustomStep_zOrder (h : Heap) (ic : Nat × Nat)
    (hz : 0 ≤ (h ic.2).localZOrder) (q : Nat) :
    ((PlayfieldView.layoutCustomStep h ic) q).localZOrder = (h q).localZOrder := by
  have h1 : ¬ ((h.setVisible ic.2 true) ic.2).localZOrder < 0 := by
    rw [Heap.setVisible_zOrder]
    omega
  simp only [PlayfieldView.layoutCustomStep, if_neg h1]
  exact Heap.setVisible_zOrder h ic.2 q true

theorem PlayfieldView.layoutKeepOriginalStep_zOrder (cards : List Nat) (h : Heap)
    (ic : Nat × Nat) (hic : ic ∈ cards.enum) (hnd : cards.Nodup)
    (hd : PlayfieldView.DistinctZOrders h cards)
    (hz : 0 ≤ (h ic.2).localZOrder) (q : Nat) :
    ((PlayfieldView.layoutKeepOriginalStep cards h ic) q).localZOrder = (h q).localZOrder := by
  have hnc : ¬ (cards.enum.any
      (fun jc => decide (ic.1 ≠ jc.1) && decide ((h jc.2).localZOrder = (h ic.2).localZOrder))
        = true ∨ (h ic.2).localZOrder < 0) := by
    rintro (hc | hneg)
    · rw [List.any_eq_true] at hc
      obtain ⟨jc, hjc, hcond⟩ := hc
      simp only [Bool.and_eq_true, decide_eq_true_eq] at hcond
      obtain ⟨hij, hzeq⟩ := hcond
      have hi := (List.mk_mem_enum_iff_getElem? (i := ic.1) (x := ic.2) (l := cards)).mp hic
      have hj := (List.mk_mem_enum_iff_getElem? (i := jc.1) (x := jc.2) (l := cards)).mp hjc
      by_cases e : jc.2 = ic.2
      · rw [e] at hj
        exact hij ((List.getElem?_inj (List.getElem?_eq_some_iff.mp hi).1 hnd
          (hi.trans hj.symm)))
      · exact hd jc.2 (List.getElem?_mem hj) ic.2 (List.getElem?_mem hi) e hzeq
    · omega
  simp only [PlayfieldView.layoutKeepOriginalStep, if_neg hnc]
  exact Heap.setVisible_zOrder h ic.2 q true

theorem PlayfieldView.layoutCards_cards (h : Heap) (v : PlayfieldView) (t : LayoutType) :
    (PlayfieldView.layoutCards h v t).2.cards = v.cards := by
  cases t <;> rfl

/-- With no repetition among the members, pairwise distinct z-orders and none
negative, `layoutCards(KEEP_ORIGINAL)` changes no z-order. -/
theorem PlayfieldView.layoutCards_keepOriginal_zOrder (h : Heap) (v : PlayfieldView)
    (hnd : v.cards.Nodup) (hd : PlayfieldView.DistinctZOrders h v.cards)
    (hz : ∀ c ∈ v.cards, 0 ≤ (h c).localZOrder) (q : Nat) :
    ((PlayfieldView.layoutCards h v LayoutType.KEEP_ORIGINAL).1 q).localZOrder
      = (h q).localZOrder := by
  show ((v.cards.enum.foldl (PlayfieldView.layoutKeepOriginalStep v.cards) h) q).localZOrder = _
  refine List.foldl_keeps (fun x : Heap => ∀ q, (x q).localZOrder = (h q).localZOrder)
    _ _ _ (fun _ => rfl) ?_ q
  intro x ic hic hx p
  have hmem : ic.2 ∈ v.cards :=
    List.getElem?_mem
      ((List.mk_mem_enum_iff_getElem? (i := ic.1) (x := ic.2) (l := v.cards)).mp hic)
  have hdx : PlayfieldView.DistinctZOrders x v.cards :=
    hd.of_zOrder_eq (fun _ hq => hq) (fun r _ => hx r)
  rw [PlayfieldView.layoutKeepOriginalStep_zOrder v.cards x ic hic hnd hdx
    (by rw [hx]; exact hz _ hmem) p]
  exact hx p

/-- With no negative z-order among the members, `layoutCards(CUSTOM)` changes
no z-order. -/
theorem PlayfieldView.layoutCards_custom_zOrder (h : Heap) (v : PlayfieldView)
    (hz : ∀ c ∈ v.cards, 0 ≤ (h c).localZOrder) (q : Nat) :
    ((PlayfieldView.layoutCards h v LayoutType.CUSTOM).1 q).localZOrder
      = (h q).localZOrder := by
  show ((v.cards.enum.foldl PlayfieldView.layoutCustomStep h) q).localZOrder = _
  refine List.foldl_keeps (fun x : Heap => ∀ q, (x q).localZOrder = (h q).localZOrder)
    _ _ _ (fun _ => rfl) ?_ q
  intro x ic hic hx p
  have hmem : ic.2 ∈ v.cards :=
    List.getElem?_mem
      ((List.mk_mem_enum_iff_getElem? (i := ic.1) (x := ic.2) (l := v.cards)).mp hic)
  rw [PlayfieldView.layoutCustomStep_zOrder x ic (by rw [hx]; exact hz _ hmem) p]
  exact hx p

theorem PlayfieldView.layoutHorizontal_not_mem (l : List Nat) (n : Nat) (h : Heap) (c : Nat)
    (hc : c ∉ l) :
    ((l.enumFrom n).foldl PlayfieldView.layoutHorizontalStep h) c = h c := by
  induction l generalizing n h with
  | nil => rfl
  | cons a l ih =>
    simp only [List.enumFrom_cons, List.foldl_cons]
    rw [ih (n + 1) _ (fun hm => hc (List.mem_cons_of_mem a hm))]
    have hca : c ≠ a := fun e => hc (e ▸ List.mem_cons_self a l)
    simp [PlayfieldView.layoutHorizontalStep, hca]

/-- After the HORIZONTAL_LINE loop every member has as z-order one of the
indices at which it stands. -/
theorem PlayfieldView.layoutHorizontal_zOrder (l : List Nat) (n : Nat) (h : Heap) (c : Nat)
    (hc : c ∈ l) :
    ∃ i, l[i]? = some c ∧
      (((l.enumFrom n).foldl PlayfieldView.layoutHorizontalStep h) c).localZOrder
        = ((n + i : Nat) : Int) := by
  induction l generalizing n h with
  | nil => exact absurd hc (List.not_mem_nil c)
  | cons a l ih =>
    simp only [List.enumFrom_cons, List.foldl_cons]
    by_cases hcl : c ∈ l
    · obtain ⟨i, hi, hz⟩ := ih (n + 1) (PlayfieldView.layoutHorizontalStep h (n, a)) hcl
      refine ⟨i + 1, by simpa using hi, ?_⟩
      rw [hz]
      congr 1
      omega
    · have hca : c = a := by
        rcases List.mem_cons.mp hc with e | e
        · exact e
        · exact absurd e hcl
      refine ⟨0, by simp [hca], ?_⟩
      rw [PlayfieldView.layoutHorizontal_not_mem l (n + 1) _ c hcl]
      subst hca
      simp [PlayfieldView.layoutHorizontalStep, CardView.withVisible, CardView.withLocalZOrder]

/-- After `layoutCards(HORIZONTAL_LINE)` the z-orders of the members are
pairwise distinct, whatever they were. -/
theorem PlayfieldView.layoutCards_horizontal_distinct (h : Heap) (v : PlayfieldView) :
    PlayfieldView.DistinctZOrders (PlayfieldView.layoutCards h v LayoutType.HORIZONTAL_LINE).1
      v.cards := by
  intro a ha b hb hab
  show ((v.cards.enum.foldl PlayfieldView.layoutHorizontalStep h) a).localZOrder
    ≠ ((v.cards.enum.foldl PlayfieldView.layoutHorizontalStep h) b).localZOrder
  obtain ⟨i, hi, hzi⟩ := PlayfieldView.layoutHorizontal_zOrder v.cards 0 h a ha
  obtain ⟨j, hj, hzj⟩ := PlayfieldView.layoutHorizontal_zOrder v.cards 0 h b hb
  rw [List.enum, hzi, hzj]
  intro e
  have hij : i = j := by omega
  rw [hij, hj] at hi
  exact hab (Option.some.inj hi).symm

theorem PlayfieldView.layoutCards_distinct (h : Heap) (v : PlayfieldView) (t : LayoutType)
    (hnd : v.cards.Nodup) (hd : PlayfieldView.DistinctZOrders h v.cards)
    (hz : ∀ c ∈ v.cards, 0 ≤ (h c).localZOrder) :
    PlayfieldView.DistinctZOrders (PlayfieldView.layoutCards h v t).1
      (PlayfieldView.layoutCards h v t).2.cards := by
  rw [PlayfieldView.layoutCards_cards]
  cases t with
  | KEEP_ORIGINAL =>
    exact hd.of_zOrder_eq (fun _ hq => hq)
      (fun q _ => PlayfieldView.layoutCards_keepOriginal_zOrder h v hnd hd hz q)
  | HORIZONTAL_LINE => exact PlayfieldView.layoutCards_horizontal_distinct h v
  | CUSTOM =>
    exact hd.of_zOrder_eq (fun _ hq => hq)
      (fun q _ => PlayfieldView.layoutCards_custom_zOrder h v hz q)

/-! ### restoreCardState and the repair pass of updateView -/

theorem PlayfieldView.restoreCardState_distinct (h : Heap) (v : PlayfieldView) (i : Int)
    (hd : PlayfieldView.DistinctZOrders h v.cards)
    (hfree : ∀ q ∈ v.cards,
      (v.cardStates i).map CardRestoreInfo.zOrder = some (h q).localZOrder →
      PlayfieldView.findCardById h v i = some q) :
    PlayfieldView.DistinctZOrders (PlayfieldView.restoreCardState h v i) v.cards := by
  have hfree2 : ∀ info c, v.cardStates i = some info →
      PlayfieldView.findCardById h v i = some c →
      ∀ q ∈ v.cards, q ≠ c → (h q).localZOrder ≠ info.zOrder := by
    intro info c hs hf q hq hqc e
    have := hfree q hq (by rw [hs, e]; rfl)
    rw [hf] at this
    exact hqc (Option.some.inj this).symm
  unfold PlayfieldView.restoreCardState
  cases hs : v.cardStates i with
  | none => exact hd
  | some info =>
    cases hf : PlayfieldView.findCardById h v i with
    | none => exact hd
    | some c =>
      simp only []
      obtain ⟨_, a2, _, _, _, a6⟩ :=
        Heap.restored_card h c info.position info.zOrder info.visible
      intro a ha b hb hab
      by_cases hac : a = c
      · subst hac
        have hbc : b ≠ a := fun e => hab e.symm
        rw [a2, a6 b hbc]
        exact fun e => hfree2 info a hs hf b hb hbc e.symm
      · by_cases hbc : b = c
        · subst hbc
          rw [a2, a6 a hac]
          exact hfree2 info b hs hf a ha hac
        · rw [a6 a hac, a6 b hbc]
          exact hd a ha b hb hab

theorem GameController.updateViewCard_zOrder_eq (h : Heap) (c : Nat)
    (hc : 0 ≤ (h c).localZOrder) (q : Nat) :
    ((GameController.updateViewCard h c) q).localZOrder = (h q).localZOrder := by
  have h3 : ¬ (h c).localZOrder < 0 := by omega
  by_cases e : q = c <;> by_cases h1 : (h c).opacity = 0 <;>
    by_cases h2 : (h c).visible = false <;>
    simp [GameController.updateViewCard, e, h1, h2, h3, CardView.withVisible]

theorem GameController.updateView_zOrder_eq (s : GameState)
    (hz : ∀ c ∈ s.playfieldView.cards, 0 ≤ (s.heap c).localZOrder) (q : Nat) :
    ((GameController.updateView s).heap q).localZOrder = (s.heap q).localZOrder := by
  show ((s.playfieldView.cards.foldl GameController.updateViewCard s.heap) q).localZOrder = _
  refine List.foldl_keeps (fun x : Heap => ∀ q, (x q).localZOrder = (s.heap q).localZOrder)
    _ _ _ (fun _ => rfl) ?_ q
  intro x c hc hx p
  rw [GameController.updateViewCard_zOrder_eq x c (by rw [hx]; exact hz c hc) p]
  exact hx p

/-- C25, as stated, fails. A card that arrives with the z-order `0` keeps it
in `addCard` beside a member of z-order `0`; the repair pass of `updateView`
gives the z-order `10` to a card of negative z-order beside a member of
z-order `10`; `restoreCardState` puts back the saved z-order `1` beside a
member that has taken `1` since; `layoutCards(KEEP_ORIGINAL)` and
`layoutCards(CUSTOM)` give the card at index `1` the z-order `1` beside a
member of z-order `1`; and `layoutCards(KEEP_ORIGINAL)` turns the z-orders
`1, 0, 0` into `1, 1, 0`. -/
theorem playfield_zOrders_collide :
    (PlayfieldView.DistinctZOrders heapZOrderOne [1] ∧
      ¬ PlayfieldView.DistinctZOrders
        (PlayfieldView.addCard heapZOrderOne ⟨[1], fun _ => none, LayoutType.KEEP_ORIGINAL⟩
          (some 2)).1
        (PlayfieldView.addCard heapZOrderOne ⟨[1], fun _ => none, LayoutType.KEEP_ORIGINAL⟩
          (some 2)).2.cards) ∧
    (PlayfieldView.DistinctZOrders heapZOrderTen [0, 1] ∧
      ¬ PlayfieldView.DistinctZOrders
        (GameController.updateView
          { GameState.blank with
            heap := heapZOrderTen,
            playfieldView := ⟨[0, 1], fun _ => none, LayoutType.KEEP_ORIGINAL⟩ }).heap
        [0, 1]) ∧
    (PlayfieldView.DistinctZOrders
        (Heap.setLocalZOrder (Heap.setLocalZOrder heapZOrderOne 0 5) 1 1) [0, 1] ∧
      ¬ PlayfieldView.DistinctZOrders
        (PlayfieldView.restoreCardState
          (Heap.setLocalZOrder (Heap.setLocalZOrder heapZOrderOne 0 5) 1 1)
          (PlayfieldView.saveCardState heapZOrderOne
            ⟨[0, 1], fun _ => none, LayoutType.KEEP_ORIGINAL⟩ (-1)) (-1))
        [0, 1]) ∧
    (PlayfieldView.DistinctZOrders (Heap.setLocalZOrder heapZOrderOne 1 (-1)) [0, 1] ∧
      ¬ PlayfieldView.DistinctZOrders
        (PlayfieldView.layoutCards (Heap.setLocalZOrder heapZOrderOne 1 (-1))
          ⟨[0, 1], fun _ => none, LayoutType.KEEP_ORIGINAL⟩ LayoutType.KEEP_ORIGINAL).1 [0, 1] ∧
      ¬ PlayfieldView.DistinctZOrders
        (PlayfieldView.layoutCards (Heap.setLocalZOrder heapZOrderOne 1 (-1))
          ⟨[0, 1], fun _ => none, LayoutType.KEEP_ORIGINAL⟩ LayoutType.CUSTOM).1 [0, 1]) ∧
    ([0, 1, 2].map (fun c => (heapZOrderOne c).localZOrder) = [1, 0, 0] ∧
      [0, 1, 2].map (fun c =>
        ((PlayfieldView.layoutCards heapZOrderOne
          ⟨[0, 1, 2], fun _ => none, LayoutType.KEEP_ORIGINAL⟩
          LayoutType.KEEP_ORIGINAL).1 c).localZOrder) = [1, 1, 0] ∧
      ¬ PlayfieldView.DistinctZOrders
        (PlayfieldView.layoutCards heapZOrderOne
          ⟨[0, 1, 2], fun _ => none, LayoutType.KEEP_ORIGINAL⟩ LayoutType.KEEP_ORIGINAL).1
        [0, 1, 2]) := by
  decide

/-- C25 (amended): pairwise distinct z-orders in the playfield stay pairwise
distinct through `addCard` of a card whose z-order is negative, or is not the
z-order of another member; through `removeCard`; through `layoutCards` of any
type and the repair pass of `updateView` when no member has a negative
z-order (and, for `layoutCards`, no card stands twice in the member
sequence), in which case `layoutCards(KEEP_ORIGINAL)`, `layoutCards(CUSTOM)`
and the repair pass change no z-order; and through `restoreCardState` when
every member that has the saved z-order is the card being restored. After
`layoutCards(HORIZONTAL_LINE)` the z-orders of the members are pairwise
distinct whatever they were before. -/
theorem playfield_zOrders_stay_distinct :
    (∀ (h : Heap) (v : PlayfieldView) (c : Nat),
      PlayfieldView.DistinctZOrders h v.cards →
      (0 ≤ (h c).localZOrder →
        ∀ q ∈ v.cards, q ≠ c → (h q).localZOrder ≠ (h c).localZOrder) →
      PlayfieldView.DistinctZOrders (PlayfieldView.addCard h v (some c)).1
        (PlayfieldView.addCard h v (some c)).2.cards) ∧
    (∀ (h : Heap) (v : PlayfieldView) (c : Option Nat),
      PlayfieldView.DistinctZOrders h v.cards →
      PlayfieldView.DistinctZOrders (PlayfieldView.removeCard h v c).1
        (PlayfieldView.removeCard h v c).2.cards) ∧
    (∀ (h : Heap) (v : PlayfieldView) (t : LayoutType),
      v.cards.Nodup → PlayfieldView.DistinctZOrders h v.cards →
      (∀ c ∈ v.cards, 0 ≤ (h c).localZOrder) →
      PlayfieldView.DistinctZOrders (PlayfieldView.layoutCards h v t).1
        (PlayfieldView.layoutCards h v t).2.cards ∧
      (∀ c ∈ v.cards, 0 ≤ ((PlayfieldView.layoutCards h v t).1 c).localZOrder)) ∧
    (∀ (h : Heap) (v : PlayfieldView),
      PlayfieldView.DistinctZOrders
        (PlayfieldView.layoutCards h v LayoutType.HORIZONTAL_LINE).1
        (PlayfieldView.layoutCards h v LayoutType.HORIZONTAL_LINE).2.cards) ∧
    (∀ (h : Heap) (v : PlayfieldView) (i : Int),
      PlayfieldView.DistinctZOrders h v.cards →
      (∀ q ∈ v.cards,
        (v.cardStates i).map CardRestoreInfo.zOrder = some (h q).localZOrder →
        PlayfieldView.findCardById h v i = some q) →
      PlayfieldView.DistinctZOrders (PlayfieldView.restoreCardState h v i) v.cards) ∧
    (∀ (s : GameState),
      PlayfieldView.DistinctZOrders s.heap s.playfieldView.cards →
      (∀ c ∈ s.playfieldView.cards, 0 ≤ (s.heap c).localZOrder) →
      PlayfieldView.DistinctZOrders (GameController.updateView s).heap
        (GameController.updateView s).playfieldView.cards) ∧
    (∀ (h : Heap) (v : PlayfieldView),
      v.cards.Nodup → PlayfieldView.DistinctZOrders h v.cards →
      (∀ c ∈ v.cards, 0 ≤ (h c).localZOrder) →
      ∀ q, ((PlayfieldView.layoutCards h v LayoutType.KEEP_ORIGINAL).1 q).localZOrder
        = (h q).localZOrder) ∧
    (∀ (h : Heap) (v : PlayfieldView),
      (∀ c ∈ v.cards, 0 ≤ (h c).localZOrder) →
      ∀ q, ((PlayfieldView.layoutCards h v LayoutType.CUSTOM).1 q).localZOrder
        = (h q).localZOrder) ∧
    (∀ (s : GameState),
      (∀ c ∈ s.playfieldView.cards, 0 ≤ (s.heap c).localZOrder) →
      ∀ q, ((GameController.updateView s).heap q).localZOrder = (s.heap q).localZOrder) := by
  refine ⟨PlayfieldView.addCard_distinct, PlayfieldView.removeCard_distinct, ?_,
    PlayfieldView.layoutCards_horizontal_distinct, PlayfieldView.restoreCardState_distinct, ?_,
    PlayfieldView.layoutCards_keepOriginal_zOrder, PlayfieldView.layoutCards_custom_zOrder,
    GameController.updateView_zOrder_eq⟩
  · intro h v t hnd hd hz
    refine ⟨PlayfieldView.layoutCards_distinct h v t hnd hd hz, ?_⟩
    intro c hc
    cases t with
    | KEEP_ORIGINAL =>
      rw [PlayfieldView.layoutCards_keepOriginal_zOrder h v hnd hd hz c]
      exact hz c hc
    | HORIZONTAL_LINE =>
      obtain ⟨i, _, hzi⟩ := PlayfieldView.layoutHorizontal_zOrder v.cards 0 h c hc
      show 0 ≤ ((v.cards.enum.foldl PlayfieldView.layoutHorizontalStep h) c).localZOrder
      rw [List.enum, hzi]
      omega
    | CUSTOM =>
      rw [PlayfieldView.layoutCards_custom_zOrder h v hz c]
      exact hz c hc
  · intro s hd hz
    exact hd.of_zOrder_eq (fun _ hq => hq)
      (fun q _ => GameController.updateView_zOrder_eq s hz q)

/-- Witness for C25 (amended): in the state `GameView::init` builds for
`levelMargin`, the z-orders of the two playfield cards are distinct, and stay
so, unchanged, through `layoutCards(KEEP_ORIGINAL)` and the repair pass of
`updateView`, and distinct through removing the first member and through
saving and restoring the first member; a card of negative z-order joins a
playfield of one card. -/
theorem playfield_zOrders_stay_distinct_witness :
    (GameView.init levelMargin).playfieldView.cards = [0, 1] ∧
    PlayfieldView.DistinctZOrders
      (PlayfieldView.layoutCards (GameView.init levelMargin).heap
        (GameView.init levelMargin).playfieldView LayoutType.KEEP_ORIGINAL).1
      (PlayfieldView.layoutCards (GameView.init levelMargin).heap
        (GameView.init levelMargin).playfieldView LayoutType.KEEP_ORIGINAL).2.cards ∧
    PlayfieldView.DistinctZOrders
      (PlayfieldView.removeCard (GameView.init levelMargin).heap
        (GameView.init levelMargin).playfieldView (some 0)).1
      (PlayfieldView.removeCard (GameView.init levelMargin).heap
        (GameView.init levelMargin).playfieldView (some 0)).2.cards ∧
    PlayfieldView.DistinctZOrders
      (GameController.updateView (GameView.init levelMargin)).heap
      (GameController.updateView (GameView.init levelMargin)).playfieldView.cards ∧
    PlayfieldView.DistinctZOrders
      (PlayfieldView.addCard heapNegativeZOrders
        ⟨[0], fun _ => none, LayoutType.KEEP_ORIGINAL⟩ (some 1)).1
      (PlayfieldView.addCard heapNegativeZOrders
        ⟨[0], fun _ => none, LayoutType.KEEP_ORIGINAL⟩ (some 1)).2.cards ∧
    PlayfieldView.DistinctZOrders
      (PlayfieldView.restoreCardState (GameView.init levelMargin).heap
        (PlayfieldView.saveCardState (GameView.init levelMargin).heap
          (GameView.init levelMargin).playfieldView 0) 0)
      (PlayfieldView.saveCardState (GameView.init levelMargin).heap
        (GameView.init levelMargin).playfieldView 0).cards ∧
    ((PlayfieldView.layoutCards (GameView.init levelMargin).heap
        (GameView.init levelMargin).playfieldView LayoutType.KEEP_ORIGINAL).1 1).localZOrder
      = ((GameView.init levelMargin).heap 1).localZOrder ∧
    ((GameController.updateView (GameView.init levelMargin)).heap 1).localZOrder
      = ((GameView.init levelMargin).heap 1).localZOrder :=
  ⟨by decide,
    (playfield_zOrders_stay_distinct.2.2.1 _ _ LayoutType.KEEP_ORIGINAL (by decide) (by decide)
      (by decide)).1,
    playfield_zOrders_stay_distinct.2.1 _ _ (some 0) (by decide),
    playfield_zOrders_stay_distinct.2.2.2.2.2.1 _ (by decide) (by decide),
    playfield_zOrders_stay_distinct.1 _ _ 1 (by decide) (by decide),
    playfield_zOrders_stay_distinct.2.2.2.2.1 _ _ 0 (by decide) (by decide),
    playfield_zOrders_stay_distinct.2.2.2.2.2.2.1 _ _ (by decide) (by decide) (by decide) 1,
    playfield_zOrders_stay_distinct.2.2.2.2.2.2.2.2 _ (by decide) 1⟩
